import Mathlib

/-!
# tcb::rational — a verification development

A shallow embedding of `include/tcb/rational.hpp` and theorems about it.

Element types.  `tcb::rational<T>` is a class template over an integer type `T`.  The
embedding keeps the template parameter: an `IntType` is either a fixed-width integer type
(`fixed bits isSigned`, values stored as mathematical integers in the range of the type, every
conversion to the type written as an explicit `wrap`, i.e. reduction modulo `2 ^ bits`) or
`unbounded`, the idealised element type whose `wrap` is the identity.  Statements made
"without overflow" are made twice: at the element type `unbounded`, where every intermediate
product, sum and negation has its exact mathematical value, and at the fixed-width types
under the hypotheses that the values the code computes are values of the type in which it
computes them.

Signed overflow is undefined behaviour in C++; at a fixed-width signed type the embedding
gives it the two's-complement wraparound value.  For types narrower than `int` the
arithmetic is carried out in `int` (integral promotion) and only the conversion back to `T`
wraps, which is what `IntType.promote` records (`int` is taken to be 32 bits wide).

Division and remainder.  `x / y` and `x % y` have no result when `y` is 0 and when `x` is the
least value of a signed type of the rank of `int` or above and `y` is -1 (`IntType.traps`).
The total functions `detail.gcd`, `simplify` and `make` give such an operation the value of
`Int.tmod` and `Int.tdiv`; the runs `detail.gcd_run`, `simplify_checked`, `make_checked`,
`op_div_checked`, `explicit_cast_checked` and `op_sub_assign_checked` are `none` there, and
they agree with the total functions wherever they return.
-/

namespace tcb

/-! ## Integer element types -/

/-- An integer element type: a fixed-width type or the unbounded idealisation. -/
inductive IntType where
  | unbounded
  | fixed (bits : Nat) (isSigned : Bool)
deriving DecidableEq

namespace IntType

/-- Conversion of a mathematical integer to the type: reduction modulo `2 ^ bits`, into
`[0, 2 ^ bits)` for an unsigned type and into `[-2 ^ (bits-1), 2 ^ (bits-1))` for a signed
one.  The identity at `unbounded`. -/
def wrap : IntType → Int → Int
  | unbounded, x => x
  | fixed w false, x => x % 2 ^ w
  | fixed w true, x =>
    let r := x % 2 ^ w
    if 2 ^ (w - 1) ≤ r then r - 2 ^ w else r

/-- The values of the type. -/
def inRange : IntType → Int → Prop
  | unbounded, _ => True
  | fixed w false, x => 0 ≤ x ∧ x < 2 ^ w
  | fixed w true, x => -(2 ^ (w - 1)) ≤ x ∧ x < 2 ^ (w - 1)

/-- The least value `-2 ^ (bits - 1)` of a signed fixed-width type, the one value whose
negation is not a value of the type.  No value of an unsigned or of the unbounded type
qualifies. -/
def isMin : IntType → Int → Prop
  | fixed w true, x => x = -(2 ^ (w - 1))
  | _, _ => False

/-- Well-formed types: a fixed-width type has at least one bit. -/
def valid : IntType → Prop
  | unbounded => True
  | fixed w _ => 0 < w

/-- The integers whose magnitude the type can hold up to sign: the values of the type and,
for a signed type, also `2 ^ (bits - 1)`, the negation of its least value. -/
def fits : IntType → Int → Prop
  | unbounded, _ => True
  | fixed w false, x => 0 ≤ x ∧ x < 2 ^ w
  | fixed w true, x => -(2 ^ (w - 1)) ≤ x ∧ x ≤ 2 ^ (w - 1)

instance (T : IntType) (x : Int) : Decidable (T.inRange x) := by
  cases T with
  | unbounded => exact isTrue trivial
  | fixed w s =>
    cases s
    · exact inferInstanceAs (Decidable (0 ≤ x ∧ x < 2 ^ w))
    · exact inferInstanceAs (Decidable (-(2 ^ (w - 1)) ≤ x ∧ x < 2 ^ (w - 1)))

instance (T : IntType) (x : Int) : Decidable (T.isMin x) := by
  cases T with
  | unbounded => exact isFalse id
  | fixed w s =>
    cases s
    · exact isFalse id
    · exact inferInstanceAs (Decidable (x = -(2 ^ (w - 1))))

instance (T : IntType) : Decidable T.valid := by
  cases T with
  | unbounded => exact isTrue trivial
  | fixed w s => exact inferInstanceAs (Decidable (0 < w))

/-- Integral promotion: a type narrower than `int` is promoted to `int`. -/
def promote : IntType → IntType
  | unbounded => unbounded
  | fixed w s => if w < 32 then fixed 32 true else fixed w s

/-- The usual arithmetic conversions: the type in which a binary arithmetic or comparison
operator on operands of types `T` and `U` is evaluated (and the type of its result, for an
arithmetic operator).  Both operands are promoted; with equal signedness the wider type wins;
otherwise the unsigned type wins unless the signed one is strictly wider. -/
def common (T U : IntType) : IntType :=
  match T.promote, U.promote with
  | unbounded, _ => unbounded
  | _, unbounded => unbounded
  | fixed w1 true, fixed w2 true => fixed (max w1 w2) true
  | fixed w1 false, fixed w2 false => fixed (max w1 w2) false
  | fixed ws true, fixed wu false => if ws ≤ wu then fixed wu false else fixed ws true
  | fixed wu false, fixed ws true => if ws ≤ wu then fixed wu false else fixed ws true

/-- Unary `-x` on an operand of type `T`: evaluated in the promoted type. -/
def neg (T : IntType) (x : Int) : Int := T.promote.wrap (-x)

/-- The product `x * y` evaluated in the type `C`, both operands converted to `C`. -/
def mul (C : IntType) (x y : Int) : Int := C.wrap (C.wrap x * C.wrap y)

/-- The sum `x + y` evaluated in the type `C`, both operands converted to `C`. -/
def add (C : IntType) (x y : Int) : Int := C.wrap (C.wrap x + C.wrap y)

/-- The difference `x - y` evaluated in the type `C`, both operands converted to `C`. -/
def sub (C : IntType) (x y : Int) : Int := C.wrap (C.wrap x - C.wrap y)

/-- The quotient `x / y` evaluated in the type `C`: C++ division truncates toward zero. -/
def div (C : IntType) (x y : Int) : Int := C.wrap ((C.wrap x).tdiv (C.wrap y))

end IntType

/-- The unbounded element type: arithmetic without overflow. -/
abbrev Z : IntType := IntType.unbounded

/-- The type `signed char` / `std::int8_t`. -/
abbrev int8 : IntType := IntType.fixed 8 true

/-- The type `int` / `std::int32_t`. -/
abbrev int32 : IntType := IntType.fixed 32 true

/-! ## namespace detail -/

namespace detail

/-- The loop of `detail::gcd`, `while (b != 0) { T t = b; b = a % b; a = t; } return a;`,
with an iteration budget.  C++ `%` is the remainder of truncating division, `Int.tmod`.
The remainder of two values of `T` is a value of `T` (its magnitude is below that of `b`),
so no conversion changes it and the function is the same for every element type.  The one
remainder C++ leaves undefined, least value `% -1` at a type of rank `int` or more, has the
mathematical value 0 here; `gcd_run` is the loop with no result on that remainder. -/
def gcd_loop : Nat → Int → Int → Int
  | 0, a, _ => a
  | fuel + 1, a, b => if b = 0 then a else gcd_loop fuel b (a.tmod b)

/-- The function `detail::gcd(a, b)`.  The budget `|b| + 1` is never exhausted, since `|b|`
strictly decreases at each iteration (`gcd_eq` below is the loop's unfolding equation). -/
def gcd (a b : Int) : Int := gcd_loop (b.natAbs + 1) a b

/-- The function `detail::sign(val)`: `val < 0 ? -1 : 1`. -/
def sign (val : Int) : Int := if val < 0 then -1 else 1

/-- The function `detail::abs(val)`: `val < 0 ? -val : val`, the result converted to `T`. -/
def abs (T : IntType) (val : Int) : Int := if val < 0 then T.wrap (T.neg val) else val

end detail

/-! ## class rational -/

/-- The class `rational<T>`: the two data members `num_` and `denom_`. -/
structure rational (T : IntType) where
  num : Int
  denom : Int
deriving DecidableEq

namespace rational

variable {T : IntType}

/-- The private member `simplify()`:
`auto g = abs(gcd(num_, denom_)); num_ = sign(denom_) * num_/g; denom_ = abs(denom_)/g;`.
Division by `g = 0` is undefined in C++; `Int.tdiv` returns 0 there, and
`simplify_checked` is the member with no result on it. -/
def simplify (r : rational T) : rational T :=
  let g := detail.abs T (detail.gcd r.num r.denom)
  let num1 := T.wrap (T.promote.div (T.promote.mul (detail.sign r.denom) r.num) g)
  let denom1 := T.wrap (T.promote.div (detail.abs T r.denom) g)
  { num := num1, denom := denom1 }

/-- The default constructor: `num_ = 0`, `denom_ = 1`. -/
def default (T : IntType) : rational T := { num := 0, denom := 1 }

/-- The constructor `rational(U num)`: `num_(num)`, `denom_` keeps its initialiser 1. -/
def from_value (T : IntType) (num : Int) : rational T := { num := T.wrap num, denom := 1 }

/-- The constructor `rational(value_type num, value_type denom)`: stores both, then
`simplify()`. -/
def make (T : IntType) (num denom : Int) : rational T :=
  simplify { num := num, denom := denom }

/-- The pair of stored fields, for field-for-field comparison across element types. -/
def fields (r : rational T) : Int × Int := (r.num, r.denom)

/-- The class invariant: strictly positive denominator, and numerator and denominator in
lowest terms, `gcd(|num|, denom) = 1`. -/
def Inv (r : rational T) : Prop := 0 < r.denom ∧ Nat.gcd r.num.natAbs r.denom.natAbs = 1

instance (r : rational T) : Decidable (Inv r) := by
  unfold Inv
  infer_instance

/-- The rational number a stored pair stands for. -/
def value (r : rational T) : ℚ := (r.num : ℚ) / (r.denom : ℚ)

end rational

/-! ## The Rational concept: numerator() and denominator() -/

/-- A plain integer of type `T` used as an operand of the generic operators. -/
structure integer (T : IntType) where
  val : Int
deriving DecidableEq

/-- The types accepted by the generic operators (`is_rational_v`), with
`rational_value_t` and the free functions `numerator()` and `denominator()`. -/
class Rational (α : Type) where
  value_type : IntType
  numerator : α → Int
  denominator : α → Int

instance (T : IntType) : Rational (rational T) where
  value_type := T
  numerator r := r.num
  denominator r := r.denom

instance (T : IntType) : Rational (integer T) where
  value_type := T
  numerator v := v.val
  denominator _ := 1

open Rational in
/-- The common type of the element types of two operands. -/
abbrev common_t (α β : Type) [Rational α] [Rational β] : IntType :=
  (value_type α).common (value_type β)

/-! ## Comparison operators -/

section operators

open Rational

variable {α β : Type} [Rational α] [Rational β]

/-- The template `operator==`: numerators equal and denominators equal. -/
def op_eq (lhs : α) (rhs : β) : Bool :=
  let C := common_t α β
  decide (C.wrap (numerator lhs) = C.wrap (numerator rhs)) &&
    decide (C.wrap (denominator lhs) = C.wrap (denominator rhs))

/-- The template `operator<`:
`numerator(lhs) * denominator(rhs) < numerator(rhs) * denominator(lhs)`. -/
def op_lt (lhs : α) (rhs : β) : Bool :=
  let C := common_t α β
  decide (C.mul (numerator lhs) (denominator rhs) < C.mul (numerator rhs) (denominator lhs))

/-! ## Arithmetic operators -/

/-- Unary `operator+`: returns its argument. -/
def op_pos {T : IntType} (r : rational T) : rational T := r

/-- Unary `operator-`: `rational<T>{static_cast<T>(-r.num()), r.denom()}`. -/
def op_neg {T : IntType} (r : rational T) : rational T :=
  rational.make T (T.wrap (T.neg r.num)) r.denom

/-- Binary `operator+`: `rational<value_type>{denominator(lhs) * numerator(rhs) +
denominator(rhs) * numerator(lhs), denominator(lhs) * denominator(rhs)}`. -/
def op_add (lhs : α) (rhs : β) : rational (common_t α β) :=
  let C := common_t α β
  rational.make C
    (C.add (C.mul (denominator lhs) (numerator rhs)) (C.mul (denominator rhs) (numerator lhs)))
    (C.mul (denominator lhs) (denominator rhs))

/-- Binary `operator-`: `rational<value_type>{numerator(lhs) * denominator(rhs) -
numerator(rhs) * denominator(lhs), denominator(lhs) * denominator(rhs)}`. -/
def op_sub (lhs : α) (rhs : β) : rational (common_t α β) :=
  let C := common_t α β
  rational.make C
    (C.sub (C.mul (numerator lhs) (denominator rhs)) (C.mul (numerator rhs) (denominator lhs)))
    (C.mul (denominator lhs) (denominator rhs))

/-- Binary `operator*`: `rational<value_type>{numerator(lhs) * numerator(rhs),
denominator(lhs) * denominator(rhs)}`. -/
def op_mul (lhs : α) (rhs : β) : rational (common_t α β) :=
  let C := common_t α β
  rational.make C
    (C.mul (numerator lhs) (numerator rhs))
    (C.mul (denominator lhs) (denominator rhs))

/-- Binary `operator/`: `rational<value_type>{numerator(lhs) * denominator(rhs),
denominator(lhs) * numerator(rhs)}`. -/
def op_div (lhs : α) (rhs : β) : rational (common_t α β) :=
  let C := common_t α β
  rational.make C
    (C.mul (numerator lhs) (denominator rhs))
    (C.mul (denominator lhs) (numerator rhs))

end operators

/-! ## Compound assignment

The compound operators mutate the receiver and read the right operand through a const
reference.  They are embedded as transformers of a store holding the two objects, one
statement at a time. -/

/-- Two distinct objects: the receiver `*this` and the object bound to `other`. -/
structure Objects (T U : IntType) where
  self : rational T
  other : rational U
deriving DecidableEq

section compound

variable {T U : IntType}

/-- The member `operator+=(const rational<U>& other)`:
`num_ *= other.denom(); num_ += denom_ * other.num(); denom_ *= other.denom(); simplify();`. -/
def op_add_assign (st : Objects T U) : Objects T U :=
  let C := T.common U
  let st1 : Objects T U :=
    { st with self := { st.self with num := T.wrap (C.mul st.self.num st.other.denom) } }
  let st2 : Objects T U :=
    { st1 with self := { st1.self with
        num := T.wrap (C.add st1.self.num (C.mul st1.self.denom st1.other.num)) } }
  let st3 : Objects T U :=
    { st2 with self := { st2.self with denom := T.wrap (C.mul st2.self.denom st2.other.denom) } }
  { st3 with self := st3.self.simplify }

/-- The member `operator-=(const rational<U>& other)`:
`num_ *= other.denom(); num_ -= denom_ * other.num(); denom_ *= other.denom(); simplify();`. -/
def op_sub_assign (st : Objects T U) : Objects T U :=
  let C := T.common U
  let st1 : Objects T U :=
    { st with self := { st.self with num := T.wrap (C.mul st.self.num st.other.denom) } }
  let st2 : Objects T U :=
    { st1 with self := { st1.self with
        num := T.wrap (C.sub st1.self.num (C.mul st1.self.denom st1.other.num)) } }
  let st3 : Objects T U :=
    { st2 with self := { st2.self with denom := T.wrap (C.mul st2.self.denom st2.other.denom) } }
  { st3 with self := st3.self.simplify }

/-- The member `operator*=(const rational<U>& other)`:
`num_ *= other.num(); denom_ *= other.denom(); simplify();`. -/
def op_mul_assign (st : Objects T U) : Objects T U :=
  let C := T.common U
  let st1 : Objects T U :=
    { st with self := { st.self with num := T.wrap (C.mul st.self.num st.other.num) } }
  let st2 : Objects T U :=
    { st1 with self := { st1.self with denom := T.wrap (C.mul st1.self.denom st1.other.denom) } }
  { st2 with self := st2.self.simplify }

/-- The member `operator/=(const rational<U>& other)`:
`num_ *= other.denom(); denom_ *= other.num(); simplify();`. -/
def op_div_assign (st : Objects T U) : Objects T U :=
  let C := T.common U
  let st1 : Objects T U :=
    { st with self := { st.self with num := T.wrap (C.mul st.self.num st.other.denom) } }
  let st2 : Objects T U :=
    { st1 with self := { st1.self with denom := T.wrap (C.mul st1.self.denom st1.other.num) } }
  { st2 with self := st2.self.simplify }

/-- The member `operator+=(U other)`: `return *this += rational<U>{other};`. -/
def op_add_assign_value (self : rational T) (other : integer U) : rational T :=
  (op_add_assign { self := self, other := rational.from_value U other.val }).self

/-- The member `operator-=(U other)`: `return *this -= rational<U>{other};`. -/
def op_sub_assign_value (self : rational T) (other : integer U) : rational T :=
  (op_sub_assign { self := self, other := rational.from_value U other.val }).self

/-- The member `operator*=(U other)`: `return *this *= rational<U>{other};`. -/
def op_mul_assign_value (self : rational T) (other : integer U) : rational T :=
  (op_mul_assign { self := self, other := rational.from_value U other.val }).self

/-- The member `operator/=(U other)`: `return *this /= rational<U>{other};`. -/
def op_div_assign_value (self : rational T) (other : integer U) : rational T :=
  (op_div_assign { self := self, other := rational.from_value U other.val }).self

end compound

/-! ## Conversions, assignment and the derived comparison operators -/

namespace IntType

/-- The signed element types: the unbounded type and the signed fixed-width types. -/
def signed : IntType → Prop
  | unbounded => True
  | fixed _ s => s = true

instance (T : IntType) : Decidable T.signed := by
  cases T with
  | unbounded => exact isTrue trivial
  | fixed w s => exact inferInstanceAs (Decidable (s = true))

/-- The gate `is_nonnarrowing_assignable_v<T, U>`: `T{std::declval<U>()}` is well-formed,
which list-initialisation allows exactly when every value of `U` is a value of `T`. -/
def nonnarrowing : IntType → IntType → Bool
  | unbounded, _ => true
  | fixed _ _, unbounded => false
  | fixed wt true, fixed wu true => decide (wu ≤ wt)
  | fixed wt false, fixed wu false => decide (wu ≤ wt)
  | fixed wt true, fixed wu false => decide (wu < wt)
  | fixed _ false, fixed _ true => false

end IntType

/-- The type `long long` / `std::int64_t`. -/
abbrev int64 : IntType := IntType.fixed 64 true

/-- The type `unsigned long` / `std::uint64_t`. -/
abbrev uint64 : IntType := IntType.fixed 64 false

namespace rational

variable {T : IntType}

/-- The converting constructor `rational(const rational<U>& other)`:
`num_(other.num()), denom_(other.denom())`, each field converted to `T`, no `simplify()`.
It takes part in overload resolution only when `is_nonnarrowing_assignable_v<T, U>`. -/
def from_rational (T : IntType) {U : IntType} (other : rational U) : rational T :=
  { num := T.wrap other.num, denom := T.wrap other.denom }

/-- The defaulted copy assignment `operator=(const rational&)`: the receiver takes both
fields of `other`, whatever it held before. -/
def assign (_self other : rational T) : rational T := other

/-- The assignment `r = v` of an integer: `v` is converted by the constructor `rational(U num)`
and the temporary is copy-assigned. -/
def assign_value (self : rational T) (v : Int) : rational T := assign self (from_value T v)

/-- The explicit conversion `operator rational<U>()`:
`return rational<U>{static_cast<U>(num_), static_cast<U>(denom_)};`, a call of the
two-argument constructor of `rational<U>`. -/
def explicit_cast (U : IntType) (r : rational T) : rational U :=
  make U (U.wrap r.num) (U.wrap r.denom)

end rational

section derived_operators

variable {α β : Type} [Rational α] [Rational β]

/-- The template `operator!=`: `!(lhs == rhs)`. -/
def op_ne (lhs : α) (rhs : β) : Bool := !(op_eq lhs rhs)

/-- The template `operator>`: `rhs < lhs`. -/
def op_gt (lhs : α) (rhs : β) : Bool := op_lt rhs lhs

/-- The template `operator<=`: `!(lhs > rhs)`. -/
def op_le (lhs : α) (rhs : β) : Bool := !(op_gt lhs rhs)

/-- The template `operator>=`: `!(lhs < rhs)`. -/
def op_ge (lhs : α) (rhs : β) : Bool := !(op_lt lhs rhs)

end derived_operators

/-! ## The loop of detail::gcd as a bounded run and as a well-founded recursion -/

namespace IntType

/-- The operand values of `x / y` and `x % y` at type `C` on which the operation has no
result: C++ leaves it undefined, and the processor raises a division error, when the divisor
is 0 and when the quotient is not representable, which is the least value of a signed
fixed-width type divided by -1. -/
def traps (C : IntType) (x y : Int) : Prop := y = 0 ∨ (C.isMin x ∧ y = -1)

instance (C : IntType) (x y : Int) : Decidable (C.traps x y) := by
  unfold traps
  infer_instance

end IntType

namespace detail

/-- The loop of `detail::gcd<T>` run for at most `fuel` iterations: `some a` once `b` is 0.
The remainder `a % b` is evaluated in the promoted type; the run has no result (`none`) when
that remainder traps, and when the iterations are used up while `b` is still non-zero. -/
def gcd_run (T : IntType) : Nat → Int → Int → Option Int
  | 0, a, b => if b = 0 then some a else none
  | fuel + 1, a, b =>
    if b = 0 then some a
    else if T.promote.traps a b then none
    else gcd_run T fuel b (a.tmod b)

/-- The loop of `detail::gcd` by well-founded recursion on `|b|`: each iteration replaces
`b` by `a % b`, whose absolute value is smaller. -/
def gcd_wf (a b : Int) : Int :=
  if _h : b = 0 then a else gcd_wf b (a.tmod b)
termination_by b.natAbs
decreasing_by
  have hb : 0 < b.natAbs := Int.natAbs_pos.mpr _h
  have hm : (a.tmod b).natAbs = a.natAbs % b.natAbs := by
    cases a <;> cases b <;> simp [Int.tmod, Int.natAbs_neg] <;> rfl
  rw [hm]
  exact Nat.mod_lt _ hb

end detail

/-- The type `short` / `std::int16_t`. -/
abbrev int16 : IntType := IntType.fixed 16 true

/-- The type `unsigned char` / `std::uint8_t`. -/
abbrev uint8 : IntType := IntType.fixed 8 false

/-- The type `unsigned short` / `std::uint16_t`. -/
abbrev uint16 : IntType := IntType.fixed 16 false

/-- The type `unsigned int` / `std::uint32_t`. -/
abbrev uint32 : IntType := IntType.fixed 32 false

namespace rational

variable {T : IntType}

/-- The local `g` of `simplify()`: `abs(gcd(num_, denom_))`, the divisor of both divisions. -/
def simplify_g (r : rational T) : Int := detail.abs T (detail.gcd r.num r.denom)

end rational

/-! ## Compound assignment with the receiver as its own argument -/

section compound_self

variable {T : IntType}

/-- The member `operator+=(const rational<U>& other)` called as `r += r`: `other` is bound to
the receiver, so every `other.num()` and `other.denom()` reads the receiver's current field.
`num_ *= other.denom(); num_ += denom_ * other.num(); denom_ *= other.denom(); simplify();`. -/
def op_add_assign_self (r : rational T) : rational T :=
  let C := T.common T
  let r1 : rational T := { r with num := T.wrap (C.mul r.num r.denom) }
  let r2 : rational T := { r1 with num := T.wrap (C.add r1.num (C.mul r1.denom r1.num)) }
  let r3 : rational T := { r2 with denom := T.wrap (C.mul r2.denom r2.denom) }
  r3.simplify

/-- The member `operator-=(const rational<U>& other)` called as `r -= r`:
`num_ *= other.denom(); num_ -= denom_ * other.num(); denom_ *= other.denom(); simplify();`. -/
def op_sub_assign_self (r : rational T) : rational T :=
  let C := T.common T
  let r1 : rational T := { r with num := T.wrap (C.mul r.num r.denom) }
  let r2 : rational T := { r1 with num := T.wrap (C.sub r1.num (C.mul r1.denom r1.num)) }
  let r3 : rational T := { r2 with denom := T.wrap (C.mul r2.denom r2.denom) }
  r3.simplify

/-- The member `operator*=(const rational<U>& other)` called as `r *= r`:
`num_ *= other.num(); denom_ *= other.denom(); simplify();`. -/
def op_mul_assign_self (r : rational T) : rational T :=
  let C := T.common T
  let r1 : rational T := { r with num := T.wrap (C.mul r.num r.num) }
  let r2 : rational T := { r1 with denom := T.wrap (C.mul r1.denom r1.denom) }
  r2.simplify

/-- The member `operator/=(const rational<U>& other)` called as `r /= r`:
`num_ *= other.denom(); denom_ *= other.num(); simplify();`. -/
def op_div_assign_self (r : rational T) : rational T :=
  let C := T.common T
  let r1 : rational T := { r with num := T.wrap (C.mul r.num r.denom) }
  let r2 : rational T := { r1 with denom := T.wrap (C.mul r1.denom r1.num) }
  r2.simplify

end compound_self

/-! ## namespace rational_literals -/

namespace rational_literals

/-- The struct `rational_literal_proxy<T>`: the denominator written with a literal suffix. -/
structure rational_literal_proxy (T : IntType) where
  value : Int
deriving DecidableEq

/-- The function `make_literal_proxy<T>(unsigned long long i)`: `{static_cast<T>(i)}`. -/
def make_literal_proxy (T : IntType) (i : Nat) : rational_literal_proxy T :=
  { value := T.wrap (i : Int) }

/-- The template `operator/(T t, rational_literal_proxy<U> p)`: `rational<U>(t, p.value)`,
the two-argument constructor, whose first parameter converts `t` to `U`. -/
def op_div_proxy {U : IntType} (t : Int) (p : rational_literal_proxy U) : rational U :=
  rational.make U (U.wrap t) p.value

/-- The literal operator `_r`: `make_literal_proxy<int>(i)`. -/
def lit_r (i : Nat) : rational_literal_proxy int32 := make_literal_proxy int32 i

/-- The literal operator `_rs`: `make_literal_proxy<short>(i)`. -/
def lit_rs (i : Nat) : rational_literal_proxy int16 := make_literal_proxy int16 i

/-- The literal operator `_ru64`: `make_literal_proxy<std::uint_least64_t>(i)`. -/
def lit_ru64 (i : Nat) : rational_literal_proxy uint64 := make_literal_proxy uint64 i

end rational_literals

/-! ## Stream output -/

/-- The insertion `os << x` of an integer `x` of type `T` into a `std::ostream` in its
default state, as the characters appended.  The standard library writes a value of a
character type (`char`, `signed char`, `unsigned char`: the 8-bit types) as the single
character with that code, and a value of any other integer type as its decimal numeral, with
a leading `-` when negative. -/
def stream_insert (T : IntType) (x : Int) : String :=
  match T with
  | IntType.fixed 8 _ => String.singleton (Char.ofNat (x % 256).toNat)
  | _ => Int.repr x

/-- The function `operator<<(std::ostream& os, const rational<T>& r)`:
`os << r.num(); if (r.denom() != 1) { os << '/' << r.denom(); } return os;`, with the
stream as the text written so far. -/
def op_lshift {T : IntType} (os : String) (r : rational T) : String :=
  let os1 := os ++ stream_insert T r.num
  if r.denom ≠ 1 then os1 ++ "/" ++ stream_insert T r.denom else os1

/-- The text one rational leaves on an empty stream. -/
def format {T : IntType} (r : rational T) : String := op_lshift "" r

/-! ## Normalisation and division as fallible computations -/

namespace rational

variable {T : IntType}

/-- The member `simplify()` as a fallible computation: the run has no result (`none`) when
the loop of `gcd(num_, denom_)` has none, and when one of the two divisions by
`g = abs(gcd(num_, denom_))` traps; both are evaluated in the promoted type. -/
def simplify_checked (r : rational T) : Option (rational T) :=
  match detail.gcd_run T (r.denom.natAbs + 1) r.num r.denom with
  | none => none
  | some g0 =>
    let g := detail.abs T g0
    let x := T.promote.mul (detail.sign r.denom) r.num
    if T.promote.traps (T.promote.wrap x) (T.promote.wrap g) then none
    else if T.promote.traps (T.promote.wrap (detail.abs T r.denom)) (T.promote.wrap g) then none
    else
      some { num := T.wrap (T.promote.div x g),
             denom := T.wrap (T.promote.div (detail.abs T r.denom) g) }

/-- The constructor `rational(value_type num, value_type denom)` as a fallible computation:
stores both, then `simplify()`. -/
def make_checked (T : IntType) (num denom : Int) : Option (rational T) :=
  simplify_checked { num := num, denom := denom }

end rational

section operators_checked

open Rational

variable {α β : Type} [Rational α] [Rational β]

/-- Binary `operator/` as a fallible computation: its own body only multiplies, the
divisions are those of the constructor it calls. -/
def op_div_checked (lhs : α) (rhs : β) : Option (rational (common_t α β)) :=
  let C := common_t α β
  rational.make_checked C
    (C.mul (numerator lhs) (denominator rhs))
    (C.mul (denominator lhs) (numerator rhs))

end operators_checked

/-! ## Conversion and compound subtraction as fallible computations -/

namespace rational

variable {T : IntType}

end rational

section compound_checked

variable {T U : IntType}

/-- The member `operator-=(const rational<U>& other)` as a fallible computation: the three
assignments, then `simplify()`, which may have no result. -/
def op_sub_assign_checked (st : Objects T U) : Option (Objects T U) :=
  let C := T.common U
  let st1 : Objects T U :=
    { st with self := { st.self with num := T.wrap (C.mul st.self.num st.other.denom) } }
  let st2 : Objects T U :=
    { st1 with self := { st1.self with
        num := T.wrap (C.sub st1.self.num (C.mul st1.self.denom st1.other.num)) } }
  let st3 : Objects T U :=
    { st2 with self := { st2.self with denom := T.wrap (C.mul st2.self.denom st2.other.denom) } }
  st3.self.simplify_checked.map (fun x => { st3 with self := x })

end compound_checked

/-! ## The loop of detail::gcd -/

namespace detail

theorem natAbs_tmod (a b : Int) : (a.tmod b).natAbs = a.natAbs % b.natAbs := by
  cases a <;> cases b <;> simp [Int.tmod, Int.natAbs_neg] <;> rfl

theorem natAbs_tmod_lt (a b : Int) (hb : b ≠ 0) : (a.tmod b).natAbs < b.natAbs := by
  rw [natAbs_tmod]
  exact Nat.mod_lt _ (Int.natAbs_pos.mpr hb)

theorem gcd_loop_stable (f1 : Nat) : ∀ (f2 : Nat) (a b : Int), b.natAbs < f1 → b.natAbs < f2 →
    gcd_loop f1 a b = gcd_loop f2 a b := by
  induction f1 with
  | zero => intro f2 a b h1 _; omega
  | succ k ih =>
    intro f2 a b h1 h2
    cases f2 with
    | zero => omega
    | succ m =>
      simp only [gcd_loop]
      by_cases hb : b = 0
      · simp [hb]
      · simp only [hb, if_false]
        have hlt := natAbs_tmod_lt a b hb
        exact ih m b (a.tmod b) (by omega) (by omega)

/-- The unfolding equation of the loop: the iteration budget is never exhausted. -/
theorem gcd_eq (a b : Int) : gcd a b = if b = 0 then a else gcd b (a.tmod b) := by
  unfold gcd
  simp only [gcd_loop]
  by_cases hb : b = 0
  · simp [hb]
  · simp only [hb, if_false]
    have hlt := natAbs_tmod_lt a b hb
    exact gcd_loop_stable b.natAbs ((a.tmod b).natAbs + 1) b (a.tmod b) hlt (by omega)

theorem gcd_zero_right (a : Int) : gcd a 0 = a := by
  rw [gcd_eq]; simp

/-- Up to sign, `detail::gcd` is the greatest common divisor. -/
theorem natAbs_gcd (a b : Int) : (gcd a b).natAbs = Int.gcd a b := by
  obtain ⟨n, hn⟩ : ∃ n, b.natAbs = n := ⟨_, rfl⟩
  induction n using Nat.strong_induction_on generalizing a b with
  | _ n ih =>
    rw [gcd_eq]
    by_cases hb : b = 0
    · simp [hb]
    · simp only [hb, if_false]
      have hlt := natAbs_tmod_lt a b hb
      rw [ih _ (hn ▸ hlt) b (a.tmod b) rfl]
      simp only [Int.gcd, natAbs_tmod]
      rw [Nat.gcd_comm, ← Nat.gcd_rec, Nat.gcd_comm]

end detail

/-! ## The unbounded element type -/

@[simp] theorem wrap_Z (x : Int) : IntType.wrap Z x = x := rfl
@[simp] theorem promote_Z : IntType.promote Z = Z := rfl
@[simp] theorem common_Z : IntType.common Z Z = Z := rfl
@[simp] theorem neg_Z (x : Int) : IntType.neg Z x = -x := rfl
@[simp] theorem mul_Z (x y : Int) : IntType.mul Z x y = x * y := rfl
@[simp] theorem add_Z (x y : Int) : IntType.add Z x y = x + y := rfl
@[simp] theorem sub_Z (x y : Int) : IntType.sub Z x y = x - y := rfl
@[simp] theorem div_Z (x y : Int) : IntType.div Z x y = x.tdiv y := rfl

namespace detail

theorem abs_Z (v : Int) : abs Z v = |v| := by
  unfold abs
  split
  · next h => simp [abs_of_neg h]
  · next h => simp [abs_of_nonneg (not_lt.mp h)]

theorem abs_gcd_Z (n d : Int) : abs Z (gcd n d) = (Int.gcd n d : Int) := by
  rw [abs_Z, ← natAbs_gcd, Int.natCast_natAbs]

theorem sign_mul_self (d : Int) : sign d * d = |d| := by
  unfold sign
  split
  · next h => simp [abs_of_neg h]
  · next h => simp [abs_of_nonneg (not_lt.mp h)]

theorem sign_mul_sign (d : Int) : sign d * sign d = 1 := by
  unfold sign
  split <;> simp

theorem natAbs_sign_mul (d n : Int) : (sign d * n).natAbs = n.natAbs := by
  unfold sign
  split <;> simp

end detail

namespace rational

open detail

theorem gcd_dvd_sign_mul (n d : Int) : (Int.gcd n d : Int) ∣ sign d * n :=
  Dvd.dvd.mul_left (Int.gcd_dvd_left) _

theorem gcd_dvd_abs (n d : Int) : (Int.gcd n d : Int) ∣ |d| :=
  (dvd_abs _ _).mpr Int.gcd_dvd_right

/-- The two-argument constructor without overflow, in closed form. -/
theorem make_Z (n d : Int) :
    make Z n d = { num := sign d * n / (Int.gcd n d : Int), denom := |d| / (Int.gcd n d : Int) } := by
  simp only [make, simplify, promote_Z, mul_Z, div_Z, wrap_Z]
  rw [abs_gcd_Z, abs_Z, Int.tdiv_eq_ediv_of_dvd (gcd_dvd_sign_mul n d), Int.tdiv_eq_ediv_of_dvd (gcd_dvd_abs n d)]

theorem make_Z_num_mul (n d : Int) :
    (make Z n d).num * (Int.gcd n d : Int) = sign d * n := by
  rw [make_Z]
  exact Int.ediv_mul_cancel (gcd_dvd_sign_mul n d)

theorem make_Z_denom_mul (n d : Int) :
    (make Z n d).denom * (Int.gcd n d : Int) = |d| := by
  rw [make_Z]
  exact Int.ediv_mul_cancel (gcd_dvd_abs n d)

theorem gcd_pos_of_denom (n : Int) {d : Int} (hd : d ≠ 0) : 0 < Int.gcd n d :=
  Int.gcd_pos_iff.mpr (Or.inr hd)

/-- Cross-multiplication: the constructed pair stands for `n / d`. -/
theorem make_Z_cross (n : Int) {d : Int} (hd : d ≠ 0) :
    (make Z n d).num * d = n * (make Z n d).denom := by
  have hg : (Int.gcd n d : Int) ≠ 0 := by
    have := gcd_pos_of_denom n hd
    omega
  apply mul_right_cancel₀ hg
  calc (make Z n d).num * d * (Int.gcd n d : Int)
      = ((make Z n d).num * (Int.gcd n d : Int)) * d := by ring
    _ = sign d * n * d := by rw [make_Z_num_mul]
    _ = n * (sign d * d) := by ring
    _ = n * |d| := by rw [sign_mul_self]
    _ = n * ((make Z n d).denom * (Int.gcd n d : Int)) := by rw [make_Z_denom_mul]
    _ = n * (make Z n d).denom * (Int.gcd n d : Int) := by ring

theorem make_Z_denom_pos (n : Int) {d : Int} (hd : d ≠ 0) : 0 < (make Z n d).denom := by
  have hg : (0 : Int) < (Int.gcd n d : Int) := by
    have := gcd_pos_of_denom n hd
    omega
  have h := make_Z_denom_mul n d
  have hd' : 0 < |d| := abs_pos.mpr hd
  rw [← h] at hd'
  exact (pos_iff_pos_of_mul_pos hd').mpr hg

theorem make_Z_coprime (n : Int) {d : Int} (hd : d ≠ 0) :
    Int.gcd (make Z n d).num (make Z n d).denom = 1 := by
  have hg := gcd_pos_of_denom n hd
  have hgcd : Int.gcd (sign d * n) |d| = Int.gcd n d := by
    simp only [Int.gcd, natAbs_sign_mul, Int.natAbs_abs]
  rw [make_Z]
  simp only
  have := Int.gcd_div_gcd_div_gcd (i := sign d * n) (j := |d|) (by rw [hgcd]; exact hg)
  rwa [hgcd] at this

/-- Without overflow the two-argument constructor establishes the invariant. -/
theorem make_Z_inv (n : Int) {d : Int} (hd : d ≠ 0) : Inv (make Z n d) :=
  ⟨make_Z_denom_pos n hd, make_Z_coprime n hd⟩

theorem make_Z_value (n : Int) {d : Int} (hd : d ≠ 0) :
    (make Z n d).value = (n : ℚ) / (d : ℚ) := by
  have hpos := make_Z_denom_pos n hd
  have hc := make_Z_cross n hd
  unfold value
  have h1 : ((make Z n d).denom : ℚ) ≠ 0 := by exact_mod_cast hpos.ne'
  have h2 : (d : ℚ) ≠ 0 := by exact_mod_cast hd
  rw [div_eq_div_iff h1 h2]
  exact_mod_cast hc

/-- A pair satisfying the invariant is determined by the rational number it stands for. -/
theorem Inv.eq_of_value_eq {T : IntType} {r s : rational T} (hr : Inv r) (hs : Inv s)
    (h : r.value = s.value) : r = s := by
  have hn : r.num = s.num := by
    have h1 := Rat.num_div_eq_of_coprime hr.1 hr.2
    have h2 := Rat.num_div_eq_of_coprime hs.1 hs.2
    unfold value at h
    rw [← h1, ← h2, h]
  have hd : r.denom = s.denom := by
    have h1 := Rat.den_div_eq_of_coprime hr.1 hr.2
    have h2 := Rat.den_div_eq_of_coprime hs.1 hs.2
    unfold value at h
    rw [← h1, ← h2, h]
  cases r; cases s; simp_all

theorem make_Z_eq_of_cross {n d n' d' : Int} (hd : d ≠ 0) (hd' : d' ≠ 0)
    (h : n * d' = n' * d) : make Z n d = make Z n' d' := by
  apply Inv.eq_of_value_eq (make_Z_inv n hd) (make_Z_inv n' hd')
  rw [make_Z_value n hd, make_Z_value n' hd']
  have h2 : (d : ℚ) ≠ 0 := by exact_mod_cast hd
  have h3 : (d' : ℚ) ≠ 0 := by exact_mod_cast hd'
  rw [div_eq_div_iff h2 h3]
  exact_mod_cast h

theorem make_Z_eq_iff {n d n' d' : Int} (hd : d ≠ 0) (hd' : d' ≠ 0) :
    make Z n d = make Z n' d' ↔ n * d' = n' * d := by
  constructor
  · intro h
    have h1 := congrArg value h
    rw [make_Z_value n hd, make_Z_value n' hd'] at h1
    have h2 : (d : ℚ) ≠ 0 := by exact_mod_cast hd
    have h3 : (d' : ℚ) ≠ 0 := by exact_mod_cast hd'
    rw [div_eq_div_iff h2 h3] at h1
    exact_mod_cast h1
  · exact make_Z_eq_of_cross hd hd'

/-- Normalisation leaves a pair that satisfies the invariant unchanged. -/
theorem make_Z_of_inv {r : rational Z} (hr : Inv r) : make Z r.num r.denom = r := by
  have hd : r.denom ≠ 0 := hr.1.ne'
  apply Inv.eq_of_value_eq (make_Z_inv _ hd) hr
  rw [make_Z_value _ hd]
  rfl

end rational
namespace IntType

theorem two_pow_pred {w : Nat} (hw : 0 < w) : (2 : Int) ^ w = 2 * 2 ^ (w - 1) := by
  obtain ⟨k, rfl⟩ : ∃ k, w = k + 1 := ⟨w - 1, by omega⟩
  simp [pow_succ]
  ring

theorem two_pow_pos (w : Nat) : (0 : Int) < 2 ^ w := by positivity

theorem wrap_unsigned_of_inRange {w : Nat} {x : Int} (h0 : 0 ≤ x) (h1 : x < 2 ^ w) :
    wrap (fixed w false) x = x := by
  simp only [wrap]
  exact Int.emod_eq_of_lt h0 h1

theorem wrap_signed_of_inRange {w : Nat} (hw : 0 < w) {x : Int}
    (h0 : -(2 ^ (w - 1)) ≤ x) (h1 : x < 2 ^ (w - 1)) : wrap (fixed w true) x = x := by
  have hM := two_pow_pos (w - 1)
  have h2 := two_pow_pred hw
  simp only [wrap]
  by_cases hx : 0 ≤ x
  · have hr : x % 2 ^ w = x := Int.emod_eq_of_lt hx (by omega)
    rw [hr]
    rw [if_neg (by omega)]
  · have hr : x % 2 ^ w = x + 2 ^ w := by
      rw [← Int.add_emod_self]
      exact Int.emod_eq_of_lt (by omega) (by omega)
    rw [hr]
    rw [if_pos (by omega)]
    omega

theorem wrap_signed_top {w : Nat} (hw : 0 < w) :
    wrap (fixed w true) (2 ^ (w - 1)) = -(2 ^ (w - 1)) := by
  have hM := two_pow_pos (w - 1)
  have h2 := two_pow_pred hw
  simp only [wrap]
  have hr : (2 : Int) ^ (w - 1) % 2 ^ w = 2 ^ (w - 1) := Int.emod_eq_of_lt (by omega) (by omega)
  rw [hr, if_pos (le_refl _)]
  omega

/-- At a signed type, conversion preserves the absolute value of every integer whose
magnitude is at most `2 ^ (bits - 1)`. -/
theorem natAbs_wrap_signed {w : Nat} (hw : 0 < w) {x : Int} (h : (x.natAbs : Int) ≤ 2 ^ (w - 1)) :
    (wrap (fixed w true) x).natAbs = x.natAbs := by
  by_cases hx : x = 2 ^ (w - 1)
  · rw [hx, wrap_signed_top hw, Int.natAbs_neg]
  · rw [wrap_signed_of_inRange hw (by omega) (by omega)]


theorem wrap_signed_range {w : Nat} (hw : 0 < w) (x : Int) :
    -(2 ^ (w - 1)) ≤ wrap (fixed w true) x ∧ wrap (fixed w true) x < 2 ^ (w - 1) := by
  have hM := two_pow_pos (w - 1)
  have h2 := two_pow_pred hw
  have hr0 : 0 ≤ x % 2 ^ w := Int.emod_nonneg _ (by omega)
  have hr1 : x % 2 ^ w < 2 ^ w := Int.emod_lt_of_pos _ (by omega)
  simp only [wrap]
  split <;> constructor <;> omega

theorem fits_of_inRange {T : IntType} {x : Int} (h : T.inRange x) : T.fits x := by
  match T, h with
  | unbounded, _ => trivial
  | fixed w false, h => exact h
  | fixed w true, h => exact ⟨h.1, le_of_lt h.2⟩

/-- Conversion to the type preserves the absolute value of an integer that fits. -/
theorem fits_wrap {T : IntType} (hT : T.valid) {x : Int} (h : T.fits x) :
    (T.wrap x).natAbs = x.natAbs ∧ T.inRange (T.wrap x) := by
  match T, hT, h with
  | unbounded, _, _ => exact ⟨rfl, trivial⟩
  | fixed w false, _, h =>
    rw [wrap_unsigned_of_inRange h.1 h.2]
    exact ⟨rfl, h⟩
  | fixed w true, hT, h =>
    refine ⟨natAbs_wrap_signed hT ?_, wrap_signed_range hT x⟩
    have hM := two_pow_pos (w - 1)
    have := h.1
    have := h.2
    omega

/-- The promoted type holds every value of the type. -/
theorem promote_cases (w : Nat) (s : Bool) :
    (w < 32 ∧ promote (fixed w s) = fixed 32 true) ∨ (32 ≤ w ∧ promote (fixed w s) = fixed w s) := by
  unfold promote
  by_cases h : w < 32
  · left; simp [h]
  · right; simp [h]; omega

theorem two_pow_le_int {a b : Nat} (h : a ≤ b) : (2 : Int) ^ a ≤ 2 ^ b :=
  pow_le_pow_right₀ (by norm_num) h

/-- Evaluation in the promoted type preserves the absolute value of an integer that fits
the type, and the result still fits. -/
theorem fits_promote_wrap {T : IntType} (hT : T.valid) {x : Int} (h : T.fits x) :
    (T.promote.wrap x).natAbs = x.natAbs ∧ T.fits (T.promote.wrap x) := by
  match T, hT, h with
  | unbounded, _, _ => exact ⟨rfl, trivial⟩
  | fixed w false, _, h =>
    have h1 := h.1
    have h2 := h.2
    have hx : (promote (fixed w false)).wrap x = x := by
      rcases promote_cases w false with ⟨hw, hP⟩ | ⟨hw, hP⟩
      · rw [hP]
        have h31 : (2 : Int) ^ w ≤ 2 ^ (32 - 1) := two_pow_le_int (by omega)
        have hp := two_pow_pos (32 - 1)
        exact wrap_signed_of_inRange (by norm_num) (by omega) (by omega)
      · rw [hP]
        exact wrap_unsigned_of_inRange h.1 h.2
    rw [hx]
    exact ⟨rfl, h⟩
  | fixed w true, hT, h =>
    have hM := two_pow_pos (w - 1)
    have h1 := h.1
    have h2 := h.2
    rcases promote_cases w true with ⟨hw, hP⟩ | ⟨hw, hP⟩
    · rw [hP]
      have h31 : (2 : Int) ^ (w - 1) < 2 ^ (32 - 1) := by
        have : (2 : Int) ^ (w - 1) ≤ 2 ^ 30 := two_pow_le_int (by omega)
        have : (2 : Int) ^ 30 < 2 ^ (32 - 1) := by norm_num
        omega
      rw [wrap_signed_of_inRange (by norm_num) (by omega) (by omega)]
      exact ⟨rfl, h⟩
    · rw [hP]
      refine ⟨natAbs_wrap_signed hT (by omega), ?_⟩
      have := wrap_signed_range hT x
      exact ⟨this.1, le_of_lt this.2⟩

/-- Truncating division by a non-negative divisor keeps an integer that fits. -/
theorem fits_tdiv {T : IntType} {x g : Int} (h : T.fits x) (hg : 0 ≤ g) : T.fits (x.tdiv g) := by
  have hle : (x.tdiv g).natAbs ≤ x.natAbs := by
    rw [Int.natAbs_tdiv]
    exact Nat.div_le_self _ _
  match T, h with
  | unbounded, _ => trivial
  | fixed w false, h =>
    have h0 : 0 ≤ x.tdiv g := Int.tdiv_nonneg h.1 hg
    have := h.1
    have := h.2
    constructor <;> omega
  | fixed w true, h =>
    have := h.1
    have := h.2
    constructor <;> omega


theorem wrap_of_inRange {T : IntType} (hT : T.valid) {x : Int} (h : T.inRange x) :
    T.wrap x = x := by
  match T, hT, h with
  | unbounded, _, _ => rfl
  | fixed w false, _, h => exact wrap_unsigned_of_inRange h.1 h.2
  | fixed w true, hT, h => exact wrap_signed_of_inRange hT h.1 h.2

theorem promote_wrap_of_inRange {T : IntType} (hT : T.valid) {x : Int} (h : T.inRange x) :
    T.promote.wrap x = x := by
  match T, hT, h with
  | unbounded, _, _ => rfl
  | fixed w false, _, h =>
    have h1 := h.1
    have h2 := h.2
    rcases promote_cases w false with ⟨hw, hP⟩ | ⟨hw, hP⟩
    · rw [hP]
      have h31 : (2 : Int) ^ w ≤ 2 ^ (32 - 1) := two_pow_le_int (by omega)
      have hp := two_pow_pos (32 - 1)
      exact wrap_signed_of_inRange (by norm_num) (by omega) (by omega)
    · rw [hP]
      exact wrap_unsigned_of_inRange h1 h2
  | fixed w true, hT, h =>
    have h1 := h.1
    have h2 := h.2
    rcases promote_cases w true with ⟨hw, hP⟩ | ⟨hw, hP⟩
    · rw [hP]
      have h31 : (2 : Int) ^ (w - 1) ≤ 2 ^ (32 - 1) := two_pow_le_int (by omega)
      exact wrap_signed_of_inRange (by norm_num) (by omega) (by omega)
    · rw [hP]
      exact wrap_signed_of_inRange hT h1 h2

/-- A non-negative integer bounded by `|d|`, for a value `d` of the type other than the
least value of a signed type, is a value of the type. -/
theorem inRange_of_le_natAbs {T : IntType} {d : Int} (hd : T.inRange d) (hmin : ¬ T.isMin d)
    {x : Int} (h0 : 0 ≤ x) (h1 : x ≤ d.natAbs) : T.inRange x := by
  match T, hd, hmin with
  | unbounded, _, _ => trivial
  | fixed w false, hd, _ =>
    have := hd.1
    have := hd.2
    constructor <;> omega
  | fixed w true, hd, hmin =>
    have := hd.1
    have := hd.2
    have hne : d ≠ -(2 ^ (w - 1)) := hmin
    constructor <;> omega

end IntType

namespace detail

open IntType

theorem sign_inRange {T : IntType} {d : Int} (hd : T.inRange d) (hd0 : d ≠ 0)
    (hmin : ¬ T.isMin d) : T.inRange (sign d) := by
  match T, hd, hmin with
  | unbounded, _, _ => trivial
  | fixed w false, hd, _ =>
    have := hd.1
    have := hd.2
    have hs : sign d = 1 := by unfold sign; rw [if_neg (by omega)]
    rw [hs]
    constructor <;> omega
  | fixed w true, hd, hmin =>
    have := hd.1
    have := hd.2
    have hne : d ≠ -(2 ^ (w - 1)) := hmin
    unfold sign
    split <;> constructor <;> omega

theorem sign_mul_fits {T : IntType} {n d : Int} (hn : T.inRange n) (hd : T.inRange d) :
    T.fits (sign d * n) := by
  match T, hn, hd with
  | unbounded, _, _ => trivial
  | fixed w false, hn, hd =>
    have := hd.1
    have hs : sign d = 1 := by unfold sign; rw [if_neg (by omega)]
    rw [hs, one_mul]
    exact hn
  | fixed w true, hn, hd =>
    have := hn.1
    have := hn.2
    unfold sign
    split <;> constructor <;> omega

/-- The function `detail::abs` returns the absolute value whenever that value survives the
conversions of the negated operand. -/
theorem abs_eq_natAbs (T : IntType) (v : Int)
    (h : T.wrap (T.promote.wrap (v.natAbs : Int)) = (v.natAbs : Int)) :
    abs T v = (v.natAbs : Int) := by
  unfold abs IntType.neg
  split
  · next hv =>
    rw [Int.ofNat_natAbs_of_nonpos (le_of_lt hv)] at h
    rw [h]
    exact (Int.ofNat_natAbs_of_nonpos (le_of_lt hv)).symm
  · next hv => exact (Int.natAbs_of_nonneg (not_lt.mp hv)).symm

end detail

namespace rational

open detail IntType

/-- The fields of the constructed value at a fixed-width element type, up to the sign of
the numerator: the denominator is `|d| / G` and the numerator has absolute value `|n| / G`,
where `G` is the greatest common divisor. -/
theorem make_abs {T : IntType} (hT : T.valid) {n d : Int} (hn : T.inRange n)
    (hd : T.inRange d) (hd0 : d ≠ 0) (hmin : ¬ T.isMin d) :
    (make T n d).denom = ((d.natAbs / Int.gcd n d : Nat) : Int) ∧
      (make T n d).num.natAbs = n.natAbs / Int.gcd n d := by
  have hGle : Int.gcd n d ≤ d.natAbs := Nat.gcd_le_right _ (Int.natAbs_pos.mpr hd0)
  have small : ∀ k : Nat, k ≤ d.natAbs → T.wrap (k : Int) = k ∧ T.promote.wrap (k : Int) = k := by
    intro k hk
    have hr : T.inRange (k : Int) :=
      inRange_of_le_natAbs hd hmin (Int.ofNat_nonneg k) (by exact_mod_cast hk)
    exact ⟨wrap_of_inRange hT hr, promote_wrap_of_inRange hT hr⟩
  have hg : detail.abs T (detail.gcd n d) = (Int.gcd n d : Int) := by
    rw [← natAbs_gcd]
    apply abs_eq_natAbs
    rw [natAbs_gcd, (small _ hGle).2, (small _ hGle).1]
  have habs : detail.abs T d = (d.natAbs : Int) := by
    apply abs_eq_natAbs
    rw [(small _ le_rfl).2, (small _ le_rfl).1]
  have hdiv : d.natAbs / Int.gcd n d ≤ d.natAbs := Nat.div_le_self _ _
  constructor
  · simp only [make, simplify, hg, habs, IntType.div]
    rw [(small _ le_rfl).2, (small _ hGle).2, ← Int.ofNat_tdiv, (small _ hdiv).2, (small _ hdiv).1]
  · simp only [make, simplify, hg, IntType.div, IntType.mul]
    rw [(small _ hGle).2, promote_wrap_of_inRange hT (sign_inRange hd hd0 hmin),
      promote_wrap_of_inRange hT hn]
    have h1 := fits_promote_wrap hT (sign_mul_fits hn hd)
    have h2 := fits_promote_wrap hT h1.2
    have h3 := fits_tdiv h2.2 (Int.ofNat_nonneg (Int.gcd n d))
    have h4 := fits_promote_wrap hT h3
    have h5 := fits_wrap hT h4.2
    rw [h5.1, h4.1, Int.natAbs_tdiv, h2.1, h1.1, natAbs_sign_mul]
    rfl

/-- The invariant is a property of the stored fields alone. -/
theorem inv_of_abs {T : IntType} {r : rational T} {n d : Int} (hd0 : d ≠ 0)
    (hden : r.denom = ((d.natAbs / Int.gcd n d : Nat) : Int))
    (hnum : r.num.natAbs = n.natAbs / Int.gcd n d) : Inv r := by
  have hG : 0 < Int.gcd n d := gcd_pos_of_denom n hd0
  have hGle : Int.gcd n d ≤ d.natAbs := Nat.gcd_le_right _ (Int.natAbs_pos.mpr hd0)
  constructor
  · rw [hden]
    exact_mod_cast Nat.div_pos hGle hG
  · have hc := Nat.coprime_div_gcd_div_gcd (m := n.natAbs) (n := d.natAbs) hG
    simp only [Int.gcd, hnum, hden, Int.natAbs_ofNat]
    exact hc

end rational

open rational

/-! ## The operators without overflow, unfolded -/

theorem op_neg_Z (r : rational Z) : op_neg r = make Z (-r.num) r.denom := rfl

theorem op_add_Z (x y : rational Z) :
    op_add x y = make Z (x.denom * y.num + y.denom * x.num) (x.denom * y.denom) := rfl

theorem op_sub_Z (x y : rational Z) :
    op_sub x y = make Z (x.num * y.denom - y.num * x.denom) (x.denom * y.denom) := rfl

theorem op_mul_Z (x y : rational Z) :
    op_mul x y = make Z (x.num * y.num) (x.denom * y.denom) := rfl

theorem op_div_Z (x y : rational Z) :
    op_div x y = make Z (x.num * y.denom) (x.denom * y.num) := rfl

theorem op_add_value_Z (x : rational Z) (v : integer Z) :
    op_add x v = make Z (x.denom * v.val + 1 * x.num) (x.denom * 1) := rfl

theorem op_sub_value_Z (x : rational Z) (v : integer Z) :
    op_sub x v = make Z (x.num * 1 - v.val * x.denom) (x.denom * 1) := rfl

theorem op_mul_value_Z (x : rational Z) (v : integer Z) :
    op_mul x v = make Z (x.num * v.val) (x.denom * 1) := rfl

theorem op_div_value_Z (x : rational Z) (v : integer Z) :
    op_div x v = make Z (x.num * 1) (x.denom * v.val) := rfl

theorem op_add_assign_Z (r s : rational Z) :
    op_add_assign { self := r, other := s } =
      { self := make Z (r.num * s.denom + r.denom * s.num) (r.denom * s.denom), other := s } := rfl

theorem op_sub_assign_Z (r s : rational Z) :
    op_sub_assign { self := r, other := s } =
      { self := make Z (r.num * s.denom - r.denom * s.num) (r.denom * s.denom), other := s } := rfl

theorem op_mul_assign_Z (r s : rational Z) :
    op_mul_assign { self := r, other := s } =
      { self := make Z (r.num * s.num) (r.denom * s.denom), other := s } := rfl

theorem op_div_assign_Z (r s : rational Z) :
    op_div_assign { self := r, other := s } =
      { self := make Z (r.num * s.denom) (r.denom * s.num), other := s } := rfl

namespace rational

theorem make_Z_num_ne_zero {n d : Int} (hn : n ≠ 0) (hd : d ≠ 0) : (make Z n d).num ≠ 0 := by
  intro h
  have hc := make_Z_cross n hd
  have hp := make_Z_denom_pos n hd
  rw [h, zero_mul] at hc
  rcases mul_eq_zero.mp hc.symm with h1 | h1
  · exact hn h1
  · omega

theorem Inv.denom_ne_zero {T : IntType} {r : rational T} (h : Inv r) : r.denom ≠ 0 := h.1.ne'

end rational


namespace detail

end detail

namespace rational

open detail

/-! ## Construction -/

end rational

open rational

/-! ## Comparison -/

open rational

open rational

/-! ## Ordering -/

namespace rational

/-- Two pairs satisfying the invariant, over any element types, stand for the same rational
number only if they have the same fields. -/
theorem Inv.fields_eq_of_value_eq {T U : IntType} {r : rational T} {s : rational U}
    (hr : Inv r) (hs : Inv s) (h : r.value = s.value) : r.num = s.num ∧ r.denom = s.denom := by
  have h1 := Rat.num_div_eq_of_coprime hr.1 hr.2
  have h2 := Rat.num_div_eq_of_coprime hs.1 hs.2
  have h3 := Rat.den_div_eq_of_coprime hr.1 hr.2
  have h4 := Rat.den_div_eq_of_coprime hs.1 hs.2
  unfold value at h
  constructor
  · rw [← h1, ← h2, h]
  · rw [← h3, ← h4, h]

theorem value_lt_iff_cross {T U : IntType} {r : rational T} {s : rational U}
    (hr : 0 < r.denom) (hs : 0 < s.denom) :
    r.value < s.value ↔ r.num * s.denom < s.num * r.denom := by
  unfold value
  have h1 : (0 : ℚ) < (r.denom : ℚ) := by exact_mod_cast hr
  have h2 : (0 : ℚ) < (s.denom : ℚ) := by exact_mod_cast hs
  rw [div_lt_div_iff₀ h1 h2]
  constructor
  · intro h; exact_mod_cast h
  · intro h; exact_mod_cast h

end rational

namespace IntType

theorem wrap_zero (T : IntType) : T.wrap 0 = 0 := by
  match T with
  | unbounded => rfl
  | fixed w false => simp [wrap]
  | fixed w true =>
    have := two_pow_pos (w - 1)
    simp only [wrap, Int.zero_emod]
    rw [if_neg (by omega)]

/-- Every conversion to a well-formed type yields a value of the type. -/
theorem wrap_inRange {T : IntType} (hT : T.valid) (x : Int) : T.inRange (T.wrap x) := by
  match T, hT with
  | unbounded, _ => trivial
  | fixed w false, _ =>
    have hp := two_pow_pos w
    exact ⟨Int.emod_nonneg _ (by omega), Int.emod_lt_of_pos _ hp⟩
  | fixed w true, hT => exact wrap_signed_range hT x

/-- A type with a positive value has the value 1. -/
theorem inRange_one {T : IntType} {y : Int} (hy : T.inRange y) (hpos : 0 < y) :
    T.inRange 1 := by
  match T, hy with
  | unbounded, _ => trivial
  | fixed w false, hy =>
    have := hy.2
    constructor <;> omega
  | fixed w true, hy =>
    have := hy.2
    constructor <;> omega

/-- The negation of a value other than the least value is a value, at a signed type. -/
theorem inRange_neg {T : IntType} (hs : T.signed) {x : Int} (hx : T.inRange x)
    (hmin : ¬ T.isMin x) : T.inRange (-x) ∧ ¬ T.isMin (-x) := by
  match T, hs, hx, hmin with
  | unbounded, _, _, _ => exact ⟨trivial, id⟩
  | fixed w true, _, hx, hmin =>
    have h1 := hx.1
    have h2 := hx.2
    have hne : x ≠ -(2 ^ (w - 1)) := hmin
    refine ⟨⟨by omega, by omega⟩, ?_⟩
    intro h
    have h' : -x = -(2 ^ (w - 1)) := h
    omega

end IntType

namespace detail

theorem gcd_zero_left {d : Int} (hd : d ≠ 0) : gcd 0 d = d := by
  rw [gcd_eq, if_neg hd, Int.zero_tmod, gcd_zero_right]

theorem sign_of_pos {y : Int} (hy : 0 < y) : sign y = 1 := by
  unfold sign
  rw [if_neg (by omega)]

theorem abs_of_nonneg' (T : IntType) {y : Int} (hy : 0 ≤ y) : abs T y = y := by
  unfold abs
  rw [if_neg (by omega)]

end detail

namespace rational

open IntType

/-- The two-argument constructor returns its arguments unchanged when they are values of the
type with positive denominator and in lowest terms: at every element type, normalisation
leaves a normalised pair alone. -/
theorem make_of_inv {T : IntType} (hT : T.valid) {x y : Int} (hx : T.inRange x)
    (hy : T.inRange y) (hpos : 0 < y) (hco : Nat.gcd x.natAbs y.natAbs = 1) :
    make T x y = { num := x, denom := y } := by
  have h1 := inRange_one hy hpos
  have hw1 : T.wrap 1 = 1 := wrap_of_inRange hT h1
  have hp1 : T.promote.wrap 1 = 1 := promote_wrap_of_inRange hT h1
  have hg : detail.abs T (detail.gcd x y) = 1 := by
    have hn : (detail.gcd x y).natAbs = 1 := by
      rw [detail.natAbs_gcd]
      exact hco
    have := detail.abs_eq_natAbs T (detail.gcd x y) (by rw [hn]; simp [hp1, hw1])
    rw [this, hn]
    rfl
  simp only [make, simplify, hg, detail.sign_of_pos hpos, detail.abs_of_nonneg' T hpos.le,
    IntType.div, IntType.mul, hp1, promote_wrap_of_inRange hT hx, promote_wrap_of_inRange hT hy,
    one_mul, Int.tdiv_one, wrap_of_inRange hT hx, wrap_of_inRange hT hy]

end rational

/-! ## Zero, unary operators and construction from an integer -/

namespace detail

open IntType

/-- For a non-zero value `d` of the type, `detail::abs(d)` is a non-zero value of the type,
also when `d` is the least value of a signed type and `abs` returns `d` itself. -/
theorem abs_inRange_ne_zero {T : IntType} (hT : T.valid) {d : Int} (hd : T.inRange d)
    (hd0 : d ≠ 0) : T.inRange (abs T d) ∧ abs T d ≠ 0 := by
  unfold abs IntType.neg
  split
  · next hneg =>
    have hf : T.fits (-d) := by
      match T, hd with
      | unbounded, _ => trivial
      | fixed w false, hd =>
        have := hd.1
        omega
      | fixed w true, hd =>
        have := hd.1
        have := hd.2
        constructor <;> omega
    have h1 := fits_promote_wrap hT hf
    have h2 := fits_wrap hT h1.2
    refine ⟨h2.2, ?_⟩
    intro h0
    have h3 := h2.1
    rw [h0, h1.1] at h3
    simp at h3
    omega
  · exact ⟨hd, hd0⟩

end detail

/-- C14. Zero has one canonical form: at every element type in which 1 is a value, for every
value `d ≠ 0` of the type (positive or negative, the least value included) `make(0, d)` has
numerator 0 and denominator 1, field for field the default-constructed value. -/
theorem make_zero (T : IntType) (hT : T.valid) (h1 : T.inRange 1) (d : Int)
    (hd : T.inRange d) (hd0 : d ≠ 0) :
    make T 0 d = { num := 0, denom := 1 } ∧ make T 0 d = rational.default T := by
  have hg := detail.abs_inRange_ne_zero hT hd hd0
  have hpg := IntType.promote_wrap_of_inRange hT hg.1
  have hp1 := IntType.promote_wrap_of_inRange hT h1
  have hw1 := IntType.wrap_of_inRange hT h1
  have h : make T 0 d = { num := 0, denom := 1 } := by
    simp only [make, simplify, detail.gcd_zero_left hd0, IntType.div, IntType.mul,
      IntType.wrap_zero, mul_zero, Int.zero_tmod, hpg, Int.tdiv_self hg.2, hp1, hw1]
    simp [Int.zero_tdiv, IntType.wrap_zero]
  exact ⟨h, h⟩

/-- C14 at `signed char` with `d = -128`, the least value. -/
theorem make_zero_witness :
    IntType.valid int8 ∧ IntType.inRange int8 1 ∧ IntType.inRange int8 (-128) ∧
    (-128 : Int) ≠ 0 ∧
    (make int8 0 (-128) = { num := 0, denom := 1 } ∧
      make int8 0 (-128) = rational.default int8) :=
  ⟨by decide, by decide, by decide, by decide,
    make_zero int8 (by decide) (by decide) (-128) (by decide) (by decide)⟩

theorem op_eq_self {T : IntType} (r : rational T) : op_eq r r = true := by
  simp [op_eq]

theorem op_neg_of_inv {T : IntType} (hT : T.valid) (hs : T.signed) {r : rational T}
    (hn : T.inRange r.num) (hd : T.inRange r.denom) (hr : Inv r) (hmin : ¬ T.isMin r.num) :
    op_neg r = { num := -r.num, denom := r.denom } := by
  have hneg := IntType.inRange_neg hs hn hmin
  unfold op_neg IntType.neg
  rw [IntType.promote_wrap_of_inRange hT hneg.1, IntType.wrap_of_inRange hT hneg.1]
  exact make_of_inv hT hneg.1 hd hr.1 (by rw [Int.natAbs_neg]; exact hr.2)

/-- C15. For every signed element type and every `r` over it that satisfies the invariant
and whose numerator is not the least value of the type, unary plus returns `r` unchanged and
unary minus returns the pair `(-r.num, r.denom)`: only the numerator is negated and the
denominator is the same positive value, although the result passes through normalisation
again.  Consequently `-(-r)` is `r`, `-(-r) == r`, and `-make(1,2) == make(-1,2)`. -/
theorem unary_ops :
    (∀ (T : IntType), T.valid → T.signed → ∀ r : rational T,
      T.inRange r.num → T.inRange r.denom → Inv r → ¬ T.isMin r.num →
      op_pos r = r ∧
      op_neg r = { num := -r.num, denom := r.denom } ∧
      0 < (op_neg r).denom ∧
      op_neg (op_neg r) = r ∧
      op_eq (op_neg (op_neg r)) r = true ∧
      op_eq (op_pos r) r = true) ∧
    op_eq (op_neg (make Z 1 2)) (make Z (-1) 2) = true ∧
    op_eq (op_neg (make int8 1 2)) (make int8 (-1) 2) = true ∧
    op_eq (op_neg (make int32 (-1) 2)) (make int32 1 2) = true := by
  refine ⟨?_, by decide, by decide, by decide⟩
  intro T hT hs r hn hd hr hmin
  have h1 := op_neg_of_inv hT hs hn hd hr hmin
  have hneg := IntType.inRange_neg hs hn hmin
  have hr' : Inv ({ num := -r.num, denom := r.denom } : rational T) :=
    ⟨hr.1, by rw [Int.natAbs_neg]; exact hr.2⟩
  have h2 : op_neg (op_neg r) = r := by
    rw [h1, op_neg_of_inv (r := { num := -r.num, denom := r.denom }) hT hs hneg.1 hd hr' hneg.2]
    simp
  refine ⟨rfl, h1, ?_, h2, ?_, op_eq_self r⟩
  · rw [h1]; exact hr.1
  · rw [h2]; exact op_eq_self r

/-- C15 at `signed char` with `r = (127, 2)`. -/
theorem unary_ops_witness :
    IntType.valid int8 ∧ IntType.signed int8 ∧
    IntType.inRange int8 127 ∧ IntType.inRange int8 2 ∧
    Inv ({ num := 127, denom := 2 } : rational int8) ∧ ¬ IntType.isMin int8 127 ∧
    (op_pos ({ num := 127, denom := 2 } : rational int8) = { num := 127, denom := 2 } ∧
      op_neg ({ num := 127, denom := 2 } : rational int8) = { num := -127, denom := 2 } ∧
      0 < (op_neg ({ num := 127, denom := 2 } : rational int8)).denom ∧
      op_neg (op_neg ({ num := 127, denom := 2 } : rational int8)) = { num := 127, denom := 2 } ∧
      op_eq (op_neg (op_neg ({ num := 127, denom := 2 } : rational int8)))
        ({ num := 127, denom := 2 } : rational int8) = true ∧
      op_eq (op_pos ({ num := 127, denom := 2 } : rational int8))
        ({ num := 127, denom := 2 } : rational int8) = true) :=
  ⟨by decide, by decide, by decide, by decide, by decide, by decide,
    unary_ops.1 int8 (by decide) (by decide) { num := 127, denom := 2 }
      (by decide) (by decide) (by decide) (by decide)⟩

/-! ## Plain integers as operands -/

/-- C17. A plain integer interoperates as the rational `v / 1`: at every element type, for
every value `v` of the type and every rational `r` over it, each of `==`, `!=`, `<`, `<=`,
`>`, `>=` and each of `+`, `-`, `*`, `/` applied to `(r, v)` or to `(v, r)` returns the same
result as when `v` is replaced by the rational constructed from `v`.  Moreover
`make(8,2) == 4` and `4 == make(8,2)` are true, `make(8,2) < 5` is true,
`5 <= make(8,2)` is false, and `15 * make(1,3) == make(5,1)`. -/
theorem integer_interop :
    (∀ (T : IntType), T.valid → ∀ (r : rational T) (v : Int), T.inRange v →
      (op_eq r ({ val := v } : integer T) = op_eq r (from_value T v) ∧
        op_eq ({ val := v } : integer T) r = op_eq (from_value T v) r) ∧
      (op_ne r ({ val := v } : integer T) = op_ne r (from_value T v) ∧
        op_ne ({ val := v } : integer T) r = op_ne (from_value T v) r) ∧
      (op_lt r ({ val := v } : integer T) = op_lt r (from_value T v) ∧
        op_lt ({ val := v } : integer T) r = op_lt (from_value T v) r) ∧
      (op_le r ({ val := v } : integer T) = op_le r (from_value T v) ∧
        op_le ({ val := v } : integer T) r = op_le (from_value T v) r) ∧
      (op_gt r ({ val := v } : integer T) = op_gt r (from_value T v) ∧
        op_gt ({ val := v } : integer T) r = op_gt (from_value T v) r) ∧
      (op_ge r ({ val := v } : integer T) = op_ge r (from_value T v) ∧
        op_ge ({ val := v } : integer T) r = op_ge (from_value T v) r) ∧
      (op_add r ({ val := v } : integer T) = op_add r (from_value T v) ∧
        op_add ({ val := v } : integer T) r = op_add (from_value T v) r) ∧
      (op_sub r ({ val := v } : integer T) = op_sub r (from_value T v) ∧
        op_sub ({ val := v } : integer T) r = op_sub (from_value T v) r) ∧
      (op_mul r ({ val := v } : integer T) = op_mul r (from_value T v) ∧
        op_mul ({ val := v } : integer T) r = op_mul (from_value T v) r) ∧
      (op_div r ({ val := v } : integer T) = op_div r (from_value T v) ∧
        op_div ({ val := v } : integer T) r = op_div (from_value T v) r)) ∧
    op_eq (make Z 8 2) ({ val := 4 } : integer Z) = true ∧
    op_eq ({ val := 4 } : integer Z) (make Z 8 2) = true ∧
    op_lt (make Z 8 2) ({ val := 5 } : integer Z) = true ∧
    op_le ({ val := 5 } : integer Z) (make Z 8 2) = false ∧
    op_eq (op_mul ({ val := 15 } : integer Z) (make Z 1 3)) (make Z 5 1) = true := by
  refine ⟨?_, by decide, by decide, by decide, by decide, by decide⟩
  intro T hT r v hv
  have hf : from_value T v = { num := v, denom := 1 } := by
    unfold from_value
    rw [IntType.wrap_of_inRange hT hv]
  rw [hf]
  exact ⟨⟨rfl, rfl⟩, ⟨rfl, rfl⟩, ⟨rfl, rfl⟩, ⟨rfl, rfl⟩, ⟨rfl, rfl⟩, ⟨rfl, rfl⟩,
    ⟨rfl, rfl⟩, ⟨rfl, rfl⟩, ⟨rfl, rfl⟩, ⟨rfl, rfl⟩⟩

/-- C17 at `int` with `r = (4, 1)` and `v = 5`. -/
theorem integer_interop_witness :
    IntType.valid int32 ∧ IntType.inRange int32 5 ∧
    op_lt ({ num := 4, denom := 1 } : rational int32) ({ val := 5 } : integer int32) =
      op_lt ({ num := 4, denom := 1 } : rational int32) (from_value int32 5) ∧
    op_div ({ val := 5 } : integer int32) ({ num := 4, denom := 1 } : rational int32) =
      op_div (from_value int32 5) ({ num := 4, denom := 1 } : rational int32) :=
  have h := integer_interop.1 int32 (by decide) { num := 4, denom := 1 } 5 (by decide)
  ⟨by decide, by decide, h.2.2.1.1, h.2.2.2.2.2.2.2.2.2.2⟩

/-! ## Conversions between element types -/

/-- C19. Widening then narrowing is the identity: for every `r` over a 32-bit signed type
that satisfies the invariant, the converting constructor of `rational<int64>` (available
because the conversion does not narrow) copies both fields unchanged, and the explicit cast
back to `rational<int32>` yields exactly `r.num` and `r.denom`.  For example `(1, 10)`
goes to `(1, 10)` and back. -/
theorem widen_narrow_roundtrip :
    (∀ r : rational int32, IntType.inRange int32 r.num → IntType.inRange int32 r.denom →
      Inv r →
      from_rational int64 r = { num := r.num, denom := r.denom } ∧
      explicit_cast int32 (from_rational int64 r) = r) ∧
    IntType.nonnarrowing int64 int32 = true ∧
    IntType.nonnarrowing int32 int64 = false ∧
    explicit_cast int32 (from_rational int64 (make int32 1 10)) = { num := 1, denom := 10 } := by
  refine ⟨?_, by decide, by decide, by decide⟩
  intro r hn hd hr
  have hv32 : IntType.valid int32 := by decide
  have hv64 : IntType.valid int64 := by decide
  have widen : ∀ x : Int, IntType.inRange int32 x → IntType.inRange int64 x := by
    intro x hx
    have h1 : -(2 ^ (32 - 1)) ≤ x := hx.1
    have h2 : x < 2 ^ (32 - 1) := hx.2
    norm_num at h1 h2
    refine ⟨?_, ?_⟩ <;> norm_num <;> omega
  have h1 : from_rational int64 r = { num := r.num, denom := r.denom } := by
    unfold from_rational
    rw [IntType.wrap_of_inRange hv64 (widen _ hn), IntType.wrap_of_inRange hv64 (widen _ hd)]
  refine ⟨h1, ?_⟩
  rw [h1]
  unfold explicit_cast
  simp only
  rw [IntType.wrap_of_inRange hv32 hn, IntType.wrap_of_inRange hv32 hd]
  exact make_of_inv hv32 hn hd hr.1 hr.2

/-- C19 at `r = (-2147483648, 1)`, the least value of the type as numerator. -/
theorem widen_narrow_roundtrip_witness :
    IntType.inRange int32 (-2147483648) ∧ IntType.inRange int32 1 ∧
    Inv ({ num := -2147483648, denom := 1 } : rational int32) ∧
    from_rational int64 ({ num := -2147483648, denom := 1 } : rational int32)
      = { num := -2147483648, denom := 1 } ∧
    explicit_cast int32 (from_rational int64 ({ num := -2147483648, denom := 1 } : rational int32))
      = { num := -2147483648, denom := 1 } :=
  ⟨by decide, by decide, by decide,
    widen_narrow_roundtrip.1 { num := -2147483648, denom := 1 } (by decide) (by decide)
      (by decide)⟩

/-! ## Comparison across element types -/

namespace IntType

/-- The common type of two element types is well formed: it is unbounded or at least
as wide as `int`. -/
theorem common_valid (T U : IntType) : (T.common U).valid := by
  cases T with
  | unbounded => simp [common, promote, valid]
  | fixed w s =>
    cases U with
    | unbounded =>
      have hu : promote unbounded = unbounded := rfl
      rcases promote_cases w s with ⟨_, h⟩ | ⟨_, h⟩ <;> cases s <;>
      simp only [common, h, hu] <;>
      simp only [valid]
    | fixed w2 s2 =>
      rcases promote_cases w s with ⟨h1, h⟩ | ⟨h1, h⟩ <;>
      rcases promote_cases w2 s2 with ⟨h2, h'⟩ | ⟨h2, h'⟩ <;>
      cases s <;> cases s2 <;>
      simp only [common, h, h'] <;>
      (try split) <;>
      simp only [valid] <;>
      omega

end IntType

theorem op_eq_of_inRange {T U : IntType} {a : rational T} {b : rational U}
    (h1 : (T.common U).inRange a.num) (h2 : (T.common U).inRange a.denom)
    (h3 : (T.common U).inRange b.num) (h4 : (T.common U).inRange b.denom) :
    op_eq a b = true ↔ (a.num = b.num ∧ a.denom = b.denom) := by
  have hC := IntType.common_valid T U
  show (decide ((T.common U).wrap a.num = (T.common U).wrap b.num) &&
    decide ((T.common U).wrap a.denom = (T.common U).wrap b.denom)) = true ↔ _
  rw [IntType.wrap_of_inRange hC h1, IntType.wrap_of_inRange hC h2,
    IntType.wrap_of_inRange hC h3, IntType.wrap_of_inRange hC h4]
  simp

theorem op_lt_of_inRange {T U : IntType} {a : rational T} {b : rational U}
    (h1 : (T.common U).inRange a.num) (h2 : (T.common U).inRange a.denom)
    (h3 : (T.common U).inRange b.num) (h4 : (T.common U).inRange b.denom)
    (h5 : (T.common U).inRange (a.num * b.denom))
    (h6 : (T.common U).inRange (b.num * a.denom)) :
    op_lt a b = true ↔ a.num * b.denom < b.num * a.denom := by
  have hC := IntType.common_valid T U
  show decide ((T.common U).mul a.num b.denom < (T.common U).mul b.num a.denom) = true ↔ _
  unfold IntType.mul
  rw [IntType.wrap_of_inRange hC h1, IntType.wrap_of_inRange hC h2,
    IntType.wrap_of_inRange hC h3, IntType.wrap_of_inRange hC h4,
    IntType.wrap_of_inRange hC h5, IntType.wrap_of_inRange hC h6]
  simp

/-- C20 (amended). Comparison is generic over element types.  For every pair of element
types `T` and `U`, with `C` their common type under the usual arithmetic conversions, and
all invariant-satisfying `a` over `T` and `b` over `U` whose numerators and denominators
are values of `C`: `a == b` holds iff the two rational values are equal; and when the two
cross products `a.num * b.denom` and `b.num * a.denom` are values of `C` as well, `a < b`
holds iff the value of `a` is less than the value of `b`.  Moreover
`rational<int>{1,2} == rational<unsigned long>{2,4}` is true and
`rational<unsigned long>{2,4} == rational<char>{17}` is false. -/
theorem mixed_comparison :
    (∀ (T U : IntType) (a : rational T) (b : rational U), Inv a → Inv b →
      (T.common U).inRange a.num → (T.common U).inRange a.denom →
      (T.common U).inRange b.num → (T.common U).inRange b.denom →
      (op_eq a b = true ↔ a.value = b.value) ∧
      ((T.common U).inRange (a.num * b.denom) → (T.common U).inRange (b.num * a.denom) →
        (op_lt a b = true ↔ a.value < b.value))) ∧
    op_eq (make int32 1 2) (make uint64 2 4) = true ∧
    op_eq (make uint64 2 4) (from_value int8 17) = false := by
  refine ⟨?_, by decide, by decide⟩
  intro T U a b ha hb h1 h2 h3 h4
  constructor
  · rw [op_eq_of_inRange h1 h2 h3 h4]
    constructor
    · intro h
      unfold value
      rw [h.1, h.2]
    · intro h
      exact Inv.fields_eq_of_value_eq ha hb h
  · intro h5 h6
    rw [op_lt_of_inRange h1 h2 h3 h4 h5 h6, value_lt_iff_cross ha.1 hb.1]

/-- C20 (amended) at `a = (1, 2)` over `int` and `b = (2, 3)` over `unsigned long`. -/
theorem mixed_comparison_witness :
    Inv ({ num := 1, denom := 2 } : rational int32) ∧
    Inv ({ num := 2, denom := 3 } : rational uint64) ∧
    (IntType.common int32 uint64).inRange 1 ∧ (IntType.common int32 uint64).inRange 2 ∧
    (IntType.common int32 uint64).inRange 2 ∧ (IntType.common int32 uint64).inRange 3 ∧
    (IntType.common int32 uint64).inRange (1 * 3) ∧
    (IntType.common int32 uint64).inRange (2 * 2) ∧
    (op_eq ({ num := 1, denom := 2 } : rational int32) ({ num := 2, denom := 3 } : rational uint64)
        = true ↔
      ({ num := 1, denom := 2 } : rational int32).value
        = ({ num := 2, denom := 3 } : rational uint64).value) ∧
    (op_lt ({ num := 1, denom := 2 } : rational int32) ({ num := 2, denom := 3 } : rational uint64)
        = true ↔
      ({ num := 1, denom := 2 } : rational int32).value
        < ({ num := 2, denom := 3 } : rational uint64).value) :=
  have h := mixed_comparison.1 int32 uint64 { num := 1, denom := 2 } { num := 2, denom := 3 }
    (by decide) (by decide) (by decide) (by decide) (by decide) (by decide)
  ⟨by decide, by decide, by decide, by decide, by decide, by decide, by decide, by decide,
    h.1, h.2 (by decide) (by decide)⟩

/-- C20 as stated fails.  With `a = (-1, 2)` over `int` and `b = (1, 2)` over
`unsigned long`, both satisfying the invariant, the value of `a` is less than the value of
`b` but `a < b` is false: the numerator `-1` is converted to `unsigned long` before the
cross-multiplication.  With `a = (-1, 1)` over `int` and `b = (18446744073709551615, 1)`
over `unsigned long`, `a == b` is true although the two values differ. -/
theorem mixed_comparison_signed_unsigned :
    (Inv ({ num := -1, denom := 2 } : rational int32) ∧
      IntType.inRange int32 (-1) ∧ IntType.inRange int32 2 ∧
      Inv ({ num := 1, denom := 2 } : rational uint64) ∧
      IntType.inRange uint64 1 ∧ IntType.inRange uint64 2 ∧
      ({ num := -1, denom := 2 } : rational int32).value
        < ({ num := 1, denom := 2 } : rational uint64).value ∧
      op_lt ({ num := -1, denom := 2 } : rational int32)
        ({ num := 1, denom := 2 } : rational uint64) = false) ∧
    (Inv ({ num := -1, denom := 1 } : rational int32) ∧
      IntType.inRange int32 (-1) ∧ IntType.inRange int32 1 ∧
      Inv ({ num := 18446744073709551615, denom := 1 } : rational uint64) ∧
      IntType.inRange uint64 18446744073709551615 ∧ IntType.inRange uint64 1 ∧
      ({ num := -1, denom := 1 } : rational int32).value
        ≠ ({ num := 18446744073709551615, denom := 1 } : rational uint64).value ∧
      op_eq ({ num := -1, denom := 1 } : rational int32)
        ({ num := 18446744073709551615, denom := 1 } : rational uint64) = true) := by
  refine ⟨⟨by decide, by decide, by decide, by decide, by decide, by decide, ?_, by decide⟩,
    ⟨by decide, by decide, by decide, by decide, by decide, by decide, ?_, by decide⟩⟩
  · unfold value
    norm_num
  · unfold value
    norm_num

/-! ## Literals -/

/-- C21. The literal form is sugar over the two-argument constructor: at every element type
`T`, `n / d_suffix` is the constructor call `rational<T>(n, d)` with both arguments converted
to `T`, so for every value `n` of `T` and every literal `d` that is a non-zero value of `T` it
equals `make(n, d)` over `T` field for field.  Moreover `3 / 10_r == rational<int>{3, 10}`,
and `3 / 10_rs == rational<unsigned short>{3, 10}`. -/
theorem literal_is_make :
    (∀ (T : IntType) (n : Int) (d : Nat),
      rational_literals.op_div_proxy n (rational_literals.make_literal_proxy T d)
        = make T (T.wrap n) (T.wrap (d : Int))) ∧
    (∀ (T : IntType), T.valid → ∀ (n : Int) (d : Nat), T.inRange n → T.inRange (d : Int) →
      d ≠ 0 →
      rational_literals.op_div_proxy n (rational_literals.make_literal_proxy T d)
        = make T n (d : Int)) ∧
    rational_literals.op_div_proxy 3 (rational_literals.lit_r 10) = make int32 3 10 ∧
    op_eq (rational_literals.op_div_proxy 3 (rational_literals.lit_r 10)) (make int32 3 10)
      = true ∧
    op_eq (rational_literals.op_div_proxy 3 (rational_literals.lit_rs 10)) (make uint16 3 10)
      = true := by
  refine ⟨fun _ _ _ => rfl, ?_, by decide, by decide, by decide⟩
  intro T hT n d hn hd _
  unfold rational_literals.op_div_proxy rational_literals.make_literal_proxy
  simp only
  rw [IntType.wrap_of_inRange hT hn, IntType.wrap_of_inRange hT hd]

/-- C21 at `-22 / 7_r`. -/
theorem literal_is_make_witness :
    IntType.valid int32 ∧ IntType.inRange int32 (-22) ∧ IntType.inRange int32 ((7 : Nat) : Int) ∧
    (7 : Nat) ≠ 0 ∧
    rational_literals.op_div_proxy (-22) (rational_literals.make_literal_proxy int32 7)
      = make int32 (-22) ((7 : Nat) : Int) :=
  ⟨by decide, by decide, by decide, by decide,
    literal_is_make.2.1 int32 (by decide) (-22) 7 (by decide) (by decide) (by decide)⟩

/-! ## The greatest common divisor -/

namespace detail

theorem gcd_dvd_both (a b : Int) : gcd a b ∣ a ∧ gcd a b ∣ b := by
  have h : ((gcd a b).natAbs : Int) = (Int.gcd a b : Int) := by rw [natAbs_gcd]
  constructor
  · exact Int.natAbs_dvd.mp (h ▸ Int.gcd_dvd_left)
  · exact Int.natAbs_dvd.mp (h ▸ Int.gcd_dvd_right)

theorem dvd_gcd_of_dvd {a b c : Int} (ha : c ∣ a) (hb : c ∣ b) : c ∣ gcd a b := by
  have h : ((gcd a b).natAbs : Int) = (Int.gcd a b : Int) := by rw [natAbs_gcd]
  exact Int.dvd_natAbs.mp (h ▸ Int.dvd_gcd ha hb)

theorem gcd_zero_left_all (d : Int) : gcd 0 d = d := by
  by_cases hd : d = 0
  · rw [hd, gcd_zero_right]
  · exact gcd_zero_left hd

theorem gcd_wf_eq (a b : Int) : gcd_wf a b = gcd a b := by
  obtain ⟨n, hn⟩ : ∃ n, b.natAbs = n := ⟨_, rfl⟩
  induction n using Nat.strong_induction_on generalizing a b with
  | _ n ih =>
    rw [gcd_wf, gcd_eq]
    by_cases hb : b = 0
    · simp [hb]
    · simp only [hb, dite_false, if_false]
      have hlt := natAbs_tmod_lt a b hb
      exact ih _ (hn ▸ hlt) b (a.tmod b) rfl

end detail

/-! ## The divisor of simplify -/

namespace rational

open IntType

/-- The greatest common divisor of two values of a type fits the type. -/
theorem gcd_fits {T : IntType} {n d : Int} (hn : T.inRange n) (hd : T.inRange d) :
    T.fits (Int.gcd n d : Int) := by
  have hle : Int.gcd n d ≤ n.natAbs ∨ Int.gcd n d ≤ d.natAbs := by
    by_cases h : d = 0
    · left
      rw [h]
      simp
    · right
      exact Nat.gcd_le_right _ (Int.natAbs_pos.mpr h)
  match T, hn, hd with
  | unbounded, _, _ => trivial
  | fixed w false, hn, hd =>
    have := hn.1
    have := hn.2
    have := hd.1
    have := hd.2
    constructor <;> omega
  | fixed w true, hn, hd =>
    have := hn.1
    have := hn.2
    have := hd.1
    have := hd.2
    constructor <;> omega

/-- The divisor `g` of `simplify()` has the absolute value of the greatest common divisor,
at every element type. -/
theorem natAbs_simplify_g {T : IntType} (hT : T.valid) {n d : Int} (hn : T.inRange n)
    (hd : T.inRange d) :
    (simplify_g ({ num := n, denom := d } : rational T)).natAbs = Int.gcd n d := by
  have hf := gcd_fits hn hd
  have h1 := fits_promote_wrap hT hf
  have h2 := fits_wrap hT h1.2
  unfold simplify_g detail.abs IntType.neg
  simp only
  split
  · next hneg =>
    have hv : -detail.gcd n d = (Int.gcd n d : Int) := by
      rw [← detail.natAbs_gcd, Int.ofNat_natAbs_of_nonpos (le_of_lt hneg)]
    rw [hv, h2.1, h1.1]
    simp
  · exact detail.natAbs_gcd n d

end rational

/-! ## Unsigned element types -/

namespace IntType

/-- Conversion to a fixed-width type of at least `w` bits changes an integer by a multiple
of `2 ^ w`. -/
theorem wrap_modEq {w w1 : Nat} (s : Bool) (h : w ≤ w1) (x : Int) :
    wrap (fixed w1 s) x ≡ x [ZMOD 2 ^ w] := by
  have hdvd : (2 : Int) ^ w ∣ 2 ^ w1 := pow_dvd_pow 2 h
  have h1 : x % 2 ^ w1 ≡ x [ZMOD 2 ^ w] := (Int.mod_modEq x (2 ^ w1)).of_dvd hdvd
  cases s with
  | false => exact h1
  | true =>
    simp only [wrap]
    split
    · have h2 : x % 2 ^ w1 - 2 ^ w1 ≡ x % 2 ^ w1 [ZMOD 2 ^ w] := by
        rw [Int.modEq_iff_dvd]
        simpa using hdvd
      exact h2.trans h1
    · exact h1

/-- The operands of `rational<T>` with itself, `T` unsigned, are combined in `int` when `T`
is narrower than `int` and in `T` otherwise. -/
theorem common_self_unsigned (w : Nat) :
    (w < 32 ∧ common (fixed w false) (fixed w false) = fixed 32 true) ∨
    (32 ≤ w ∧ common (fixed w false) (fixed w false) = fixed w false) := by
  rcases promote_cases w false with ⟨h1, h⟩ | ⟨h1, h⟩
  · left
    refine ⟨h1, ?_⟩
    simp [common, h]
  · right
    refine ⟨h1, ?_⟩
    simp [common, h]

theorem common_self_unsigned_modEq (w : Nat) (x : Int) :
    (common (fixed w false) (fixed w false)).wrap x ≡ x [ZMOD 2 ^ w] := by
  rcases common_self_unsigned w with ⟨h1, h⟩ | ⟨_, h⟩
  · rw [h]
    exact wrap_modEq true (by omega) x
  · rw [h]
    exact wrap_modEq false le_rfl x

end IntType

namespace rational

open IntType

/-- At an unsigned element type the two-argument constructor divides both arguments by
their greatest common divisor. -/
theorem make_unsigned {w : Nat} (hw : 0 < w) {x y : Int}
    (hx : inRange (fixed w false) x) (hy : inRange (fixed w false) y) :
    make (fixed w false) x y =
      { num := x / (Int.gcd x y : Int), denom := y / (Int.gcd x y : Int) } := by
  have hT : valid (fixed w false) := hw
  have hx0 : 0 ≤ x := hx.1
  have hy0 : 0 ≤ y := hy.1
  have hG0 : (0 : Int) ≤ (Int.gcd x y : Int) := Int.ofNat_nonneg _
  have hGr : inRange (fixed w false) (Int.gcd x y : Int) := gcd_fits hx hy
  have h1 : inRange (fixed w false) 1 := by
    have h2 := two_pow_pred hw
    have h3 := two_pow_pos (w - 1)
    constructor <;> omega
  have hg : detail.abs (fixed w false) (detail.gcd x y) = (Int.gcd x y : Int) := by
    rw [← detail.natAbs_gcd]
    apply detail.abs_eq_natAbs
    rw [detail.natAbs_gcd, promote_wrap_of_inRange hT hGr, wrap_of_inRange hT hGr]
  have hs : detail.sign y = 1 := by
    unfold detail.sign
    rw [if_neg (by omega)]
  have hqx : inRange (fixed w false) (x.tdiv (Int.gcd x y : Int)) :=
    fits_tdiv (show fits (fixed w false) x from hx) hG0
  have hqy : inRange (fixed w false) (y.tdiv (Int.gcd x y : Int)) :=
    fits_tdiv (show fits (fixed w false) y from hy) hG0
  rw [Int.tdiv_eq_ediv hx0 hG0] at hqx
  rw [Int.tdiv_eq_ediv hy0 hG0] at hqy
  simp only [make, simplify, hg, hs, detail.abs_of_nonneg' _ hy0, IntType.div, IntType.mul,
    promote_wrap_of_inRange hT h1, promote_wrap_of_inRange hT hx, promote_wrap_of_inRange hT hy,
    promote_wrap_of_inRange hT hGr, one_mul, Int.tdiv_eq_ediv hx0 hG0,
    Int.tdiv_eq_ediv hy0 hG0, promote_wrap_of_inRange hT hqx,
    promote_wrap_of_inRange hT hqy, wrap_of_inRange hT hqx, wrap_of_inRange hT hqy]

end rational

/-! ## Stream output -/

theorem digitChar_ne_slash : ∀ k, k < 10 → Nat.digitChar k ≠ '/' := by decide

theorem toDigitsCore_no_slash (fuel : Nat) : ∀ (n : Nat) (ds : List Char),
    '/' ∉ ds → '/' ∉ Nat.toDigitsCore 10 fuel n ds := by
  induction fuel with
  | zero => intro n ds h; simpa [Nat.toDigitsCore] using h
  | succ k ih =>
    intro n ds h
    have hd : '/' ∉ Nat.digitChar (n % 10) :: ds := by
      intro hmem
      rcases List.mem_cons.mp hmem with h1 | h1
      · exact digitChar_ne_slash (n % 10) (Nat.mod_lt _ (by decide)) h1.symm
      · exact h h1
    simp only [Nat.toDigitsCore]
    split
    · exact hd
    · exact ih _ _ hd

theorem nat_repr_no_slash (n : Nat) : '/' ∉ (Nat.repr n).data := by
  show '/' ∉ (Nat.toDigits 10 n)
  exact toDigitsCore_no_slash _ _ _ (by simp)

/-- A decimal numeral contains no `/`. -/
theorem int_repr_no_slash (x : Int) : '/' ∉ (Int.repr x).data := by
  cases x with
  | ofNat m => exact nat_repr_no_slash m
  | negSucc m =>
    show '/' ∉ ("-" ++ Nat.repr (m + 1)).data
    rw [String.data_append]
    intro h
    rcases List.mem_append.mp h with h1 | h1
    · revert h1; decide
    · exact nat_repr_no_slash _ h1

theorem stream_insert_numeral {T : IntType} (h : ∀ s, T ≠ IntType.fixed 8 s) (x : Int) :
    stream_insert T x = Int.repr x := by
  unfold stream_insert
  split
  · next s => exact absurd rfl (h s)
  · rfl

/-- At an element type that is not a character type, the text written is the decimal
numeral of the numerator, followed by `/` and the numeral of the denominator unless the
denominator is 1. -/
theorem format_numeral {T : IntType} (h : ∀ s, T ≠ IntType.fixed 8 s) (r : rational T) :
    format r = if r.denom = 1 then Int.repr r.num
      else Int.repr r.num ++ "/" ++ Int.repr r.denom := by
  unfold format op_lshift
  simp only [stream_insert_numeral h, String.empty_append, ne_eq, ite_not]

theorem make_Z_denom_eq_one_iff (n : Int) {d : Int} (hd : d ≠ 0) :
    (make Z n d).denom = 1 ↔ d ∣ n := by
  have hc := make_Z_cross n hd
  constructor
  · intro h
    rw [h, mul_one] at hc
    exact Dvd.intro_left _ hc
  · rintro ⟨k, rfl⟩
    have h : make Z (d * k) d = make Z k 1 :=
      make_Z_eq_of_cross hd one_ne_zero (by ring)
    rw [h, make_Z_of_inv (r := { num := k, denom := 1 }) ⟨Int.one_pos, Nat.gcd_one_right _⟩]

/-- Without overflow, the text of `make(n, d)` contains a `/` exactly when `d` does not
divide `n`. -/
theorem format_slash_iff (n : Int) {d : Int} (hd : d ≠ 0) :
    '/' ∈ (format (make Z n d)).data ↔ ¬ d ∣ n := by
  rw [format_numeral (by intro s; exact IntType.noConfusion), ← make_Z_denom_eq_one_iff n hd]
  by_cases h1 : (make Z n d).denom = 1
  · simp only [h1, if_true, not_true_eq_false, iff_false]
    exact int_repr_no_slash _
  · simp only [h1, if_false, not_false_eq_true, iff_true, String.data_append]
    simp

/-- C22. The function `operator<<` writes the numerator with the stream's own integer
insertion, which for a character element type writes a character, not a numeral:
`rational<signed char>{65, 1}` is written as `A`, not as `65`, and
`rational<signed char>{51, 52}` as `3/4`.  At every other element type the text is the
decimal numeral of the numerator, followed by `/` and the numeral of the denominator unless
the denominator is 1; there `make(3,10)` is written `3/10` and `make(3,1)` as `3`, and
without overflow the text of `make(n, d)` contains a `/` exactly when `d` does not divide
`n`. -/
theorem format_text :
    (format ({ num := 65, denom := 1 } : rational int8) = "A" ∧
      Int.repr 65 = "65" ∧
      format ({ num := 65, denom := 1 } : rational int8) ≠ Int.repr 65) ∧
    (format ({ num := 51, denom := 52 } : rational int8) = "3/4" ∧
      Int.repr 51 ++ "/" ++ Int.repr 52 = "51/52") ∧
    (∀ (T : IntType), (∀ s, T ≠ IntType.fixed 8 s) → ∀ r : rational T,
      format r = if r.denom = 1 then Int.repr r.num
        else Int.repr r.num ++ "/" ++ Int.repr r.denom) ∧
    (∀ n d : Int, d ≠ 0 → ('/' ∈ (format (make Z n d)).data ↔ ¬ d ∣ n)) ∧
    format (make int32 3 10) = "3/10" ∧ format (make int32 3 1) = "3" ∧
    format (make int32 (-3) 10) = "-3/10" := by
  refine ⟨by decide, by decide, ?_, ?_, by decide, by decide, by decide⟩
  · intro T h r
    exact format_numeral h r
  · intro n d hd
    exact format_slash_iff n hd

/-! ## Compound assignment with the receiver as its own argument -/

theorem op_add_assign_self_Z (r : rational Z) :
    op_add_assign_self r =
      make Z (r.num * r.denom + r.denom * (r.num * r.denom)) (r.denom * r.denom) := rfl

theorem op_sub_assign_self_Z (r : rational Z) :
    op_sub_assign_self r =
      make Z (r.num * r.denom - r.denom * (r.num * r.denom)) (r.denom * r.denom) := rfl

theorem op_mul_assign_self_Z (r : rational Z) :
    op_mul_assign_self r = make Z (r.num * r.num) (r.denom * r.denom) := rfl

theorem op_div_assign_self_Z (r : rational Z) :
    op_div_assign_self r = make Z (r.num * r.denom) (r.denom * (r.num * r.denom)) := rfl

/-- Without overflow, `r += r` leaves `r + r` exactly when the numerator is 0 or the
denominator is 1; the same holds of `r -= r` and the canonical zero, and `r /= r` leaves
`(1, 1)` exactly when the denominator is 1.  The product `r *= r` is always `r * r`. -/
theorem assign_self_correct_iff (r : rational Z) (hr : Inv r) :
    (op_add_assign_self r = op_add r r ↔ (r.num = 0 ∨ r.denom = 1)) ∧
    (op_sub_assign_self r = rational.default Z ↔ (r.num = 0 ∨ r.denom = 1)) ∧
    (r.num ≠ 0 → (op_div_assign_self r = { num := 1, denom := 1 } ↔ r.denom = 1)) ∧
    op_mul_assign_self r = op_mul r r := by
  have hd := hr.denom_ne_zero
  have hdd : r.denom * r.denom ≠ 0 := mul_ne_zero hd hd
  have key : ∀ x : Int, x * (r.denom * r.denom) = 0 ↔ x = 0 := by
    intro x
    constructor
    · intro h
      rcases mul_eq_zero.mp h with h1 | h1
      · exact h1
      · exact absurd h1 hdd
    · intro h; rw [h, zero_mul]
  refine ⟨?_, ?_, ?_, ?_⟩
  · rw [op_add_assign_self_Z, op_add_Z, make_Z_eq_iff hdd hdd]
    constructor
    · intro h
      have h2 : (r.num * (r.denom - 1)) * (r.denom * r.denom) * r.denom = 0 := by
        linear_combination h
      rcases mul_eq_zero.mp h2 with h3 | h3
      · rcases mul_eq_zero.mp ((key _).mp h3) with h4 | h4
        · left; exact h4
        · right; omega
      · exact absurd h3 hd
    · rintro (h | h)
      · rw [h]; ring
      · rw [h]; ring
  · have hz : rational.default Z = make Z 0 1 := by decide
    rw [op_sub_assign_self_Z, hz, make_Z_eq_iff hdd one_ne_zero]
    constructor
    · intro h
      have h2 : (r.num * (1 - r.denom)) * r.denom = 0 := by
        linear_combination h
      rcases mul_eq_zero.mp h2 with h3 | h3
      · rcases mul_eq_zero.mp h3 with h4 | h4
        · left; exact h4
        · right; omega
      · exact absurd h3 hd
    · rintro (h | h)
      · rw [h]; ring
      · rw [h]; ring
  · intro hn
    have hnd : r.denom * (r.num * r.denom) ≠ 0 := mul_ne_zero hd (mul_ne_zero hn hd)
    have h1 : ({ num := 1, denom := 1 } : rational Z) = make Z 1 1 := by decide
    rw [op_div_assign_self_Z, h1, make_Z_eq_iff hnd one_ne_zero]
    constructor
    · intro h
      have h2 : (r.num * r.denom) * (r.denom - 1) = 0 := by
        linear_combination -h
      rcases mul_eq_zero.mp h2 with h3 | h3
      · exact absurd h3 (mul_ne_zero hn hd)
      · omega
    · intro h
      rw [h]; ring
  · rw [op_mul_assign_self_Z, op_mul_Z]

/-- C27. When the argument of a compound assignment is the receiver itself, the reference
re-reads fields the receiver has already overwritten.  From `r = (1, 2)`, without overflow
and also at `int`: `r += r` leaves `(3, 2)` where `r + r = make(2, 2) = (1, 1)`; `r -= r`
leaves `(-1, 2)`, not `(0, 1)`; `r /= r` leaves `(1, 2)`, not `(1, 1)`.  Only `r *= r` is
right: it leaves `make(n * n, d * d)`, here `(1, 4)`. -/
theorem assign_self_aliasing :
    Inv (make Z 1 2) ∧
    (op_add_assign_self (make Z 1 2) = { num := 3, denom := 2 } ∧
      op_add (make Z 1 2) (make Z 1 2) = { num := 1, denom := 1 } ∧
      make Z (2 * 1) 2 = { num := 1, denom := 1 }) ∧
    (op_sub_assign_self (make Z 1 2) = { num := -1, denom := 2 } ∧
      op_sub (make Z 1 2) (make Z 1 2) = { num := 0, denom := 1 }) ∧
    (op_div_assign_self (make Z 1 2) = { num := 1, denom := 2 } ∧
      op_div (make Z 1 2) (make Z 1 2) = { num := 1, denom := 1 }) ∧
    (op_mul_assign_self (make Z 1 2) = { num := 1, denom := 4 } ∧
      op_mul (make Z 1 2) (make Z 1 2) = { num := 1, denom := 4 } ∧
      make Z (1 * 1) (2 * 2) = { num := 1, denom := 4 }) ∧
    (op_add_assign_self (make int32 1 2) = { num := 3, denom := 2 } ∧
      op_sub_assign_self (make int32 1 2) = { num := -1, denom := 2 } ∧
      op_div_assign_self (make int32 1 2) = { num := 1, denom := 2 } ∧
      op_mul_assign_self (make int32 1 2) = { num := 1, denom := 4 }) := by
  decide

/-! ## Fixed-width normalisation -/

namespace rational

open IntType

theorem sign_mul_inRange {T : IntType} {n d : Int} (hn : T.inRange n) (hmin : ¬ T.isMin n)
    (hd : T.inRange d) : T.inRange (detail.sign d * n) ∧ ¬ T.isMin (detail.sign d * n) := by
  match T, hn, hmin, hd with
  | unbounded, _, _, _ => exact ⟨trivial, id⟩
  | fixed w false, hn, _, hd =>
    have := hd.1
    have hs : detail.sign d = 1 := by unfold detail.sign; rw [if_neg (by omega)]
    rw [hs, one_mul]
    exact ⟨hn, id⟩
  | fixed w true, hn, hmin, _ =>
    have h1 := hn.1
    have h2 := hn.2
    have hne : n ≠ -(2 ^ (w - 1)) := hmin
    unfold detail.sign
    split
    · refine ⟨⟨by omega, by omega⟩, ?_⟩
      intro h
      have h' : -1 * n = -(2 ^ (w - 1)) := h
      omega
    · refine ⟨⟨by omega, by omega⟩, ?_⟩
      intro h
      have h' : 1 * n = -(2 ^ (w - 1)) := h
      omega

theorem tdiv_inRange {T : IntType} {x g : Int} (hx : T.inRange x) (hmin : ¬ T.isMin x)
    (hg : 0 ≤ g) : T.inRange (x.tdiv g) := by
  have hle : (x.tdiv g).natAbs ≤ x.natAbs := by
    rw [Int.natAbs_tdiv]
    exact Nat.div_le_self _ _
  match T, hx, hmin with
  | unbounded, _, _ => trivial
  | fixed w false, hx, _ =>
    have h0 : 0 ≤ x.tdiv g := Int.tdiv_nonneg hx.1 hg
    have := hx.1
    have := hx.2
    constructor <;> omega
  | fixed w true, hx, hmin =>
    have := hx.1
    have := hx.2
    have hne : x ≠ -(2 ^ (w - 1)) := hmin
    constructor <;> omega

/-- Away from the least value, fixed-width normalisation is exact normalisation. -/
theorem make_eq_exact {T : IntType} (hT : T.valid) {n d : Int} (hn : T.inRange n)
    (hd : T.inRange d) (hd0 : d ≠ 0) (hnmin : ¬ T.isMin n) (hdmin : ¬ T.isMin d) :
    (make T n d).num = (make Z n d).num ∧ (make T n d).denom = (make Z n d).denom := by
  have hGle : Int.gcd n d ≤ d.natAbs := Nat.gcd_le_right _ (Int.natAbs_pos.mpr hd0)
  have hGr : T.inRange (Int.gcd n d : Int) :=
    inRange_of_le_natAbs hd hdmin (Int.ofNat_nonneg _) (by exact_mod_cast hGle)
  have hg : detail.abs T (detail.gcd n d) = (Int.gcd n d : Int) := by
    rw [← detail.natAbs_gcd]
    apply detail.abs_eq_natAbs
    rw [detail.natAbs_gcd, promote_wrap_of_inRange hT hGr, wrap_of_inRange hT hGr]
  constructor
  · have hs := sign_mul_inRange hn hnmin hd
    have hq := tdiv_inRange hs.1 hs.2 (Int.ofNat_nonneg (Int.gcd n d))
    simp only [make, simplify, hg, IntType.div, IntType.mul,
      promote_wrap_of_inRange hT (detail.sign_inRange hd hd0 hdmin),
      promote_wrap_of_inRange hT hn, promote_wrap_of_inRange hT hs.1,
      promote_wrap_of_inRange hT hGr, promote_wrap_of_inRange hT hq, wrap_of_inRange hT hq]
    simp only [detail.abs_gcd_Z, promote_Z, wrap_Z, div_Z, mul_Z]
  · rw [(make_abs hT hn hd hd0 hdmin).1, make_Z]
    simp only
    rw [Int.natCast_div, Int.natCast_natAbs]

end rational

/-- C28. Fixed-width normalisation agrees with exact normalisation away from the least
value: at every fixed-width element type (in particular the signed two's-complement types
of width 8, 16, 32, 64) and for all values `n`, `d` of the type with `d ≠ 0` and neither
`n` nor `d` the least value `-2 ^ (w - 1)`, `make(n, d)` evaluated with wraparound
arithmetic returns the same numerator and denominator as the evaluation over unbounded
integers, hence a strictly positive denominator and lowest terms. -/
theorem fixed_make_exact (T : IntType) (hT : T.valid) (n d : Int) (hn : T.inRange n)
    (hd : T.inRange d) (hd0 : d ≠ 0) (hnmin : ¬ T.isMin n) (hdmin : ¬ T.isMin d) :
    (make T n d).num = (make Z n d).num ∧
    (make T n d).denom = (make Z n d).denom ∧
    0 < (make T n d).denom ∧
    Nat.gcd (make T n d).num.natAbs (make T n d).denom.natAbs = 1 := by
  obtain ⟨h1, h2⟩ := make_eq_exact hT hn hd hd0 hnmin hdmin
  have hinv := make_Z_inv n hd0
  refine ⟨h1, h2, ?_, ?_⟩
  · rw [h2]; exact hinv.1
  · rw [h1, h2]; exact hinv.2

/-- C28 at `signed char` with `n = 127` and `d = -127`. -/
theorem fixed_make_exact_witness :
    IntType.valid int8 ∧ IntType.inRange int8 127 ∧ IntType.inRange int8 (-127) ∧
    (-127 : Int) ≠ 0 ∧ ¬ IntType.isMin int8 127 ∧ ¬ IntType.isMin int8 (-127) ∧
    ((make int8 127 (-127)).num = (make Z 127 (-127)).num ∧
      (make int8 127 (-127)).denom = (make Z 127 (-127)).denom ∧
      0 < (make int8 127 (-127)).denom ∧
      Nat.gcd (make int8 127 (-127)).num.natAbs (make int8 127 (-127)).denom.natAbs = 1) :=
  ⟨by decide, by decide, by decide, by decide, by decide, by decide,
    fixed_make_exact int8 (by decide) 127 (-127) (by decide) (by decide) (by decide)
      (by decide) (by decide)⟩

/-- C29. Normalisation is idempotent: without overflow, for all `n` and `d ≠ 0`, with
`r = make(n, d)`, `make(r.num, r.denom)` equals `r` field for field; equivalently
`simplify` leaves every pair with positive denominator and coprime fields unchanged,
over the integers and at every fixed-width element type. -/
theorem make_idempotent :
    (∀ n d : Int, d ≠ 0 →
      make Z (make Z n d).num (make Z n d).denom = make Z n d ∧
      simplify (make Z n d) = make Z n d) ∧
    (∀ r : rational Z, Inv r → simplify r = r) ∧
    (∀ (T : IntType), T.valid → ∀ r : rational T, T.inRange r.num → T.inRange r.denom →
      Inv r → simplify r = r ∧ make T r.num r.denom = r) ∧
    make Z (make Z 10 (-100)).num (make Z 10 (-100)).denom = make Z 10 (-100) := by
  refine ⟨?_, ?_, ?_, by decide⟩
  · intro n d hd
    have h := make_Z_of_inv (make_Z_inv n hd)
    exact ⟨h, h⟩
  · intro r hr
    exact make_Z_of_inv hr
  · intro T hT r hn hd hr
    have h : make T r.num r.denom = r := make_of_inv hT hn hd hr.1 hr.2
    exact ⟨h, h⟩

/-- C29 at `n = 10`, `d = -100`. -/
theorem make_idempotent_witness :
    (-100 : Int) ≠ 0 ∧
    make Z (make Z 10 (-100)).num (make Z 10 (-100)).denom = make Z 10 (-100) ∧
    simplify (make Z 10 (-100)) = make Z 10 (-100) :=
  ⟨by decide, make_idempotent.1 10 (-100) (by decide)⟩

namespace IntType

theorem add_swap (C : IntType) (x y : Int) : C.add x y = C.add y x := by
  unfold IntType.add
  rw [add_comm]

theorem mul_swap (C : IntType) (x y : Int) : C.mul x y = C.mul y x := by
  unfold IntType.mul
  rw [mul_comm]

end IntType

/-- C30. Addition and multiplication are commutative on the stored fields: for all `a`, `b`
of the same element type, without overflow and also at every fixed-width type, `a + b`
equals `b + a` and `a * b` equals `b * a` field for field.  For example
`make(1,5) + make(1,10)` and `make(1,10) + make(1,5)` are both `(3, 10)`. -/
theorem add_mul_comm :
    (∀ (T : IntType) (a b : rational T),
      op_add a b = op_add b a ∧ op_mul a b = op_mul b a) ∧
    (∀ a b : rational Z, Inv a → Inv b →
      op_add a b = op_add b a ∧ op_mul a b = op_mul b a) ∧
    op_add (make Z 1 5) (make Z 1 10) = { num := 3, denom := 10 } ∧
    op_add (make Z 1 10) (make Z 1 5) = { num := 3, denom := 10 } ∧
    op_mul (make int8 2 3) (make int8 3 4) = op_mul (make int8 3 4) (make int8 2 3) := by
  have h : ∀ (T : IntType) (a b : rational T),
      op_add a b = op_add b a ∧ op_mul a b = op_mul b a := by
    intro T a b
    constructor
    · show make (T.common T)
          ((T.common T).add ((T.common T).mul a.denom b.num) ((T.common T).mul b.denom a.num))
          ((T.common T).mul a.denom b.denom) =
        make (T.common T)
          ((T.common T).add ((T.common T).mul b.denom a.num) ((T.common T).mul a.denom b.num))
          ((T.common T).mul b.denom a.denom)
      rw [IntType.add_swap, IntType.mul_swap _ a.denom b.denom]
    · show make (T.common T) ((T.common T).mul a.num b.num) ((T.common T).mul a.denom b.denom) =
        make (T.common T) ((T.common T).mul b.num a.num) ((T.common T).mul b.denom a.denom)
      rw [IntType.mul_swap _ a.num b.num, IntType.mul_swap _ a.denom b.denom]
  exact ⟨h, fun a b _ _ => h Z a b, by decide, by decide, by decide⟩

/-- C30 at `a = (1, 5)` and `b = (1, 10)`. -/
theorem add_mul_comm_witness :
    Inv ({ num := 1, denom := 5 } : rational Z) ∧ Inv ({ num := 1, denom := 10 } : rational Z) ∧
    op_add ({ num := 1, denom := 5 } : rational Z) ({ num := 1, denom := 10 } : rational Z) =
      op_add ({ num := 1, denom := 10 } : rational Z) ({ num := 1, denom := 5 } : rational Z) ∧
    op_mul ({ num := 1, denom := 5 } : rational Z) ({ num := 1, denom := 10 } : rational Z) =
      op_mul ({ num := 1, denom := 10 } : rational Z) ({ num := 1, denom := 5 } : rational Z) :=
  ⟨by decide, by decide,
    add_mul_comm.2.1 { num := 1, denom := 5 } { num := 1, denom := 10 } (by decide) (by decide)⟩

/-! ## Associativity of addition -/

namespace rational

/-- The canonical zero is the normal form of every pair with numerator 0. -/
theorem make_Z_zero_num {d : Int} (hd : d ≠ 0) : make Z 0 d = { num := 0, denom := 1 } := by
  have h : make Z 0 d = make Z 0 1 := make_Z_eq_of_cross hd one_ne_zero (by ring)
  rw [h]
  decide

/-- The canonical one is the normal form of every pair of equal non-zero fields. -/
theorem make_Z_same {d : Int} (hd : d ≠ 0) : make Z d d = { num := 1, denom := 1 } := by
  have h : make Z d d = make Z 1 1 := make_Z_eq_of_cross hd one_ne_zero (by ring)
  rw [h]
  decide

end rational

/-- The sum stands for the sum of the rational numbers, whenever both denominators are
non-zero. -/
theorem op_add_Z_value {x y : rational Z} (hx : x.denom ≠ 0) (hy : y.denom ≠ 0) :
    (op_add x y).value = x.value + y.value := by
  rw [op_add_Z, make_Z_value _ (mul_ne_zero hx hy)]
  unfold value
  have h1 : (x.denom : ℚ) ≠ 0 := by exact_mod_cast hx
  have h2 : (y.denom : ℚ) ≠ 0 := by exact_mod_cast hy
  push_cast
  field_simp
  ring

theorem op_add_Z_inv {x y : rational Z} (hx : x.denom ≠ 0) (hy : y.denom ≠ 0) :
    Inv (op_add x y) := by
  rw [op_add_Z]
  exact make_Z_inv _ (mul_ne_zero hx hy)

set_option maxRecDepth 8192 in
/-- C31. Addition is associative despite the normalisation after each step: without
overflow, for all `a`, `b`, `c` satisfying the invariant, `(a + b) + c` equals `a + (b + c)`
field for field, and both stand for the sum of the three rational numbers.  For example
`(1/2 + 1/3) + 1/6` and `1/2 + (1/3 + 1/6)` are both `(1, 1)`, also at the element
type `int`. -/
theorem op_add_assoc :
    (∀ a b c : rational Z, Inv a → Inv b → Inv c →
      (op_add (op_add a b) c : rational Z) = op_add a (op_add b c) ∧
      (op_add (op_add a b) c : rational Z).value = a.value + b.value + c.value) ∧
    (op_add (op_add (make Z 1 2) (make Z 1 3)) (make Z 1 6) : rational Z)
      = { num := 1, denom := 1 } ∧
    (op_add (make Z 1 2) (op_add (make Z 1 3) (make Z 1 6)) : rational Z)
      = { num := 1, denom := 1 } ∧
    (op_add (op_add (make int32 1 2) (make int32 1 3)) (make int32 1 6) : rational int32)
      = op_add (make int32 1 2) (op_add (make int32 1 3) (make int32 1 6)) := by
  refine ⟨?_, by decide, by decide, by decide⟩
  intro a b c ha hb hc
  have had := ha.denom_ne_zero
  have hbd := hb.denom_ne_zero
  have hcd := hc.denom_ne_zero
  have hab : Inv (op_add a b) := op_add_Z_inv had hbd
  have hbc : Inv (op_add b c) := op_add_Z_inv hbd hcd
  have hl : (op_add (op_add a b) c : rational Z).value = a.value + b.value + c.value := by
    rw [op_add_Z_value hab.denom_ne_zero hcd, op_add_Z_value had hbd]
  have hr : (op_add a (op_add b c) : rational Z).value = a.value + b.value + c.value := by
    rw [op_add_Z_value had hbc.denom_ne_zero, op_add_Z_value hbd hcd]
    ring
  refine ⟨?_, hl⟩
  apply Inv.eq_of_value_eq (op_add_Z_inv hab.denom_ne_zero hcd)
    (op_add_Z_inv had hbc.denom_ne_zero)
  rw [hl, hr]

/-- C31 at `a = (1, 2)`, `b = (1, 3)`, `c = (1, 6)`. -/
theorem op_add_assoc_witness :
    Inv ({ num := 1, denom := 2 } : rational Z) ∧
    Inv ({ num := 1, denom := 3 } : rational Z) ∧
    Inv ({ num := 1, denom := 6 } : rational Z) ∧
    (op_add (op_add ({ num := 1, denom := 2 } : rational Z) ({ num := 1, denom := 3 } : rational Z))
        ({ num := 1, denom := 6 } : rational Z) : rational Z) =
      op_add ({ num := 1, denom := 2 } : rational Z)
        (op_add ({ num := 1, denom := 3 } : rational Z) ({ num := 1, denom := 6 } : rational Z)) :=
  ⟨by decide, by decide, by decide,
    (op_add_assoc.1 { num := 1, denom := 2 } { num := 1, denom := 3 } { num := 1, denom := 6 }
      (by decide) (by decide) (by decide)).1⟩

/-! ## Additive inverses, and division as the inverse of multiplication -/

/-- Without overflow the negation of a pair satisfying the invariant negates the numerator
and keeps the denominator. -/
theorem op_neg_Z_of_inv {r : rational Z} (hr : Inv r) :
    op_neg r = { num := -r.num, denom := r.denom } := by
  rw [op_neg_Z]
  have h : Inv ({ num := -r.num, denom := r.denom } : rational Z) := by
    refine ⟨hr.1, ?_⟩
    show Nat.gcd (-r.num).natAbs r.denom.natAbs = 1
    rw [Int.natAbs_neg]
    exact hr.2
  exact make_Z_of_inv h

/-! ## A zero denominator -/

namespace rational

open IntType

theorem simplify_g_eq_zero_iff {T : IntType} (hT : T.valid) {n d : Int} (hn : T.inRange n)
    (hd : T.inRange d) :
    simplify_g ({ num := n, denom := d } : rational T) = 0 ↔ (n = 0 ∧ d = 0) := by
  rw [← Int.natAbs_eq_zero, natAbs_simplify_g hT hn hd]
  exact Int.gcd_eq_zero_iff

theorem inRange_zero {T : IntType} (hT : T.valid) : T.inRange 0 := by
  have h := wrap_inRange hT 0
  rwa [wrap_zero] at h

/-- With a zero denominator the divisor of `simplify()` is `abs(n)`, which has the magnitude
of `n`. -/
theorem natAbs_simplify_g_zero_denom {T : IntType} (hT : T.valid) {n : Int}
    (hn : T.inRange n) :
    simplify_g ({ num := n, denom := 0 } : rational T) = detail.abs T n ∧
    (detail.abs T n).natAbs = n.natAbs := by
  have h := natAbs_simplify_g hT hn (inRange_zero hT)
  have hg : simplify_g ({ num := n, denom := 0 } : rational T) = detail.abs T n := by
    unfold simplify_g
    simp only
    rw [detail.gcd_zero_right]
  rw [hg] at h
  refine ⟨hg, ?_⟩
  rw [h]
  simp

/-- The promoted type holds 1. -/
theorem promote_wrap_one {T : IntType} (hT : T.valid) : T.promote.wrap 1 = 1 := by
  match T, hT with
  | unbounded, _ => rfl
  | fixed w false, _ =>
    rcases promote_cases w false with ⟨_, hP⟩ | ⟨hw, hP⟩
    · rw [hP]
      decide
    · rw [hP]
      have h2 := two_pow_pred (show 0 < w by omega)
      have hp := two_pow_pos (w - 1)
      exact wrap_unsigned_of_inRange (by omega) (by omega)
  | fixed w true, _ =>
    rcases promote_cases w true with ⟨_, hP⟩ | ⟨hw, hP⟩
    · rw [hP]
      decide
    · rw [hP]
      have h31 : (2 : Int) ^ 31 ≤ 2 ^ (w - 1) := two_pow_le_int (by omega)
      exact wrap_signed_of_inRange (by omega) (by omega) (by omega)

/-- The fields of `make(n, 0)` at an arbitrary element type. -/
theorem make_denom_zero_fields {T : IntType} (hT : T.valid) {n : Int} (hn : T.inRange n) :
    (make T n 0).num = T.wrap (T.promote.wrap (n.tdiv (detail.abs T n))) ∧
    (make T n 0).denom = 0 := by
  have hz := inRange_zero hT
  have hag : T.inRange (detail.abs T n) := by
    by_cases h0 : n = 0
    · rw [h0, detail.abs_of_nonneg' T (le_refl 0)]
      exact hz
    · exact (detail.abs_inRange_ne_zero hT hn h0).1
  have hs : detail.sign 0 = 1 := by decide
  have ha0 : detail.abs T 0 = 0 := detail.abs_of_nonneg' T (le_refl 0)
  constructor
  · simp only [make, simplify, detail.gcd_zero_right, hs, IntType.div, IntType.mul,
      promote_wrap_one hT, one_mul, promote_wrap_of_inRange hT hn,
      promote_wrap_of_inRange hT hag]
  · simp only [make, simplify, detail.gcd_zero_right, ha0, IntType.div,
      promote_wrap_of_inRange hT hz, Int.zero_tdiv, wrap_zero]

/-- The numerator of `make(n, 0)` is 1 or -1 and the denominator is 0, at every element
type; the numerator is the sign of `n` unless `n` is the least value of a signed type. -/
theorem make_denom_zero {T : IntType} (hT : T.valid) {n : Int} (hn : T.inRange n)
    (hn0 : n ≠ 0) :
    (make T n 0).denom = 0 ∧
    ((make T n 0).num = 1 ∨ (make T n 0).num = -1) ∧
    (¬ T.isMin n → (make T n 0).num = Int.sign n) := by
  obtain ⟨hnum, hden⟩ := make_denom_zero_fields hT hn
  obtain ⟨_, habs⟩ := natAbs_simplify_g_zero_denom hT hn
  have hg := detail.abs_inRange_ne_zero hT hn hn0
  have hnpos : 0 < n.natAbs := Int.natAbs_pos.mpr hn0
  have hq : (n.tdiv (detail.abs T n)).natAbs = 1 := by
    rw [Int.natAbs_tdiv, habs]
    exact Nat.div_self hnpos
  refine ⟨hden, ?_, ?_⟩
  · have hf : T.fits (n.tdiv (detail.abs T n)) := by
      match T, hT, hn, hg with
      | unbounded, _, _, _ => trivial
      | fixed w false, hT, hn, hg =>
        have h0 : 0 ≤ n.tdiv (detail.abs (fixed w false) n) := Int.tdiv_nonneg hn.1 hg.1.1
        have h2 := two_pow_pred hT
        have hp := two_pow_pos (w - 1)
        constructor <;> omega
      | fixed w true, hT, _, _ =>
        have hp := two_pow_pos (w - 1)
        constructor <;> omega
    have h1 := fits_promote_wrap hT hf
    have h2 := fits_wrap hT h1.2
    have h3 : (make T n 0).num.natAbs = 1 := by rw [hnum, h2.1, h1.1, hq]
    omega
  · intro hmin
    rcases lt_or_gt_of_ne hn0 with hneg | hpos
    · have hnr : T.inRange (-n) ∧ T.inRange (-1) := by
        match T, hn, hmin with
        | unbounded, _, _ => exact ⟨trivial, trivial⟩
        | fixed w false, hn, _ =>
          have := hn.1
          omega
        | fixed w true, hn, hmin =>
          have h1 := hn.1
          have h2 := hn.2
          have hne : n ≠ -(2 ^ (w - 1)) := hmin
          exact ⟨⟨by omega, by omega⟩, ⟨by omega, by omega⟩⟩
      have ha : detail.abs T n = -n := by
        unfold detail.abs IntType.neg
        rw [if_pos hneg, promote_wrap_of_inRange hT hnr.1, wrap_of_inRange hT hnr.1]
      have hq1 : n.tdiv (-n) = -1 := by
        rw [Int.tdiv_neg, Int.tdiv_self hn0]
      rw [hnum, ha, hq1, promote_wrap_of_inRange hT hnr.2, wrap_of_inRange hT hnr.2,
        Int.sign_eq_neg_one_of_neg hneg]
    · have h1 : T.inRange 1 := inRange_one hn hpos
      rw [hnum, detail.abs_of_nonneg' T (le_of_lt hpos), Int.tdiv_self hn0,
        promote_wrap_of_inRange hT h1, wrap_of_inRange hT h1, Int.sign_eq_one_of_pos hpos]

/-- Without overflow `make(n, 0)` is `(sign n, 0)`. -/
theorem make_Z_denom_zero {n : Int} (hn : n ≠ 0) :
    make Z n 0 = { num := Int.sign n, denom := 0 } := by
  have h := make_denom_zero (T := Z) trivial (n := n) trivial hn
  have h3 := h.2.2 id
  have h1 := h.1
  cases hm : make Z n 0 with
  | mk a b =>
    rw [hm] at h1 h3
    simp only at h1 h3
    rw [h1, h3]

end rational

/-! ## The remainder that traps, and the runs that return -/

namespace detail

theorem tmod_nonpos {a : Int} (b : Int) (ha : a ≤ 0) : a.tmod b ≤ 0 := by
  have h : a.tmod b = -((-a).tmod b) := by
    rw [Int.tmod_def, Int.tmod_def, Int.neg_tdiv]
    ring
  have h0 := Int.tmod_nonneg b (show 0 ≤ -a by omega)
  omega

/-- The remainder lies between 0 and the dividend. -/
theorem tmod_between (a b : Int) :
    (0 ≤ a → 0 ≤ a.tmod b ∧ a.tmod b ≤ a) ∧ (a ≤ 0 → a ≤ a.tmod b ∧ a.tmod b ≤ 0) := by
  have h := natAbs_tmod a b
  have hle : a.natAbs % b.natAbs ≤ a.natAbs := Nat.mod_le _ _
  constructor
  · intro ha
    have h0 := Int.tmod_nonneg b ha
    constructor <;> omega
  · intro ha
    have h0 := tmod_nonpos b ha
    constructor <;> omega

end detail

namespace IntType

theorem inRange_tmod {P : IntType} {a : Int} (ha : P.inRange a) (b : Int) :
    P.inRange (a.tmod b) := by
  have h := detail.tmod_between a b
  match P, ha with
  | unbounded, _ => trivial
  | fixed w false, ha =>
    have h1 := h.1 ha.1
    have := ha.2
    constructor <;> omega
  | fixed w true, ha =>
    have hp := two_pow_pos (w - 1)
    have := ha.1
    have := ha.2
    by_cases h0 : 0 ≤ a
    · have h1 := h.1 h0
      constructor <;> omega
    · have h1 := h.2 (by omega)
      constructor <;> omega

/-- Every value of a type is a value of the promoted type. -/
theorem inRange_promote {T : IntType} (hT : T.valid) {x : Int} (h : T.inRange x) :
    T.promote.inRange x := by
  have hw := promote_wrap_of_inRange hT h
  have hv : T.promote.valid := by
    match T, hT with
    | unbounded, _ => trivial
    | fixed w s, hT =>
      rcases promote_cases w s with ⟨_, hP⟩ | ⟨_, hP⟩
      · rw [hP]; decide
      · rw [hP]; exact hT
  have := wrap_inRange hv x
  rwa [hw] at this

end IntType

namespace detail

open IntType

/-- The states of the loop of `detail::gcd` from which no remainder traps: both operands
are values of the promoted type `P`, and the pair is neither (least value, -1) nor
(-1, least value). -/
theorem gcd_safe_step {P : IntType} {a b : Int} (ha : P.inRange a) (hb : P.inRange b)
    (h2 : ¬ (a = -1 ∧ P.isMin b)) (hb0 : b ≠ 0) :
    P.inRange (a.tmod b) ∧ ¬ (P.isMin b ∧ a.tmod b = -1) ∧
      ¬ (b = -1 ∧ P.isMin (a.tmod b)) := by
  refine ⟨inRange_tmod ha b, ?_, ?_⟩
  · rintro ⟨hmin, hm⟩
    match P, ha, hb, hmin, h2 with
    | fixed w true, ha, _, hmin, h2 =>
      have hbm : b = -(2 ^ (w - 1)) := hmin
      have hp := two_pow_pos (w - 1)
      have h1 := ha.1
      have h3 := ha.2
      have hna := natAbs_tmod a b
      have hneg : a < 0 := by
        by_contra hc
        have := (tmod_between a b).1 (by omega)
        omega
      by_cases hab : a = b
      · rw [hab, Int.tmod_self] at hm
        omega
      · have hlt : a.natAbs < b.natAbs := by omega
        rw [Nat.mod_eq_of_lt hlt] at hna
        exact h2 ⟨by omega, hmin⟩
  · rintro ⟨hb1, hmin⟩
    have hlt := natAbs_tmod_lt a b hb0
    have h0 : a.tmod b = 0 := by
      rw [hb1] at hlt
      have : ((-1 : Int)).natAbs = 1 := rfl
      rw [hb1]
      omega
    rw [h0] at hmin
    match P, hmin with
    | fixed w true, hmin =>
      have hm : (0 : Int) = -(2 ^ (w - 1)) := hmin
      have hp := two_pow_pos (w - 1)
      omega

theorem gcd_run_eq (T : IntType) (fuel : Nat) : ∀ a b : Int, b.natAbs ≤ fuel →
    T.promote.inRange a → T.promote.inRange b → ¬ (T.promote.isMin a ∧ b = -1) →
    ¬ (a = -1 ∧ T.promote.isMin b) → gcd_run T fuel a b = some (gcd a b) := by
  induction fuel with
  | zero =>
    intro a b h _ _ _ _
    have hb : b = 0 := Int.natAbs_eq_zero.mp (by omega)
    simp [gcd_run, hb, gcd_zero_right]
  | succ k ih =>
    intro a b h ha hb h1 h2
    rw [gcd_eq]
    simp only [gcd_run]
    by_cases hb0 : b = 0
    · simp [hb0]
    · have ht : ¬ T.promote.traps a b := by
        rintro (h0 | h0)
        · exact hb0 h0
        · exact h1 h0
      simp only [hb0, ht, if_false]
      have hlt := natAbs_tmod_lt a b hb0
      obtain ⟨s1, s2, s3⟩ := gcd_safe_step ha hb h2 hb0
      exact ih b (a.tmod b) (by omega) hb s1 s2 s3

/-- Over the unbounded integers the loop returns for every pair. -/
theorem gcd_run_Z {fuel : Nat} {a b : Int} (h : b.natAbs ≤ fuel) :
    gcd_run Z fuel a b = some (gcd a b) :=
  gcd_run_eq Z fuel a b h trivial trivial (fun h => h.1) (fun h => h.2)

/-- The loop has no result from the least value and -1, whatever the budget. -/
theorem gcd_run_min_neg_one (T : IntType) (fuel : Nat) {a : Int} (ha : T.promote.isMin a) :
    gcd_run T fuel a (-1) = none := by
  cases fuel with
  | zero => simp [gcd_run]
  | succ k =>
    have ht : T.promote.traps a (-1) := Or.inr ⟨ha, rfl⟩
    simp [gcd_run, ht]

end detail

namespace detail
open IntType

/-- The loop has no result from -1 and the least value: its first remainder is -1, which
leaves the least value and -1. -/
theorem gcd_run_neg_one_min (T : IntType) (fuel : Nat) {b : Int} (hb : T.promote.isMin b) :
    gcd_run T fuel (-1) b = none := by
  have hw : ∃ w, 32 ≤ w ∧ T.promote = fixed w true := by
    match T, hb with
    | fixed w s, hb =>
      rcases promote_cases w s with ⟨_, hP⟩ | ⟨hw, hP⟩
      · exact ⟨32, le_refl _, hP⟩
      · rw [hP] at hb
        match s, hb, hP with
        | true, _, hP => exact ⟨w, hw, hP⟩
  obtain ⟨w, hw, hP⟩ := hw
  rw [hP] at hb
  have hbm : b = -(2 ^ (w - 1)) := hb
  have h31 : (2 : Int) ^ 31 ≤ 2 ^ (w - 1) := two_pow_le_int (by omega)
  have hb0 : b ≠ 0 := by omega
  have hm : (-1 : Int).tmod b = -1 := by
    have h := natAbs_tmod (-1) b
    have hlt : (-1 : Int).natAbs < b.natAbs := by omega
    rw [Nat.mod_eq_of_lt hlt] at h
    have h2 := tmod_nonpos b (show (-1 : Int) ≤ 0 by omega)
    omega
  cases fuel with
  | zero => simp [gcd_run, hb0]
  | succ k =>
    have ht : ¬ T.promote.traps (-1) b := by
      rintro (h0 | ⟨h0, h1⟩)
      · exact hb0 h0
      · omega
    simp only [gcd_run, hb0, ht, if_false, hm]
    exact gcd_run_min_neg_one T k (by rw [hP]; exact hb)

theorem gcd_loop_inRange {T : IntType} (fuel : Nat) : ∀ a b : Int, T.inRange a → T.inRange b →
    T.inRange (gcd_loop fuel a b) := by
  induction fuel with
  | zero => intro a b ha _; exact ha
  | succ k ih =>
    intro a b ha hb
    simp only [gcd_loop]
    split
    · exact ha
    · exact ih b (a.tmod b) hb (inRange_tmod ha b)

/-- The result of `detail::gcd` on two values of a type is a value of the type. -/
theorem gcd_inRange {T : IntType} {a b : Int} (ha : T.inRange a) (hb : T.inRange b) :
    T.inRange (gcd a b) := gcd_loop_inRange _ a b ha hb

theorem promote_wrap_sign {T : IntType} (hT : T.valid) {d : Int} (hd : T.inRange d) :
    T.promote.wrap (sign d) = sign d := by
  unfold sign
  split
  · next hneg =>
    match T, hT, hd with
    | unbounded, _, _ => rfl
    | fixed w false, _, hd =>
      have := hd.1
      omega
    | fixed w true, hT, _ =>
      rcases promote_cases w true with ⟨_, hP⟩ | ⟨hw, hP⟩
      · rw [hP]; decide
      · rw [hP]
        have hp := two_pow_pos (w - 1)
        exact wrap_signed_of_inRange hT (by omega) (by omega)
  · exact rational.promote_wrap_one hT

end detail

namespace detail
open IntType

/-- An integer that fits a type is not the least value of the promoted type, unless it is the
least value of the type itself. -/
theorem not_isMin_promote_of_fits {T : IntType} {z : Int} (hz : T.fits z)
    (hmin : ¬ T.isMin z) : ¬ T.promote.isMin z := by
  match T, hz, hmin with
  | unbounded, _, _ => exact id
  | fixed w false, hz, _ =>
    rcases promote_cases w false with ⟨_, hP⟩ | ⟨_, hP⟩
    · rw [hP]
      intro h
      have hm : z = -(2 ^ (32 - 1)) := h
      have := hz.1
      omega
    · rw [hP]; exact id
  | fixed w true, hz, hmin =>
    rcases promote_cases w true with ⟨hw, hP⟩ | ⟨_, hP⟩
    · rw [hP]
      intro h
      have hm : z = -(2 ^ (32 - 1)) := h
      have h31 : (2 : Int) ^ (w - 1) < 2 ^ (32 - 1) :=
        pow_lt_pow_right₀ (by norm_num) (by omega)
      have := hz.1
      omega
    · rw [hP]; exact hmin

/-- The function `detail::abs` keeps the magnitude of every value of the type. -/
theorem natAbs_abs {T : IntType} (hT : T.valid) {v : Int} (hv : T.inRange v) :
    (abs T v).natAbs = v.natAbs := by
  unfold abs IntType.neg
  split
  · next hneg =>
    have hf : T.fits (-v) := by
      match T, hv with
      | unbounded, _ => trivial
      | fixed w false, hv =>
        have := hv.1
        omega
      | fixed w true, hv =>
        have := hv.1
        have := hv.2
        constructor <;> omega
    have h1 := fits_promote_wrap hT hf
    have h2 := fits_wrap hT h1.2
    rw [h2.1, h1.1, Int.natAbs_neg]
  · rfl

/-- The divisor `abs(g0)` of `simplify()` is never -1 at a type of the rank of `int` or
above, and at a narrower type no operand is the least value of `int`: the quotient of
either division is representable. -/
theorem no_quotient_trap {T : IntType} (hT : T.valid) {z g0 : Int} (hz : T.fits z)
    (hg : T.inRange g0) :
    ¬ (T.promote.isMin z ∧ T.promote.wrap (abs T g0) = -1) := by
  rintro ⟨hmin, h1⟩
  have hzmin : T.isMin z := by
    by_contra hc
    exact not_isMin_promote_of_fits hz hc hmin
  have hna := natAbs_abs hT hg
  match T, hT, hg, hzmin, h1, hna with
  | fixed w true, hT, hg, hzmin, h1, hna =>
    have hzm : z = -(2 ^ (w - 1)) := hzmin
    rcases promote_cases w true with ⟨hw, hP⟩ | ⟨hw, hP⟩
    · rw [hP] at hmin
      have hm : z = -(2 ^ (32 - 1)) := hmin
      have h31 : (2 : Int) ^ (w - 1) < 2 ^ (32 - 1) :=
        pow_lt_pow_right₀ (by norm_num) (by omega)
      omega
    · have h31 : (2 : Int) ^ 31 ≤ 2 ^ (w - 1) := two_pow_le_int (by omega)
      have hone : inRange (fixed w true) 1 := ⟨by omega, by omega⟩
      have hG : inRange (fixed w true) (abs (fixed w true) g0) := by
        by_cases h0 : g0 = 0
        · rw [h0, abs_of_nonneg' _ (le_refl 0)]
          exact ⟨by omega, by omega⟩
        · exact (abs_inRange_ne_zero hT hg h0).1
      rw [promote_wrap_of_inRange hT hG] at h1
      by_cases hneg : g0 < 0
      · have hg1 : g0 = -1 := by
          rw [h1] at hna
          have : ((-1 : Int)).natAbs = 1 := rfl
          omega
        have habs : abs (fixed w true) g0 = 1 := by
          unfold abs IntType.neg
          rw [if_pos hneg, hg1, neg_neg, promote_wrap_of_inRange hT hone,
            wrap_of_inRange hT hone]
        omega
      · have := abs_of_nonneg' (fixed w true) (show 0 ≤ g0 by omega)
        omega

end detail

namespace rational
open IntType detail

theorem make_checked_unfold (T : IntType) (n d : Int) :
    make_checked T n d =
      match detail.gcd_run T (d.natAbs + 1) n d with
      | none => none
      | some g0 =>
        if T.promote.traps (T.promote.wrap (T.promote.mul (detail.sign d) n))
            (T.promote.wrap (detail.abs T g0)) then none
        else if T.promote.traps (T.promote.wrap (detail.abs T d))
            (T.promote.wrap (detail.abs T g0)) then none
        else
          some { num := T.wrap (T.promote.div (T.promote.mul (detail.sign d) n) (detail.abs T g0)),
                 denom := T.wrap (T.promote.div (detail.abs T d) (detail.abs T g0)) } := rfl

/-- The construction returns, with the fields of `make`, from every pair of values of the
type other than `(0, 0)`, (least value, -1) and (-1, least value) at a signed type of the
rank of `int` or above. -/
theorem make_checked_eq_some {T : IntType} (hT : T.valid) {n d : Int} (hn : T.inRange n)
    (hd : T.inRange d) (h0 : ¬ (n = 0 ∧ d = 0)) (h1 : ¬ (T.promote.isMin n ∧ d = -1))
    (h2 : ¬ (n = -1 ∧ T.promote.isMin d)) :
    make_checked T n d = some (make T n d) := by
  have hrun := gcd_run_eq T (d.natAbs + 1) n d (by omega) (inRange_promote hT hn)
    (inRange_promote hT hd) h1 h2
  have hg0 := gcd_inRange hn hd
  have hgne : simplify_g ({ num := n, denom := d } : rational T) ≠ 0 :=
    fun h => h0 ((simplify_g_eq_zero_iff hT hn hd).mp h)
  have hgne' : detail.abs T (detail.gcd n d) ≠ 0 := hgne
  have hG : T.inRange (detail.abs T (detail.gcd n d)) := by
    by_cases hz : detail.gcd n d = 0
    · rw [hz, abs_of_nonneg' _ (le_refl 0)]
      exact inRange_zero hT
    · exact (abs_inRange_ne_zero hT hg0 hz).1
  have hwg : T.promote.wrap (detail.abs T (detail.gcd n d)) ≠ 0 := by
    rw [promote_wrap_of_inRange hT hG]
    exact hgne'
  have hfx : T.fits (T.promote.wrap (T.promote.mul (detail.sign d) n)) := by
    unfold IntType.mul
    rw [promote_wrap_sign hT hd, promote_wrap_of_inRange hT hn]
    exact (fits_promote_wrap hT (fits_promote_wrap hT (sign_mul_fits hn hd)).2).2
  have hfd : T.fits (T.promote.wrap (detail.abs T d)) := by
    have hA : T.inRange (detail.abs T d) := by
      by_cases hz : d = 0
      · rw [hz, abs_of_nonneg' _ (le_refl 0)]
        exact inRange_zero hT
      · exact (abs_inRange_ne_zero hT hd hz).1
    exact (fits_promote_wrap hT (fits_of_inRange hA)).2
  have ht1 : ¬ T.promote.traps (T.promote.wrap (T.promote.mul (detail.sign d) n))
      (T.promote.wrap (detail.abs T (detail.gcd n d))) := by
    rintro (h | h)
    · exact hwg h
    · exact no_quotient_trap hT hfx hg0 h
  have ht2 : ¬ T.promote.traps (T.promote.wrap (detail.abs T d))
      (T.promote.wrap (detail.abs T (detail.gcd n d))) := by
    rintro (h | h)
    · exact hwg h
    · exact no_quotient_trap hT hfd hg0 h
  rw [make_checked_unfold, hrun]
  simp only [ht1, ht2, if_false]
  rfl

/-- The construction has no result from (least value, -1) and from (-1, least value): the
loop of `detail::gcd` takes the remainder of the least value by -1. -/
theorem make_checked_trap (T : IntType) {n d : Int}
    (h : (T.promote.isMin n ∧ d = -1) ∨ (n = -1 ∧ T.promote.isMin d)) :
    make_checked T n d = none := by
  rw [make_checked_unfold]
  rcases h with ⟨hn, hd⟩ | ⟨hn, hd⟩
  · rw [hd, gcd_run_min_neg_one T _ hn]
  · rw [hn, gcd_run_neg_one_min T _ hd]

/-- The construction has no result from `(0, 0)`: it divides by `g = 0`. -/
theorem make_checked_zero_zero {T : IntType} (hT : T.valid) : make_checked T 0 0 = none := by
  have hrun : detail.gcd_run T ((0 : Int).natAbs + 1) 0 0 = some 0 := by
    simp [gcd_run]
  have ht : T.promote.traps (T.promote.wrap (T.promote.mul (detail.sign 0) 0))
      (T.promote.wrap (detail.abs T 0)) := by
    left
    rw [abs_of_nonneg' _ (le_refl 0), promote_wrap_of_inRange hT (inRange_zero hT)]
  rw [make_checked_unfold, hrun]
  simp only [ht, if_true]

theorem make_checked_eq_none_iff {T : IntType} (hT : T.valid) {n d : Int} (hn : T.inRange n)
    (hd : T.inRange d) :
    make_checked T n d = none ↔
      ((n = 0 ∧ d = 0) ∨ (T.promote.isMin n ∧ d = -1) ∨ (n = -1 ∧ T.promote.isMin d)) := by
  constructor
  · intro h
    by_contra hc
    push_neg at hc
    have hs := make_checked_eq_some hT hn hd (fun h => hc.1 h.1 h.2)
      (fun h => hc.2.1 h.1 h.2) (fun h => hc.2.2 h.1 h.2)
    rw [hs] at h
    exact Option.noConfusion h
  · rintro (⟨h1, h2⟩ | h | h)
    · rw [h1, h2]
      exact make_checked_zero_zero hT
    · exact make_checked_trap T (Or.inl h)
    · exact make_checked_trap T (Or.inr h)

end rational

/-! ## Construction that returns -/

/-- C1 (amended). For every well-formed element type `T` (the unbounded one, or a fixed-width
signed or unsigned one whose overflow wraps modulo `2 ^ bits`) and all values `n`, `d` of `T`
with `d ≠ 0`, `d` not the least value of a signed `T`, and `(n, d)` not the least value of a
signed type of the rank of `int` or above paired with `-1` (where the remainder in
`detail::gcd` traps), the two-argument constructor returns, and the value it returns has a
strictly positive denominator and coprime numerator and denominator. -/
theorem make_invariant (T : IntType) (hT : T.valid) (n d : Int) (hn : T.inRange n)
    (hd : T.inRange d) (hd0 : d ≠ 0) (hmin : ¬ T.isMin d)
    (htrap : ¬ (T.promote.isMin n ∧ d = -1)) :
    make_checked T n d = some (make T n d) ∧
      0 < (make T n d).denom ∧
      Nat.gcd (make T n d).num.natAbs (make T n d).denom.natAbs = 1 := by
  obtain ⟨hden, hnum⟩ := make_abs hT hn hd hd0 hmin
  have hpm : ¬ T.promote.isMin d :=
    detail.not_isMin_promote_of_fits (IntType.fits_of_inRange hd) hmin
  exact ⟨make_checked_eq_some hT hn hd (fun h => hd0 h.2) htrap (fun h => hpm h.2),
    inv_of_abs hd0 hden hnum⟩

/-- C1 (amended), at `signed char` with `n = -128` and `d = -2`, and at `int` with the least
value and `d = -2`: every hypothesis holds, the constructor returns and the value satisfies
the invariant. -/
theorem make_invariant_witness :
    IntType.valid int8 ∧ IntType.inRange int8 (-128) ∧ IntType.inRange int8 (-2) ∧
      (-2 : Int) ≠ 0 ∧ ¬ IntType.isMin int8 (-2) ∧
      ¬ (IntType.isMin (IntType.promote int8) (-128) ∧ (-2 : Int) = -1) ∧
      (make_checked int8 (-128) (-2) = some (make int8 (-128) (-2)) ∧
        0 < (make int8 (-128) (-2)).denom ∧
        Nat.gcd (make int8 (-128) (-2)).num.natAbs (make int8 (-128) (-2)).denom.natAbs = 1) ∧
      make int8 (-128) (-2) = { num := 64, denom := 1 } :=
  ⟨by decide, by decide, by decide, by decide, by decide, by decide,
    make_invariant int8 (by decide) (-128) (-2) (by decide) (by decide) (by decide) (by decide)
      (by decide), by decide⟩

/-- C1 as stated fails. At the element type `signed char`, `1` and `-128` are values of the
type and `-128 ≠ 0`, yet `rational<signed char>{1, -128}` returns with numerator `-1` and
denominator `-128`: `abs(-128)` converted back to `signed char` is `-128`, so the
denominator is not positive.  At the element type `int`, `rational<int>{INT_MIN, -1}` does
not return at all: `detail::gcd` takes the remainder of `INT_MIN` by `-1`. -/
theorem make_int8_min_breaks_invariant :
    IntType.valid int8 ∧ IntType.inRange int8 1 ∧ IntType.inRange int8 (-128) ∧
      (-128 : Int) ≠ 0 ∧
      make_checked int8 1 (-128) = some { num := -1, denom := -128 } ∧
      make int8 1 (-128) = { num := -1, denom := -128 } ∧
      ¬ (0 < (make int8 1 (-128)).denom ∧
        Nat.gcd (make int8 1 (-128)).num.natAbs (make int8 1 (-128)).denom.natAbs = 1) ∧
      IntType.inRange int32 (-2147483648) ∧ IntType.inRange int32 (-1) ∧
      make_checked int32 (-2147483648) (-1) = none := by
  decide

/-! ## The greatest common divisor at an element type -/

/-- C24 (amended). The function `detail::gcd` computes the greatest common divisor up to
sign: over the integers, with the remainder truncating toward zero, `|gcd(a, b)|` is the
greatest common divisor of `|a|` and `|b|`, `gcd(a, 0) = a` and `gcd(0, d) = d`, and the
loop returns that value for every pair.  At an element type the loop returns that value for
all values `a`, `b` of the type except the two pairs from which it takes the remainder of
the least value by `-1`: (least value, -1) and (-1, least value) at a signed type of the
rank of `int` or above.  For example `gcd(1071, -462) = -21`. -/
theorem gcd_up_to_sign :
    (∀ a b : Int,
      (detail.gcd a b).natAbs = Nat.gcd a.natAbs b.natAbs ∧
      |detail.gcd a b| = (Int.gcd a b : Int) ∧
      detail.gcd a b ∣ a ∧ detail.gcd a b ∣ b ∧
      (∀ c : Int, c ∣ a → c ∣ b → c ∣ detail.gcd a b) ∧
      detail.gcd_run Z (b.natAbs + 1) a b = some (detail.gcd a b)) ∧
    (∀ a : Int, detail.gcd a 0 = a) ∧
    (∀ d : Int, detail.gcd 0 d = d) ∧
    (∀ (T : IntType), T.valid → ∀ a b : Int, T.inRange a → T.inRange b →
      ¬ (T.promote.isMin a ∧ b = -1) → ¬ (a = -1 ∧ T.promote.isMin b) →
      detail.gcd_run T (b.natAbs + 1) a b = some (detail.gcd a b) ∧
      T.inRange (detail.gcd a b)) ∧
    detail.gcd 1071 (-462) = -21 ∧ detail.gcd (-1071) 462 = 21 ∧ detail.gcd 0 0 = 0 ∧
    detail.gcd_run int32 463 1071 (-462) = some (-21) := by
  refine ⟨?_, detail.gcd_zero_right, detail.gcd_zero_left_all, ?_,
    by decide, by decide, by decide, by decide⟩
  · intro a b
    refine ⟨detail.natAbs_gcd a b, ?_, (detail.gcd_dvd_both a b).1, (detail.gcd_dvd_both a b).2,
      fun c ha hb => detail.dvd_gcd_of_dvd ha hb, detail.gcd_run_Z (by omega)⟩
    rw [← Int.natCast_natAbs, detail.natAbs_gcd]
  · intro T hT a b ha hb h1 h2
    exact ⟨detail.gcd_run_eq T _ a b (by omega) (IntType.inRange_promote hT ha)
      (IntType.inRange_promote hT hb) h1 h2, detail.gcd_inRange ha hb⟩

/-- C24 (amended) at `int` with `a = 1071`, `b = -462`. -/
theorem gcd_up_to_sign_witness :
    IntType.valid int32 ∧ IntType.inRange int32 1071 ∧ IntType.inRange int32 (-462) ∧
    ¬ (IntType.isMin (IntType.promote int32) 1071 ∧ (-462 : Int) = -1) ∧
    ¬ ((1071 : Int) = -1 ∧ IntType.isMin (IntType.promote int32) (-462)) ∧
    detail.gcd_run int32 ((-462 : Int).natAbs + 1) 1071 (-462) = some (detail.gcd 1071 (-462)) ∧
    detail.gcd 1071 (-462) = -21 :=
  ⟨by decide, by decide, by decide, by decide, by decide,
    (gcd_up_to_sign.2.2.2.1 int32 (by decide) 1071 (-462) (by decide) (by decide) (by decide)
      (by decide)).1, by decide⟩

/-- C24 as stated fails. At the element type `int`, `INT_MIN` and `-1` are values of the
type, yet `detail::gcd(INT_MIN, -1)` returns nothing, whatever the iteration budget: its
first remainder is `INT_MIN % -1`. -/
theorem gcd_int_min_neg_one_no_result :
    IntType.inRange int32 (-2147483648) ∧ IntType.inRange int32 (-1) ∧
    ∀ fuel : Nat, detail.gcd_run int32 fuel (-2147483648) (-1) = none :=
  ⟨by decide, by decide, fun fuel => detail.gcd_run_min_neg_one int32 fuel (by decide)⟩

/-- C25 (amended). The loop of `detail::gcd` terminates: the absolute value of the second
operand strictly decreases at each iteration, so over the integers the loop returns after at
most `|b|` iterations for every pair, negative operands and `(0, 0)` included, and `gcd` is
the total function defined by well-founded recursion on `|b|`.  At an element type the loop
returns, within the same bound, exactly from the pairs of values other than (least value,
-1) and (-1, least value) at a signed type of the rank of `int` or above; from those two it
returns nothing. -/
theorem gcd_terminates :
    (∀ a b : Int, b ≠ 0 → (a.tmod b).natAbs < b.natAbs) ∧
    (∀ (a b : Int) (fuel : Nat), b.natAbs ≤ fuel →
      detail.gcd_run Z fuel a b = some (detail.gcd a b)) ∧
    (∀ a b : Int, detail.gcd_wf a b = detail.gcd a b) ∧
    (∀ a b : Int, detail.gcd a b = if b = 0 then a else detail.gcd b (a.tmod b)) ∧
    (∀ (T : IntType), T.valid → ∀ a b : Int, T.inRange a → T.inRange b →
      (¬ (T.promote.isMin a ∧ b = -1) → ¬ (a = -1 ∧ T.promote.isMin b) →
        ∀ fuel : Nat, b.natAbs ≤ fuel → detail.gcd_run T fuel a b = some (detail.gcd a b)) ∧
      ((T.promote.isMin a ∧ b = -1) ∨ (a = -1 ∧ T.promote.isMin b) →
        ∀ fuel : Nat, detail.gcd_run T fuel a b = none)) ∧
    detail.gcd_run Z 0 0 0 = some 0 ∧
    detail.gcd_run Z 3 (-1071) (-462) = some (-21) ∧
    detail.gcd_run int8 3 (-128) (-1) = some (-1) := by
  refine ⟨detail.natAbs_tmod_lt, ?_, detail.gcd_wf_eq, detail.gcd_eq, ?_,
    by decide, by decide, by decide⟩
  · intro a b fuel h
    exact detail.gcd_run_Z h
  · intro T hT a b ha hb
    constructor
    · intro h1 h2 fuel hf
      exact detail.gcd_run_eq T fuel a b hf (IntType.inRange_promote hT ha)
        (IntType.inRange_promote hT hb) h1 h2
    · rintro (⟨h1, h2⟩ | ⟨h1, h2⟩) fuel
      · rw [h2]
        exact detail.gcd_run_min_neg_one T fuel h1
      · rw [h1]
        exact detail.gcd_run_neg_one_min T fuel h2

/-- C25 (amended) at `a = -1071`, `b = -462`. -/
theorem gcd_terminates_witness :
    (-462 : Int) ≠ 0 ∧ ((-1071 : Int).tmod (-462)).natAbs < (-462 : Int).natAbs ∧
    (-462 : Int).natAbs ≤ 462 ∧
    detail.gcd_run Z 462 (-1071) (-462) = some (detail.gcd (-1071) (-462)) :=
  ⟨by decide, gcd_terminates.1 (-1071) (-462) (by decide), by decide,
    gcd_terminates.2.1 (-1071) (-462) 462 (by decide)⟩

/-- C25 as stated fails. At the element type `long long`, `-1` and the least value are values
of the type, yet the loop of `detail::gcd` from them returns nothing, whatever the iteration
budget: its first remainder is `-1`, and its second is that of the least value by `-1`. -/
theorem gcd_neg_one_int64_min_no_result :
    IntType.inRange int64 (-1) ∧ IntType.inRange int64 (-9223372036854775808) ∧
    ∀ fuel : Nat, detail.gcd_run int64 fuel (-1) (-9223372036854775808) = none :=
  ⟨by decide, by decide, fun fuel => detail.gcd_run_neg_one_min int64 fuel (by decide)⟩

namespace rational

open IntType

/-- Away from a least-value denominator the divisor of `simplify()` is the greatest common
divisor itself. -/
theorem simplify_g_eq_gcd {T : IntType} (hT : T.valid) {n d : Int} (hd : T.inRange d)
    (hd0 : d ≠ 0) (hdmin : ¬ T.isMin d) :
    simplify_g ({ num := n, denom := d } : rational T) = (Int.gcd n d : Int) := by
  have hGle : Int.gcd n d ≤ d.natAbs := Nat.gcd_le_right _ (Int.natAbs_pos.mpr hd0)
  have hGr : T.inRange (Int.gcd n d : Int) :=
    inRange_of_le_natAbs hd hdmin (Int.ofNat_nonneg _) (by exact_mod_cast hGle)
  show detail.abs T (detail.gcd n d) = (Int.gcd n d : Int)
  rw [← detail.natAbs_gcd]
  apply detail.abs_eq_natAbs
  rw [detail.natAbs_gcd, promote_wrap_of_inRange hT hGr, wrap_of_inRange hT hGr]

end rational

/-- C23 (amended). The local `g = abs(gcd(n, d))` of `simplify()` divides in both of its
divisions.  Over the integers `g` is the greatest common divisor: it is 0 if and only if
`n = 0` and `d = 0`, and `g ≥ 1` whenever `d ≠ 0`.  At a fixed-width element type, for all
values `n`, `d` of the type from which `gcd` returns, `g` is 0 if and only if `n = 0` and
`d = 0`; and `g` is the greatest common divisor, so `g ≥ 1`, whenever `d ≠ 0` and `d` is not
the least value of a signed type. -/
theorem simplify_divisor_nonzero :
    (∀ (T : IntType) (r : rational T),
      r.simplify =
        { num := T.wrap (T.promote.div (T.promote.mul (detail.sign r.denom) r.num) r.simplify_g),
          denom := T.wrap (T.promote.div (detail.abs T r.denom) r.simplify_g) }) ∧
    (∀ n d : Int,
      simplify_g ({ num := n, denom := d } : rational Z) = (Int.gcd n d : Int) ∧
      (simplify_g ({ num := n, denom := d } : rational Z) = 0 ↔ (n = 0 ∧ d = 0)) ∧
      (d ≠ 0 → 1 ≤ simplify_g ({ num := n, denom := d } : rational Z))) ∧
    (∀ (T : IntType), T.valid → ∀ n d : Int, T.inRange n → T.inRange d →
      ¬ (T.promote.isMin n ∧ d = -1) → ¬ (n = -1 ∧ T.promote.isMin d) →
      detail.gcd_run T (d.natAbs + 1) n d = some (detail.gcd n d) ∧
      (simplify_g ({ num := n, denom := d } : rational T) = 0 ↔ (n = 0 ∧ d = 0)) ∧
      (d ≠ 0 → ¬ T.isMin d →
        simplify_g ({ num := n, denom := d } : rational T) = (Int.gcd n d : Int) ∧
        1 ≤ simplify_g ({ num := n, denom := d } : rational T))) := by
  refine ⟨fun _ _ => rfl, ?_, ?_⟩
  · intro n d
    have hg : simplify_g ({ num := n, denom := d } : rational Z) = (Int.gcd n d : Int) :=
      detail.abs_gcd_Z n d
    refine ⟨hg, ?_, ?_⟩
    · rw [hg]
      constructor
      · intro h
        exact Int.gcd_eq_zero_iff.mp (by exact_mod_cast h)
      · intro h
        exact_mod_cast Int.gcd_eq_zero_iff.mpr h
    · intro hd
      rw [hg]
      have := gcd_pos_of_denom n hd
      omega
  · intro T hT n d hn hd h1 h2
    refine ⟨detail.gcd_run_eq T _ n d (by omega) (IntType.inRange_promote hT hn)
      (IntType.inRange_promote hT hd) h1 h2, simplify_g_eq_zero_iff hT hn hd, ?_⟩
    intro hd0 hdmin
    have hg := simplify_g_eq_gcd (n := n) hT hd hd0 hdmin
    refine ⟨hg, ?_⟩
    rw [hg]
    have := gcd_pos_of_denom n hd0
    omega

/-- C23 (amended) at `signed char` with `n = -128` and `d = -2`, where `g` is 2. -/
theorem simplify_divisor_nonzero_witness :
    IntType.valid int8 ∧ IntType.inRange int8 (-128) ∧ IntType.inRange int8 (-2) ∧
    ¬ (IntType.isMin (IntType.promote int8) (-128) ∧ (-2 : Int) = -1) ∧
    ¬ ((-128 : Int) = -1 ∧ IntType.isMin (IntType.promote int8) (-2)) ∧
    (-2 : Int) ≠ 0 ∧ ¬ IntType.isMin int8 (-2) ∧
    simplify_g ({ num := -128, denom := -2 } : rational int8) = (Int.gcd (-128) (-2) : Int) ∧
    1 ≤ simplify_g ({ num := -128, denom := -2 } : rational int8) :=
  ⟨by decide, by decide, by decide, by decide, by decide, by decide, by decide,
    (simplify_divisor_nonzero.2.2 int8 (by decide) (-128) (-2) (by decide) (by decide)
      (by decide) (by decide)).2.2 (by decide) (by decide)⟩

/-- C23 as stated fails. At the element type `signed char`, `0` and `-128` are values of the
type and `-128 ≠ 0`, yet `g = abs(gcd(0, -128))` is `-128`, not at least 1: `abs(-128)`
converted back to `signed char` is `-128`. -/
theorem simplify_g_int8_min_negative :
    IntType.inRange int8 0 ∧ IntType.inRange int8 (-128) ∧ (-128 : Int) ≠ 0 ∧
    detail.gcd_run int8 129 0 (-128) = some (-128) ∧
    simplify_g ({ num := 0, denom := -128 } : rational int8) = -128 ∧
    ¬ (1 ≤ simplify_g ({ num := 0, denom := -128 } : rational int8)) := by
  decide

namespace rational

open IntType

theorem make_checked_Z {n d : Int} (h : ¬ (n = 0 ∧ d = 0)) :
    make_checked Z n d = some (make Z n d) :=
  make_checked_eq_some (T := Z) trivial trivial trivial h (fun h => h.1) (fun h => h.2)

/-- From the least value of a signed type and the denominator 0 the numerator is 1 converted
to the type: `abs` of the least value is the least value itself. -/
theorem make_denom_zero_min {T : IntType} (hT : T.valid) {n : Int} (hn : T.inRange n)
    (hmin : T.isMin n) : (make T n 0).num = T.wrap 1 := by
  obtain ⟨hnum, _⟩ := make_denom_zero_fields hT hn
  have hna := detail.natAbs_abs hT hn
  match T, hT, hn, hmin, hnum, hna with
  | fixed w true, hT, hn, hmin, hnum, hna =>
    have hnm : n = -(2 ^ (w - 1)) := hmin
    have hp := two_pow_pos (w - 1)
    have hn0 : n ≠ 0 := by omega
    have hG := (detail.abs_inRange_ne_zero hT hn hn0).1
    have h1 := hG.1
    have h2 := hG.2
    have hg : detail.abs (fixed w true) n = n := by omega
    rw [hnum, hg, Int.tdiv_self hn0, promote_wrap_one hT]

end rational

/-- C34 (amended). A zero denominator with a non-zero numerator is not trapped.  For every
`n ≠ 0`, `make(n, 0)` returns: the loop of `gcd(n, 0)` takes no remainder and returns `n`,
and the divisor `g = abs(n)` of both divisions is not 0.  The result has denominator 0,
which violates the invariant, and numerator 1 or -1: over the integers `n / |n|`, and at a
fixed-width type the sign of `n` except for `n` the least value of a signed type, where
`abs(n)` is `n` again and the numerator is 1.  Without overflow the same pair results from
`x / y` when `y` is zero and `x` is not, also with the plain integer 0 as `y`.  Only
`make(0, 0)` divides by `g = 0`; the only other pairs of values from which the constructor
does not return are (least value, -1) and (-1, least value) at a signed type of the rank of
`int` or above, where the remainder in `gcd` traps. -/
theorem zero_denominator_not_trapped :
    (∀ n : Int, n ≠ 0 →
      detail.gcd n 0 = n ∧
      simplify_g ({ num := n, denom := 0 } : rational Z) = |n| ∧
      simplify_g ({ num := n, denom := 0 } : rational Z) ≠ 0 ∧
      make_checked Z n 0 = some { num := n / |n|, denom := 0 } ∧
      make Z n 0 = { num := n / |n|, denom := 0 } ∧
      (n / |n| = 1 ∨ n / |n| = -1) ∧
      ¬ Inv (make Z n 0)) ∧
    (∀ x y : rational Z, Inv x → Inv y → x.num ≠ 0 → y.num = 0 →
      op_div_checked x y = some (make Z x.num 0) ∧
      op_div x y = make Z x.num 0 ∧
      op_div_checked x ({ val := 0 } : integer Z) = some (make Z x.num 0) ∧
      op_div x ({ val := 0 } : integer Z) = make Z x.num 0) ∧
    (∀ n d : Int, make_checked Z n d = none ↔ (n = 0 ∧ d = 0)) ∧
    (∀ (T : IntType), T.valid → ∀ n : Int, T.inRange n → n ≠ 0 →
      make_checked T n 0 = some (make T n 0) ∧
      (make T n 0).denom = 0 ∧
      ((make T n 0).num = 1 ∨ (make T n 0).num = -1) ∧
      (¬ T.isMin n → (make T n 0).num = Int.sign n) ∧
      (T.isMin n → (make T n 0).num = T.wrap 1)) ∧
    (∀ (T : IntType), T.valid → ∀ n d : Int, T.inRange n → T.inRange d →
      (make_checked T n d = none ↔
        ((n = 0 ∧ d = 0) ∨ (T.promote.isMin n ∧ d = -1) ∨ (n = -1 ∧ T.promote.isMin d)))) ∧
    make_checked int32 5 0 = some { num := 1, denom := 0 } ∧
    make_checked int32 (-5) 0 = some { num := -1, denom := 0 } ∧
    make_checked int32 0 0 = none := by
  have hZ : IntType.valid Z := trivial
  refine ⟨?_, ?_, ?_, ?_, ?_, by decide, by decide, by decide⟩
  · intro n hn
    have hs : Int.sign n = n / |n| := Int.sign_eq_ediv_abs n
    have hg : simplify_g ({ num := n, denom := 0 } : rational Z) = |n| := by
      rw [(natAbs_simplify_g_zero_denom hZ (n := n) trivial).1, detail.abs_Z]
    have hg0 : simplify_g ({ num := n, denom := 0 } : rational Z) ≠ 0 := by
      rw [hg]
      exact abs_ne_zero.mpr hn
    have hm : make Z n 0 = { num := n / |n|, denom := 0 } := by
      rw [make_Z_denom_zero hn, hs]
    refine ⟨detail.gcd_zero_right n, hg, hg0, ?_, hm, ?_, ?_⟩
    · rw [make_checked_Z (fun h => hn h.1), hm]
    · rw [← hs]
      rcases lt_or_gt_of_ne hn with h | h
      · right; exact Int.sign_eq_neg_one_of_neg h
      · left; exact Int.sign_eq_one_of_pos h
    · rw [hm]
      intro h
      exact lt_irrefl (0 : Int) h.1
  · intro x y _ hy hx0 hy0
    have hyd : y.denom = 1 := by
      have h1 := hy.1
      have h2 := hy.2
      rw [hy0] at h2
      simp at h2
      omega
    have hd : op_div x y = make Z x.num 0 := by
      rw [op_div_Z, hyd, hy0, mul_one, mul_zero]
    have hv : op_div x ({ val := 0 } : integer Z) = make Z x.num 0 := by
      rw [op_div_value_Z, mul_one, mul_zero]
    have hc : op_div_checked x y = make_checked Z (x.num * y.denom) (x.denom * y.num) := rfl
    have hcv : op_div_checked x ({ val := 0 } : integer Z)
        = make_checked Z (x.num * 1) (x.denom * 0) := rfl
    refine ⟨?_, hd, ?_, hv⟩
    · rw [hc, hyd, hy0, mul_one, mul_zero]
      exact make_checked_Z (fun h => hx0 h.1)
    · rw [hcv, mul_one, mul_zero]
      exact make_checked_Z (fun h => hx0 h.1)
  · intro n d
    rw [make_checked_eq_none_iff hZ (n := n) (d := d) trivial trivial]
    constructor
    · rintro (h | h | h)
      · exact h
      · exact h.1.elim
      · exact h.2.elim
    · exact Or.inl
  · intro T hT n hn hn0
    have h := make_denom_zero hT hn hn0
    refine ⟨?_, h.1, h.2.1, h.2.2, make_denom_zero_min hT hn⟩
    apply make_checked_eq_some hT hn (inRange_zero hT) (fun h => hn0 h.1)
    · rintro ⟨_, h0⟩
      exact absurd h0 (by decide)
    · rintro ⟨_, h0⟩
      match T, h0 with
      | IntType.fixed w s, h0 =>
        rcases IntType.promote_cases w s with ⟨_, hP⟩ | ⟨_, hP⟩
        · rw [hP] at h0
          exact absurd h0 (by decide)
        · rw [hP] at h0
          match s, h0 with
          | true, h0 =>
            have hm : (0 : Int) = -(2 ^ (w - 1)) := h0
            have hp := IntType.two_pow_pos (w - 1)
            omega
  · intro T hT n d hn hd
    exact make_checked_eq_none_iff hT hn hd

/-- C34 (amended) at `n = -7`, and at `x = (3, 4)` divided by the zero `(0, 1)`. -/
theorem zero_denominator_not_trapped_witness :
    (-7 : Int) ≠ 0 ∧
    make_checked Z (-7) 0 = some { num := -7 / |(-7 : Int)|, denom := 0 } ∧
    make Z (-7) 0 = { num := -1, denom := 0 } ∧
    ¬ Inv (make Z (-7) 0) ∧
    Inv ({ num := 3, denom := 4 } : rational Z) ∧ Inv ({ num := 0, denom := 1 } : rational Z) ∧
    op_div ({ num := 3, denom := 4 } : rational Z) ({ num := 0, denom := 1 } : rational Z)
      = make Z 3 0 ∧
    make Z 3 0 = { num := 1, denom := 0 } :=
  have h := zero_denominator_not_trapped.1 (-7) (by decide)
  have h2 := zero_denominator_not_trapped.2.1 { num := 3, denom := 4 } { num := 0, denom := 1 }
    (by decide) (by decide) (by decide) rfl
  ⟨by decide, h.2.2.2.1, by decide, h.2.2.2.2.2.2, by decide, by decide, h2.2.1, by decide⟩

/-- C34 as stated fails. At the element type `signed char`, `-128 ≠ 0` is a value of the
type and `-128 / |-128|` is `-1`, yet `rational<signed char>{-128, 0}` returns with numerator
`1`: `abs(-128)` converted back to `signed char` is `-128`. -/
theorem make_int8_min_zero_denominator :
    IntType.inRange int8 (-128) ∧ (-128 : Int) ≠ 0 ∧ (-128 : Int) / |(-128 : Int)| = -1 ∧
    make_checked int8 (-128) 0 = some { num := 1, denom := 0 } ∧
    make int8 (-128) 0 = { num := 1, denom := 0 } ∧
    (make int8 (-128) 0).num ≠ (-128 : Int) / |(-128 : Int)| := by
  decide


/-! ## Construction from one integer, and conversion, as the code performs them -/

/-- C16 (amended). At every element type in which 1 is a value, for every integer `v`,
construction from the single argument `v` and assignment of `v` to a rational in any prior
state both yield the numerator `v` converted to the element type, which is `v` itself when
`v` is a value of the type, and denominator 1; that is field for field what `make` returns
on the converted `v` and 1.  On the plain integer the free accessors give `numerator(v) = v`
and `denominator(v) = 1`.  Moreover `numerator(12) = 12` and `denominator(12) = 1`. -/
theorem single_argument_construction :
    (∀ (T : IntType), T.valid → T.inRange 1 → ∀ v : Int,
      from_value T v = { num := T.wrap v, denom := 1 } ∧
      (∀ r : rational T, assign_value r v = { num := T.wrap v, denom := 1 }) ∧
      make T (T.wrap v) 1 = { num := T.wrap v, denom := 1 } ∧
      make_checked T (T.wrap v) 1 = some { num := T.wrap v, denom := 1 } ∧
      from_value T v = make T (T.wrap v) 1 ∧
      (T.inRange v → T.wrap v = v ∧ from_value T v = { num := v, denom := 1 } ∧
        make T v 1 = { num := v, denom := 1 }) ∧
      Rational.numerator ({ val := v } : integer T) = v ∧
      Rational.denominator ({ val := v } : integer T) = 1) ∧
    Rational.numerator ({ val := 12 } : integer int32) = 12 ∧
    Rational.denominator ({ val := 12 } : integer int32) = 1 ∧
    assign_value (make int32 1 10) 3 = { num := 3, denom := 1 } := by
  refine ⟨?_, rfl, rfl, by decide⟩
  intro T hT h1 v
  have hw := IntType.wrap_inRange hT v
  have hm : make T (T.wrap v) 1 = { num := T.wrap v, denom := 1 } :=
    make_of_inv hT hw h1 Int.one_pos (Nat.gcd_one_right _)
  have hc : make_checked T (T.wrap v) 1 = some { num := T.wrap v, denom := 1 } := by
    rw [← hm]
    apply make_checked_eq_some hT hw h1 (fun h => absurd h.2 (by decide))
      (fun h => absurd h.2 (by decide))
    rintro ⟨_, h0⟩
    exact detail.not_isMin_promote_of_fits (IntType.fits_of_inRange h1)
      (by
        intro h
        match T, h with
        | IntType.fixed w true, h =>
          have hm : (1 : Int) = -(2 ^ (w - 1)) := h
          have hp := IntType.two_pow_pos (w - 1)
          omega) h0
  refine ⟨rfl, fun _ => rfl, hm, hc, hm.symm, ?_, rfl, rfl⟩
  intro hv
  have he := IntType.wrap_of_inRange hT hv
  refine ⟨he, ?_, ?_⟩
  · show ({ num := T.wrap v, denom := 1 } : rational T) = _
    rw [he]
  · rw [← he]
    exact he ▸ hm

/-- C16 (amended) at `signed char` with `v = -128`. -/
theorem single_argument_construction_witness :
    IntType.valid int8 ∧ IntType.inRange int8 1 ∧ IntType.inRange int8 (-128) ∧
    from_value int8 (-128) = { num := IntType.wrap int8 (-128), denom := 1 } ∧
    (IntType.wrap int8 (-128) = -128 ∧ from_value int8 (-128) = { num := -128, denom := 1 } ∧
      make int8 (-128) 1 = { num := -128, denom := 1 }) :=
  have h := single_argument_construction.1 int8 (by decide) (by decide) (-128)
  ⟨by decide, by decide, by decide, h.1, h.2.2.2.2.2.1 (by decide)⟩

/-- C16 as stated fails. The integer 300 is not a value of `signed char`; the constructor
template accepts it and converts, so `rational<signed char>(300)` and the assignment of 300
store the numerator 44, not 300. -/
theorem from_value_int8_300 :
    IntType.valid int8 ∧ IntType.inRange int8 1 ∧ ¬ IntType.inRange int8 300 ∧
    from_value int8 300 = { num := 44, denom := 1 } ∧
    assign_value (rational.default int8) 300 = { num := 44, denom := 1 } ∧
    (from_value int8 300).num ≠ 300 := by
  decide

namespace IntType

theorem mul_exact {C : IntType} (hC : C.valid) {a b : Int} (ha : C.inRange a)
    (hb : C.inRange b) (hab : C.inRange (a * b)) : C.mul a b = a * b := by
  unfold IntType.mul
  rw [wrap_of_inRange hC ha, wrap_of_inRange hC hb, wrap_of_inRange hC hab]

theorem add_exact {C : IntType} (hC : C.valid) {a b : Int} (ha : C.inRange a)
    (hb : C.inRange b) (hab : C.inRange (a + b)) : C.add a b = a + b := by
  unfold IntType.add
  rw [wrap_of_inRange hC ha, wrap_of_inRange hC hb, wrap_of_inRange hC hab]

theorem sub_exact {C : IntType} (hC : C.valid) {a b : Int} (ha : C.inRange a)
    (hb : C.inRange b) (hab : C.inRange (a - b)) : C.sub a b = a - b := by
  unfold IntType.sub
  rw [wrap_of_inRange hC ha, wrap_of_inRange hC hb, wrap_of_inRange hC hab]

/-- Two operands of the same type are evaluated in its promoted type. -/
theorem common_self (T : IntType) : T.common T = T.promote := by
  match T with
  | unbounded => rfl
  | fixed w s =>
    rcases promote_cases w s with ⟨_, hP⟩ | ⟨_, hP⟩
    · unfold common
      rw [hP]
      rfl
    · unfold common
      rw [hP]
      cases s <;> simp

theorem inRange_common_self {T : IntType} (hT : T.valid) {x : Int} (h : T.inRange x) :
    (T.common T).inRange x := by
  rw [common_self]
  exact inRange_promote hT h

theorem not_isMin_common_self {T : IntType} {x : Int} (h : T.inRange x) (hm : ¬ T.isMin x) :
    ¬ (T.common T).isMin x := by
  rw [common_self]
  exact detail.not_isMin_promote_of_fits (fits_of_inRange h) hm

end IntType

namespace rational

/-- A pair with the fields of a pair over the integers satisfies the invariant with it and
stands for the same rational number. -/
theorem of_fields_eq {C : IntType} {r : rational C} {s : rational Z} (hn : r.num = s.num)
    (hd : r.denom = s.denom) : (Inv s → Inv r) ∧ r.value = s.value := by
  unfold Inv value
  rw [hn, hd]
  exact ⟨id, rfl⟩

/-- The constructor at type `C` on a numerator and a denominator that were computed without
overflow: the fields are those of the exact normalisation. -/
theorem make_exact_of {C : IntType} (hC : C.valid) {N D N1 D1 : Int} (hN : N1 = N)
    (hD : D1 = D) (hNr : C.inRange N) (hNm : ¬ C.isMin N) (hDr : C.inRange D)
    (hDm : ¬ C.isMin D) (hD0 : D ≠ 0) :
    (make C N1 D1).num = (make Z N D).num ∧ (make C N1 D1).denom = (make Z N D).denom := by
  rw [hN, hD]
  exact make_eq_exact hC hNr hDr hD0 hNm hDm

end rational

section binary_exact

variable {T U : IntType} (x : rational T) (y : rational U)

theorem op_add_exact
    (hxn : (T.common U).inRange x.num) (hxd : (T.common U).inRange x.denom)
    (hyn : (T.common U).inRange y.num) (hyd : (T.common U).inRange y.denom)
    (h1 : (T.common U).inRange (x.denom * y.num)) (h2 : (T.common U).inRange (y.denom * x.num))
    (hN : (T.common U).inRange (x.denom * y.num + y.denom * x.num))
    (hNm : ¬ (T.common U).isMin (x.denom * y.num + y.denom * x.num))
    (hD : (T.common U).inRange (x.denom * y.denom))
    (hDm : ¬ (T.common U).isMin (x.denom * y.denom)) (hD0 : x.denom * y.denom ≠ 0) :
    (op_add x y).num = (make Z (x.denom * y.num + y.denom * x.num) (x.denom * y.denom)).num ∧
    (op_add x y).denom
      = (make Z (x.denom * y.num + y.denom * x.num) (x.denom * y.denom)).denom := by
  have hC := IntType.common_valid T U
  apply make_exact_of hC _ _ hN hNm hD hDm hD0
  · show (T.common U).add ((T.common U).mul x.denom y.num) ((T.common U).mul y.denom x.num) = _
    rw [IntType.mul_exact hC hxd hyn h1, IntType.mul_exact hC hyd hxn h2,
      IntType.add_exact hC h1 h2 hN]
  · exact IntType.mul_exact hC hxd hyd hD

theorem op_sub_exact
    (hxn : (T.common U).inRange x.num) (hxd : (T.common U).inRange x.denom)
    (hyn : (T.common U).inRange y.num) (hyd : (T.common U).inRange y.denom)
    (h1 : (T.common U).inRange (x.num * y.denom)) (h2 : (T.common U).inRange (y.num * x.denom))
    (hN : (T.common U).inRange (x.num * y.denom - y.num * x.denom))
    (hNm : ¬ (T.common U).isMin (x.num * y.denom - y.num * x.denom))
    (hD : (T.common U).inRange (x.denom * y.denom))
    (hDm : ¬ (T.common U).isMin (x.denom * y.denom)) (hD0 : x.denom * y.denom ≠ 0) :
    (op_sub x y).num = (make Z (x.num * y.denom - y.num * x.denom) (x.denom * y.denom)).num ∧
    (op_sub x y).denom
      = (make Z (x.num * y.denom - y.num * x.denom) (x.denom * y.denom)).denom := by
  have hC := IntType.common_valid T U
  apply make_exact_of hC _ _ hN hNm hD hDm hD0
  · show (T.common U).sub ((T.common U).mul x.num y.denom) ((T.common U).mul y.num x.denom) = _
    rw [IntType.mul_exact hC hxn hyd h1, IntType.mul_exact hC hyn hxd h2,
      IntType.sub_exact hC h1 h2 hN]
  · exact IntType.mul_exact hC hxd hyd hD

theorem op_mul_exact
    (hxn : (T.common U).inRange x.num) (hxd : (T.common U).inRange x.denom)
    (hyn : (T.common U).inRange y.num) (hyd : (T.common U).inRange y.denom)
    (hN : (T.common U).inRange (x.num * y.num))
    (hNm : ¬ (T.common U).isMin (x.num * y.num))
    (hD : (T.common U).inRange (x.denom * y.denom))
    (hDm : ¬ (T.common U).isMin (x.denom * y.denom)) (hD0 : x.denom * y.denom ≠ 0) :
    (op_mul x y).num = (make Z (x.num * y.num) (x.denom * y.denom)).num ∧
    (op_mul x y).denom = (make Z (x.num * y.num) (x.denom * y.denom)).denom := by
  have hC := IntType.common_valid T U
  exact make_exact_of hC (IntType.mul_exact hC hxn hyn hN) (IntType.mul_exact hC hxd hyd hD)
    hN hNm hD hDm hD0

theorem op_div_exact
    (hxn : (T.common U).inRange x.num) (hxd : (T.common U).inRange x.denom)
    (hyn : (T.common U).inRange y.num) (hyd : (T.common U).inRange y.denom)
    (hN : (T.common U).inRange (x.num * y.denom))
    (hNm : ¬ (T.common U).isMin (x.num * y.denom))
    (hD : (T.common U).inRange (x.denom * y.num))
    (hDm : ¬ (T.common U).isMin (x.denom * y.num)) (hD0 : x.denom * y.num ≠ 0) :
    (op_div x y).num = (make Z (x.num * y.denom) (x.denom * y.num)).num ∧
    (op_div x y).denom = (make Z (x.num * y.denom) (x.denom * y.num)).denom := by
  have hC := IntType.common_valid T U
  exact make_exact_of hC (IntType.mul_exact hC hxn hyd hN) (IntType.mul_exact hC hxd hyn hD)
    hN hNm hD hDm hD0

end binary_exact

/-! ## Binary arithmetic -/

/-- The sum of two constructed values over the integers. -/
theorem op_add_of_make_Z :
    (∀ n1 d1 n2 d2 : Int, d1 ≠ 0 → d2 ≠ 0 →
      op_add (make Z n1 d1) (make Z n2 d2) = make Z (n1 * d2 + n2 * d1) (d1 * d2) ∧
      (op_add (make Z n1 d1) (make Z n2 d2)).value = (n1 : ℚ) / (d1 : ℚ) + (n2 : ℚ) / (d2 : ℚ) ∧
      Inv (op_add (make Z n1 d1) (make Z n2 d2))) ∧
    op_add (make Z 1 5) (make Z 1 10) = { num := 3, denom := 10 } := by
  refine ⟨?_, by decide⟩
  intro n1 d1 n2 d2 h1 h2
  have hx := make_Z_cross n1 h1
  have hy := make_Z_cross n2 h2
  have hxd := (make_Z_denom_pos n1 h1).ne'
  have hyd := (make_Z_denom_pos n2 h2).ne'
  have hd : d1 * d2 ≠ 0 := mul_ne_zero h1 h2
  have heq : op_add (make Z n1 d1) (make Z n2 d2) = make Z (n1 * d2 + n2 * d1) (d1 * d2) := by
    rw [op_add_Z]
    apply make_Z_eq_of_cross (mul_ne_zero hxd hyd) hd
    linear_combination ((make Z n2 d2).denom * d2) * hx + ((make Z n1 d1).denom * d1) * hy
  refine ⟨heq, ?_, ?_⟩
  · rw [heq, make_Z_value _ hd]
    have h1' : (d1 : ℚ) ≠ 0 := by exact_mod_cast h1
    have h2' : (d2 : ℚ) ≠ 0 := by exact_mod_cast h2
    push_cast
    field_simp
  · rw [heq]
    exact make_Z_inv _ hd


/-- C5. Without overflow, for `x = make(n1, d1)` and `y = make(n2, d2)` the sum `x + y`
equals `make(n1 * d2 + n2 * d1, d1 * d2)` field for field; it stands for the rational number
`n1 / d1 + n2 / d2` and is stored in lowest terms with a positive denominator.  Moreover
`make(1,5) + make(1,10)` has numerator 3 and denominator 10.
At every pair of fixed-width element types the same holds
whenever no overflow occurs: when the operand fields, the products and the numerator and
denominator passed to the constructor are values of the common type `C` in which the
operator evaluates, the last two not its least value, the result has the fields of the exact
normalisation, satisfies the invariant and stands for the exact rational number. -/
theorem op_add_make :
    ((∀ n1 d1 n2 d2 : Int, d1 ≠ 0 → d2 ≠ 0 →
      op_add (make Z n1 d1) (make Z n2 d2) = make Z (n1 * d2 + n2 * d1) (d1 * d2) ∧
      (op_add (make Z n1 d1) (make Z n2 d2)).value = (n1 : ℚ) / (d1 : ℚ) + (n2 : ℚ) / (d2 : ℚ) ∧
      Inv (op_add (make Z n1 d1) (make Z n2 d2))) ∧
    op_add (make Z 1 5) (make Z 1 10) = { num := 3, denom := 10 }) ∧
    (∀ (T U : IntType) (x : rational T) (y : rational U),
      (T.common U).inRange x.num →
      (T.common U).inRange x.denom →
      (T.common U).inRange y.num →
      (T.common U).inRange y.denom →
      (T.common U).inRange (x.denom * y.num) →
      (T.common U).inRange (y.denom * x.num) →
      (T.common U).inRange (x.denom * y.num + y.denom * x.num) →
      ¬ (T.common U).isMin (x.denom * y.num + y.denom * x.num) →
      (T.common U).inRange (x.denom * y.denom) →
      ¬ (T.common U).isMin (x.denom * y.denom) →
      x.denom * y.denom ≠ 0 →
      (op_add x y).num = (make Z (x.denom * y.num + y.denom * x.num) (x.denom * y.denom)).num ∧
      (op_add x y).denom = (make Z (x.denom * y.num + y.denom * x.num) (x.denom * y.denom)).denom ∧
      Inv (op_add x y) ∧ (op_add x y).value = x.value + y.value) ∧
    (op_add (make int32 1 5) (make int32 1 10) : rational int32) = { num := 3, denom := 10 } := by
  refine ⟨op_add_of_make_Z, ?_, by decide⟩
  intro T U x y h0 h1 h2 h3 h4 h5 h6 h7 h8 h9 h10
  have hD0 := h10
  have hf := op_add_exact x y h0 h1 h2 h3 h4 h5 h6 h7 h8 h9 h10
  have ho := of_fields_eq hf.1 hf.2
  have hx0 : (x.denom : ℚ) ≠ 0 := by exact_mod_cast left_ne_zero_of_mul hD0
  have hy0 : (y.denom : ℚ) ≠ 0 := by exact_mod_cast (right_ne_zero_of_mul hD0)
  refine ⟨hf.1, hf.2, ho.1 (make_Z_inv _ hD0), ?_⟩
  rw [ho.2, make_Z_value _ hD0]
  unfold value
  push_cast
  field_simp
  ring


/-- C5 at `(1, 5)` and `(1, 10)` over `int`. -/
theorem op_add_make_witness :
    Inv (op_add ({ num := 1, denom := 5 } : rational int32)
      ({ num := 1, denom := 10 } : rational int32)) ∧
    (op_add ({ num := 1, denom := 5 } : rational int32)
      ({ num := 1, denom := 10 } : rational int32) : rational int32) = { num := 3, denom := 10 } :=
  ⟨(op_add_make.2.1 int32 int32 { num := 1, denom := 5 } { num := 1, denom := 10 }
    (by decide) (by decide) (by decide) (by decide) (by decide) (by decide) (by decide) (by decide) (by decide) (by decide) (by decide)).2.2.1, by decide⟩

/-- The difference of two constructed values over the integers. -/
theorem op_sub_of_make_Z :
    (∀ n1 d1 n2 d2 : Int, d1 ≠ 0 → d2 ≠ 0 →
      op_sub (make Z n1 d1) (make Z n2 d2) = make Z (n1 * d2 - n2 * d1) (d1 * d2) ∧
      (op_sub (make Z n1 d1) (make Z n2 d2)).value = (n1 : ℚ) / (d1 : ℚ) - (n2 : ℚ) / (d2 : ℚ) ∧
      Inv (op_sub (make Z n1 d1) (make Z n2 d2))) ∧
    op_sub (make Z 1 5) (make Z 1 10) = { num := 1, denom := 10 } ∧
    op_sub (make Z 1 10) ({ val := 2 } : integer Z) = { num := -19, denom := 10 } := by
  refine ⟨?_, by decide, by decide⟩
  intro n1 d1 n2 d2 h1 h2
  have hx := make_Z_cross n1 h1
  have hy := make_Z_cross n2 h2
  have hxd := (make_Z_denom_pos n1 h1).ne'
  have hyd := (make_Z_denom_pos n2 h2).ne'
  have hd : d1 * d2 ≠ 0 := mul_ne_zero h1 h2
  have heq : op_sub (make Z n1 d1) (make Z n2 d2) = make Z (n1 * d2 - n2 * d1) (d1 * d2) := by
    rw [op_sub_Z]
    apply make_Z_eq_of_cross (mul_ne_zero hxd hyd) hd
    linear_combination ((make Z n2 d2).denom * d2) * hx - ((make Z n1 d1).denom * d1) * hy
  refine ⟨heq, ?_, ?_⟩
  · rw [heq, make_Z_value _ hd]
    have h1' : (d1 : ℚ) ≠ 0 := by exact_mod_cast h1
    have h2' : (d2 : ℚ) ≠ 0 := by exact_mod_cast h2
    push_cast
    field_simp
    ring
  · rw [heq]
    exact make_Z_inv _ hd


/-- C6. Without overflow, for `x = make(n1, d1)` and `y = make(n2, d2)` the difference
`x - y` equals `make(n1 * d2 - n2 * d1, d1 * d2)` field for field; it stands for the rational
number `n1 / d1 - n2 / d2` and is stored in lowest terms with the sign on the numerator.
Moreover `make(1,5) - make(1,10) = (1, 10)` and `make(1,10) - 2 = (-19, 10)`.
At every pair of fixed-width element types the same holds
whenever no overflow occurs: when the operand fields, the products and the numerator and
denominator passed to the constructor are values of the common type `C` in which the
operator evaluates, the last two not its least value, the result has the fields of the exact
normalisation, satisfies the invariant and stands for the exact rational number. -/
theorem op_sub_make :
    ((∀ n1 d1 n2 d2 : Int, d1 ≠ 0 → d2 ≠ 0 →
      op_sub (make Z n1 d1) (make Z n2 d2) = make Z (n1 * d2 - n2 * d1) (d1 * d2) ∧
      (op_sub (make Z n1 d1) (make Z n2 d2)).value = (n1 : ℚ) / (d1 : ℚ) - (n2 : ℚ) / (d2 : ℚ) ∧
      Inv (op_sub (make Z n1 d1) (make Z n2 d2))) ∧
    op_sub (make Z 1 5) (make Z 1 10) = { num := 1, denom := 10 } ∧
    op_sub (make Z 1 10) ({ val := 2 } : integer Z) = { num := -19, denom := 10 }) ∧
    (∀ (T U : IntType) (x : rational T) (y : rational U),
      (T.common U).inRange x.num →
      (T.common U).inRange x.denom →
      (T.common U).inRange y.num →
      (T.common U).inRange y.denom →
      (T.common U).inRange (x.num * y.denom) →
      (T.common U).inRange (y.num * x.denom) →
      (T.common U).inRange (x.num * y.denom - y.num * x.denom) →
      ¬ (T.common U).isMin (x.num * y.denom - y.num * x.denom) →
      (T.common U).inRange (x.denom * y.denom) →
      ¬ (T.common U).isMin (x.denom * y.denom) →
      x.denom * y.denom ≠ 0 →
      (op_sub x y).num = (make Z (x.num * y.denom - y.num * x.denom) (x.denom * y.denom)).num ∧
      (op_sub x y).denom = (make Z (x.num * y.denom - y.num * x.denom) (x.denom * y.denom)).denom ∧
      Inv (op_sub x y) ∧ (op_sub x y).value = x.value - y.value) ∧
    (op_sub (make int32 1 5) (make int32 1 10) : rational int32) = { num := 1, denom := 10 } := by
  refine ⟨op_sub_of_make_Z, ?_, by decide⟩
  intro T U x y h0 h1 h2 h3 h4 h5 h6 h7 h8 h9 h10
  have hD0 := h10
  have hf := op_sub_exact x y h0 h1 h2 h3 h4 h5 h6 h7 h8 h9 h10
  have ho := of_fields_eq hf.1 hf.2
  have hx0 : (x.denom : ℚ) ≠ 0 := by exact_mod_cast left_ne_zero_of_mul hD0
  have hy0 : (y.denom : ℚ) ≠ 0 := by exact_mod_cast (right_ne_zero_of_mul hD0)
  refine ⟨hf.1, hf.2, ho.1 (make_Z_inv _ hD0), ?_⟩
  rw [ho.2, make_Z_value _ hD0]
  unfold value
  push_cast
  field_simp
  ring


/-- C6 at `(1, 5)` and `(1, 10)` over `int`. -/
theorem op_sub_make_witness :
    Inv (op_sub ({ num := 1, denom := 5 } : rational int32)
      ({ num := 1, denom := 10 } : rational int32)) ∧
    (op_sub ({ num := 1, denom := 5 } : rational int32)
      ({ num := 1, denom := 10 } : rational int32) : rational int32) = { num := 1, denom := 10 } :=
  ⟨(op_sub_make.2.1 int32 int32 { num := 1, denom := 5 } { num := 1, denom := 10 }
    (by decide) (by decide) (by decide) (by decide) (by decide) (by decide) (by decide) (by decide) (by decide) (by decide) (by decide)).2.2.1, by decide⟩

/-- The product of two constructed values over the integers. -/
theorem op_mul_of_make_Z :
    (∀ n1 d1 n2 d2 : Int, d1 ≠ 0 → d2 ≠ 0 →
      op_mul (make Z n1 d1) (make Z n2 d2) = make Z (n1 * n2) (d1 * d2) ∧
      (op_mul (make Z n1 d1) (make Z n2 d2)).value =
        ((n1 : ℚ) / (d1 : ℚ)) * ((n2 : ℚ) / (d2 : ℚ)) ∧
      Inv (op_mul (make Z n1 d1) (make Z n2 d2))) ∧
    op_mul (make Z 1 5) (make Z 1 10) = { num := 1, denom := 50 } ∧
    op_mul (make Z 1 10) ({ val := 2 } : integer Z) = { num := 1, denom := 5 } := by
  refine ⟨?_, by decide, by decide⟩
  intro n1 d1 n2 d2 h1 h2
  have hx := make_Z_cross n1 h1
  have hy := make_Z_cross n2 h2
  have hxd := (make_Z_denom_pos n1 h1).ne'
  have hyd := (make_Z_denom_pos n2 h2).ne'
  have hd : d1 * d2 ≠ 0 := mul_ne_zero h1 h2
  have heq : op_mul (make Z n1 d1) (make Z n2 d2) = make Z (n1 * n2) (d1 * d2) := by
    rw [op_mul_Z]
    apply make_Z_eq_of_cross (mul_ne_zero hxd hyd) hd
    linear_combination ((make Z n2 d2).num * d2) * hx + (n1 * (make Z n1 d1).denom) * hy
  refine ⟨heq, ?_, ?_⟩
  · rw [heq, make_Z_value _ hd]
    have h1' : (d1 : ℚ) ≠ 0 := by exact_mod_cast h1
    have h2' : (d2 : ℚ) ≠ 0 := by exact_mod_cast h2
    push_cast
    field_simp
  · rw [heq]
    exact make_Z_inv _ hd


/-- C7. Without overflow, for `x = make(n1, d1)` and `y = make(n2, d2)` the product `x * y`
equals `make(n1 * n2, d1 * d2)` field for field; it stands for the rational number
`(n1 / d1) * (n2 / d2)` and is stored in lowest terms.  Moreover
`make(1,5) * make(1,10) = (1, 50)` and `make(1,10) * 2 = (1, 5)`.
At every pair of fixed-width element types the same holds
whenever no overflow occurs: when the operand fields, the products and the numerator and
denominator passed to the constructor are values of the common type `C` in which the
operator evaluates, the last two not its least value, the result has the fields of the exact
normalisation, satisfies the invariant and stands for the exact rational number. -/
theorem op_mul_make :
    ((∀ n1 d1 n2 d2 : Int, d1 ≠ 0 → d2 ≠ 0 →
      op_mul (make Z n1 d1) (make Z n2 d2) = make Z (n1 * n2) (d1 * d2) ∧
      (op_mul (make Z n1 d1) (make Z n2 d2)).value =
        ((n1 : ℚ) / (d1 : ℚ)) * ((n2 : ℚ) / (d2 : ℚ)) ∧
      Inv (op_mul (make Z n1 d1) (make Z n2 d2))) ∧
    op_mul (make Z 1 5) (make Z 1 10) = { num := 1, denom := 50 } ∧
    op_mul (make Z 1 10) ({ val := 2 } : integer Z) = { num := 1, denom := 5 }) ∧
    (∀ (T U : IntType) (x : rational T) (y : rational U),
      (T.common U).inRange x.num →
      (T.common U).inRange x.denom →
      (T.common U).inRange y.num →
      (T.common U).inRange y.denom →
      (T.common U).inRange (x.num * y.num) →
      ¬ (T.common U).isMin (x.num * y.num) →
      (T.common U).inRange (x.denom * y.denom) →
      ¬ (T.common U).isMin (x.denom * y.denom) →
      x.denom * y.denom ≠ 0 →
      (op_mul x y).num = (make Z (x.num * y.num) (x.denom * y.denom)).num ∧
      (op_mul x y).denom = (make Z (x.num * y.num) (x.denom * y.denom)).denom ∧
      Inv (op_mul x y) ∧ (op_mul x y).value = x.value * y.value) ∧
    (op_mul (make int32 1 5) (make int32 1 10) : rational int32) = { num := 1, denom := 50 } := by
  refine ⟨op_mul_of_make_Z, ?_, by decide⟩
  intro T U x y h0 h1 h2 h3 h4 h5 h6 h7 h8
  have hD0 := h8
  have hf := op_mul_exact x y h0 h1 h2 h3 h4 h5 h6 h7 h8
  have ho := of_fields_eq hf.1 hf.2
  have hx0 : (x.denom : ℚ) ≠ 0 := by exact_mod_cast left_ne_zero_of_mul hD0
  have hy0 : (y.denom : ℚ) ≠ 0 := by exact_mod_cast (right_ne_zero_of_mul hD0)
  refine ⟨hf.1, hf.2, ho.1 (make_Z_inv _ hD0), ?_⟩
  rw [ho.2, make_Z_value _ hD0]
  unfold value
  push_cast
  field_simp


/-- C7 at `(1, 5)` and `(1, 10)` over `int`. -/
theorem op_mul_make_witness :
    Inv (op_mul ({ num := 1, denom := 5 } : rational int32)
      ({ num := 1, denom := 10 } : rational int32)) ∧
    (op_mul ({ num := 1, denom := 5 } : rational int32)
      ({ num := 1, denom := 10 } : rational int32) : rational int32) = { num := 1, denom := 50 } :=
  ⟨(op_mul_make.2.1 int32 int32 { num := 1, denom := 5 } { num := 1, denom := 10 }
    (by decide) (by decide) (by decide) (by decide) (by decide) (by decide) (by decide) (by decide) (by decide)).2.2.1, by decide⟩

/-- The quotient of two constructed values over the integers. -/
theorem op_div_of_make_Z :
    (∀ n1 d1 n2 d2 : Int, d1 ≠ 0 → d2 ≠ 0 → n2 ≠ 0 →
      op_div (make Z n1 d1) (make Z n2 d2) = make Z (n1 * d2) (d1 * n2) ∧
      (op_div (make Z n1 d1) (make Z n2 d2)).value =
        ((n1 : ℚ) / (d1 : ℚ)) / ((n2 : ℚ) / (d2 : ℚ)) ∧
      Inv (op_div (make Z n1 d1) (make Z n2 d2))) ∧
    op_div (make Z 1 5) (make Z 1 10) = { num := 2, denom := 1 } ∧
    op_div (make Z 1 10) ({ val := 2 } : integer Z) = { num := 1, denom := 20 } ∧
    op_div ({ val := 2 } : integer Z) (make Z 1 10) = { num := 20, denom := 1 } := by
  refine ⟨?_, by decide, by decide, by decide⟩
  intro n1 d1 n2 d2 h1 h2 hn2
  have hx := make_Z_cross n1 h1
  have hy := make_Z_cross n2 h2
  have hxd := (make_Z_denom_pos n1 h1).ne'
  have hyn := make_Z_num_ne_zero hn2 h2
  have hd : d1 * n2 ≠ 0 := mul_ne_zero h1 hn2
  have heq : op_div (make Z n1 d1) (make Z n2 d2) = make Z (n1 * d2) (d1 * n2) := by
    rw [op_div_Z]
    apply make_Z_eq_of_cross (mul_ne_zero hxd hyn) hd
    linear_combination ((make Z n2 d2).denom * n2) * hx - (n1 * (make Z n1 d1).denom) * hy
  refine ⟨heq, ?_, ?_⟩
  · rw [heq, make_Z_value _ hd]
    have h1' : (d1 : ℚ) ≠ 0 := by exact_mod_cast h1
    have h2' : (d2 : ℚ) ≠ 0 := by exact_mod_cast h2
    have h3' : (n2 : ℚ) ≠ 0 := by exact_mod_cast hn2
    push_cast
    field_simp
  · rw [heq]
    exact make_Z_inv _ hd


/-- C8. Without overflow, for `x = make(n1, d1)` and `y = make(n2, d2)` with `n2 ≠ 0` the
quotient `x / y` equals `make(n1 * d2, d1 * n2)` field for field; it stands for the rational
number `(n1 / d1) / (n2 / d2)`, is stored in lowest terms, and its denominator is strictly
positive also when `y` is negative.  Moreover `make(1,5) / make(1,10) = (2, 1)`,
`make(1,10) / 2 = (1, 20)` and `2 / make(1,10) = (20, 1)`.
At every pair of fixed-width element types the same holds
whenever no overflow occurs: when the operand fields, the products and the numerator and
denominator passed to the constructor are values of the common type `C` in which the
operator evaluates, the last two not its least value, the result has the fields of the exact
normalisation, satisfies the invariant and stands for the exact rational number. -/
theorem op_div_make :
    ((∀ n1 d1 n2 d2 : Int, d1 ≠ 0 → d2 ≠ 0 → n2 ≠ 0 →
      op_div (make Z n1 d1) (make Z n2 d2) = make Z (n1 * d2) (d1 * n2) ∧
      (op_div (make Z n1 d1) (make Z n2 d2)).value =
        ((n1 : ℚ) / (d1 : ℚ)) / ((n2 : ℚ) / (d2 : ℚ)) ∧
      Inv (op_div (make Z n1 d1) (make Z n2 d2))) ∧
    op_div (make Z 1 5) (make Z 1 10) = { num := 2, denom := 1 } ∧
    op_div (make Z 1 10) ({ val := 2 } : integer Z) = { num := 1, denom := 20 } ∧
    op_div ({ val := 2 } : integer Z) (make Z 1 10) = { num := 20, denom := 1 }) ∧
    (∀ (T U : IntType) (x : rational T) (y : rational U),
      (T.common U).inRange x.num →
      (T.common U).inRange x.denom →
      (T.common U).inRange y.num →
      (T.common U).inRange y.denom →
      (T.common U).inRange (x.num * y.denom) →
      ¬ (T.common U).isMin (x.num * y.denom) →
      (T.common U).inRange (x.denom * y.num) →
      ¬ (T.common U).isMin (x.denom * y.num) →
      x.denom * y.num ≠ 0 →
      y.denom ≠ 0 →
      (op_div x y).num = (make Z (x.num * y.denom) (x.denom * y.num)).num ∧
      (op_div x y).denom = (make Z (x.num * y.denom) (x.denom * y.num)).denom ∧
      Inv (op_div x y) ∧ (op_div x y).value = x.value / y.value) ∧
    (op_div (make int32 1 5) (make int32 1 10) : rational int32) = { num := 2, denom := 1 } := by
  refine ⟨op_div_of_make_Z, ?_, by decide⟩
  intro T U x y h0 h1 h2 h3 h4 h5 h6 h7 h8 h9
  have hD0 := h8
  have hf := op_div_exact x y h0 h1 h2 h3 h4 h5 h6 h7 h8
  have ho := of_fields_eq hf.1 hf.2
  have hx0 : (x.denom : ℚ) ≠ 0 := by exact_mod_cast left_ne_zero_of_mul hD0
  have hy0 : (y.denom : ℚ) ≠ 0 := by exact_mod_cast h9
  refine ⟨hf.1, hf.2, ho.1 (make_Z_inv _ hD0), ?_⟩
  rw [ho.2, make_Z_value _ hD0]
  unfold value
  push_cast
  field_simp


/-- C8 at `(1, 5)` and `(1, 10)` over `int`. -/
theorem op_div_make_witness :
    Inv (op_div ({ num := 1, denom := 5 } : rational int32)
      ({ num := 1, denom := 10 } : rational int32)) ∧
    (op_div ({ num := 1, denom := 5 } : rational int32)
      ({ num := 1, denom := 10 } : rational int32) : rational int32) = { num := 2, denom := 1 } :=
  ⟨(op_div_make.2.1 int32 int32 { num := 1, denom := 5 } { num := 1, denom := 10 }
    (by decide) (by decide) (by decide) (by decide) (by decide) (by decide) (by decide) (by decide) (by decide) (by decide)).2.2.1, by decide⟩

/-! ## Compound assignment at a fixed-width element type, when no result overflows -/

/-- The receiver after the compound operator and the result of the binary operator, at a
fixed-width type without overflow: both have the fields of the exact normalisation. -/
theorem op_add_both_exact {T : IntType} (hT : T.valid) (r s : rational T)
    (hrn : T.inRange r.num) (hrd : T.inRange r.denom)
    (hsn : T.inRange s.num) (hsd : T.inRange s.denom)
    (h1 : T.inRange (r.num * s.denom)) (h2 : (T.common T).inRange (r.denom * s.num))
    (hN : T.inRange (r.num * s.denom + r.denom * s.num)) (hNm : ¬ T.isMin (r.num * s.denom + r.denom * s.num))
    (hD : T.inRange (r.denom * s.denom)) (hDm : ¬ T.isMin (r.denom * s.denom))
    (hD0 : r.denom * s.denom ≠ 0) :
    ((op_add_assign { self := r, other := s }).self.num = (make Z (r.num * s.denom + r.denom * s.num) (r.denom * s.denom)).num ∧
      (op_add_assign { self := r, other := s }).self.denom = (make Z (r.num * s.denom + r.denom * s.num) (r.denom * s.denom)).denom ∧
      (op_add_assign { self := r, other := s }).other = s) ∧
    ((op_add r s).num = (make Z (r.num * s.denom + r.denom * s.num) (r.denom * s.denom)).num ∧
      (op_add r s).denom = (make Z (r.num * s.denom + r.denom * s.num) (r.denom * s.denom)).denom) := by
  have hC := IntType.common_valid T T
  have c := fun {x : Int} (h : T.inRange x) => IntType.inRange_common_self hT h
  constructor
  · have hm := make_eq_exact hT hN hD hD0 hNm hDm
    have hn1 : T.wrap ((T.common T).mul r.num s.denom) = r.num * s.denom := by
      rw [IntType.mul_exact hC (c hrn) (c hsd) (c h1), IntType.wrap_of_inRange hT h1]
    have hn2 : T.wrap ((T.common T).add (r.num * s.denom) ((T.common T).mul r.denom s.num))
        = r.num * s.denom + r.denom * s.num := by
      rw [IntType.mul_exact hC (c hrd) (c hsn) h2, IntType.add_exact hC (c h1) h2 (c hN),
        IntType.wrap_of_inRange hT hN]
    have hd3 : T.wrap ((T.common T).mul r.denom s.denom) = r.denom * s.denom := by
      rw [IntType.mul_exact hC (c hrd) (c hsd) (c hD), IntType.wrap_of_inRange hT hD]
    have hself : (op_add_assign { self := r, other := s }).self = make T (r.num * s.denom + r.denom * s.num) (r.denom * s.denom) := by
      simp only [op_add_assign, hn1, hn2, hd3]
      rfl
    rw [hself]
    exact ⟨hm.1, hm.2, rfl⟩
  · have e : r.denom * s.num + s.denom * r.num = r.num * s.denom + r.denom * s.num := by ring
    have h := op_add_exact r s (c hrn) (c hrd) (c hsn) (c hsd) h2
      (by rw [mul_comm]; exact c h1) (by rw [e]; exact c hN)
      (by rw [e]; exact IntType.not_isMin_common_self hN hNm) (c hD)
      (IntType.not_isMin_common_self hD hDm) hD0
    rw [e] at h
    exact h

/-- The receiver after the compound operator and the result of the binary operator, at a
fixed-width type without overflow: both have the fields of the exact normalisation. -/
theorem op_sub_both_exact {T : IntType} (hT : T.valid) (r s : rational T)
    (hrn : T.inRange r.num) (hrd : T.inRange r.denom)
    (hsn : T.inRange s.num) (hsd : T.inRange s.denom)
    (h1 : T.inRange (r.num * s.denom)) (h2 : (T.common T).inRange (r.denom * s.num))
    (hN : T.inRange (r.num * s.denom - r.denom * s.num)) (hNm : ¬ T.isMin (r.num * s.denom - r.denom * s.num))
    (hD : T.inRange (r.denom * s.denom)) (hDm : ¬ T.isMin (r.denom * s.denom))
    (hD0 : r.denom * s.denom ≠ 0) :
    ((op_sub_assign { self := r, other := s }).self.num = (make Z (r.num * s.denom - r.denom * s.num) (r.denom * s.denom)).num ∧
      (op_sub_assign { self := r, other := s }).self.denom = (make Z (r.num * s.denom - r.denom * s.num) (r.denom * s.denom)).denom ∧
      (op_sub_assign { self := r, other := s }).other = s) ∧
    ((op_sub r s).num = (make Z (r.num * s.denom - r.denom * s.num) (r.denom * s.denom)).num ∧
      (op_sub r s).denom = (make Z (r.num * s.denom - r.denom * s.num) (r.denom * s.denom)).denom) := by
  have hC := IntType.common_valid T T
  have c := fun {x : Int} (h : T.inRange x) => IntType.inRange_common_self hT h
  constructor
  · have hm := make_eq_exact hT hN hD hD0 hNm hDm
    have hn1 : T.wrap ((T.common T).mul r.num s.denom) = r.num * s.denom := by
      rw [IntType.mul_exact hC (c hrn) (c hsd) (c h1), IntType.wrap_of_inRange hT h1]
    have hn2 : T.wrap ((T.common T).sub (r.num * s.denom) ((T.common T).mul r.denom s.num))
        = r.num * s.denom - r.denom * s.num := by
      rw [IntType.mul_exact hC (c hrd) (c hsn) h2, IntType.sub_exact hC (c h1) h2 (c hN),
        IntType.wrap_of_inRange hT hN]
    have hd3 : T.wrap ((T.common T).mul r.denom s.denom) = r.denom * s.denom := by
      rw [IntType.mul_exact hC (c hrd) (c hsd) (c hD), IntType.wrap_of_inRange hT hD]
    have hself : (op_sub_assign { self := r, other := s }).self = make T (r.num * s.denom - r.denom * s.num) (r.denom * s.denom) := by
      simp only [op_sub_assign, hn1, hn2, hd3]
      rfl
    rw [hself]
    exact ⟨hm.1, hm.2, rfl⟩
  · have e : r.num * s.denom - s.num * r.denom = r.num * s.denom - r.denom * s.num := by ring
    have h := op_sub_exact r s (c hrn) (c hrd) (c hsn) (c hsd) (c h1)
      (by rw [mul_comm]; exact h2) (by rw [e]; exact c hN)
      (by rw [e]; exact IntType.not_isMin_common_self hN hNm) (c hD)
      (IntType.not_isMin_common_self hD hDm) hD0
    rw [e] at h
    exact h

/-- The receiver after the compound operator and the result of the binary operator, at a
fixed-width type without overflow: both have the fields of the exact normalisation. -/
theorem op_mul_both_exact {T : IntType} (hT : T.valid) (r s : rational T)
    (hrn : T.inRange r.num) (hrd : T.inRange r.denom)
    (hsn : T.inRange s.num) (hsd : T.inRange s.denom)
    (hN : T.inRange (r.num * s.num)) (hNm : ¬ T.isMin (r.num * s.num))
    (hD : T.inRange (r.denom * s.denom)) (hDm : ¬ T.isMin (r.denom * s.denom))
    (hD0 : r.denom * s.denom ≠ 0) :
    ((op_mul_assign { self := r, other := s }).self.num = (make Z (r.num * s.num) (r.denom * s.denom)).num ∧
      (op_mul_assign { self := r, other := s }).self.denom = (make Z (r.num * s.num) (r.denom * s.denom)).denom ∧
      (op_mul_assign { self := r, other := s }).other = s) ∧
    ((op_mul r s).num = (make Z (r.num * s.num) (r.denom * s.denom)).num ∧
      (op_mul r s).denom = (make Z (r.num * s.num) (r.denom * s.denom)).denom) := by
  have hC := IntType.common_valid T T
  have c := fun {x : Int} (h : T.inRange x) => IntType.inRange_common_self hT h
  constructor
  · have hm := make_eq_exact hT hN hD hD0 hNm hDm
    have hn1 : T.wrap ((T.common T).mul r.num s.num) = r.num * s.num := by
      rw [IntType.mul_exact hC (c hrn) (c hsn) (c hN), IntType.wrap_of_inRange hT hN]
    have hd2 : T.wrap ((T.common T).mul r.denom s.denom) = r.denom * s.denom := by
      rw [IntType.mul_exact hC (c hrd) (c hsd) (c hD), IntType.wrap_of_inRange hT hD]
    have hself : (op_mul_assign { self := r, other := s }).self = make T (r.num * s.num) (r.denom * s.denom) := by
      simp only [op_mul_assign, hn1, hd2]
      rfl
    rw [hself]
    exact ⟨hm.1, hm.2, rfl⟩
  · exact op_mul_exact r s (c hrn) (c hrd) (c hsn) (c hsd) (c hN)
      (IntType.not_isMin_common_self hN hNm) (c hD) (IntType.not_isMin_common_self hD hDm) hD0

/-- The receiver after the compound operator and the result of the binary operator, at a
fixed-width type without overflow: both have the fields of the exact normalisation. -/
theorem op_div_both_exact {T : IntType} (hT : T.valid) (r s : rational T)
    (hrn : T.inRange r.num) (hrd : T.inRange r.denom)
    (hsn : T.inRange s.num) (hsd : T.inRange s.denom)
    (hN : T.inRange (r.num * s.denom)) (hNm : ¬ T.isMin (r.num * s.denom))
    (hD : T.inRange (r.denom * s.num)) (hDm : ¬ T.isMin (r.denom * s.num))
    (hD0 : r.denom * s.num ≠ 0) :
    ((op_div_assign { self := r, other := s }).self.num = (make Z (r.num * s.denom) (r.denom * s.num)).num ∧
      (op_div_assign { self := r, other := s }).self.denom = (make Z (r.num * s.denom) (r.denom * s.num)).denom ∧
      (op_div_assign { self := r, other := s }).other = s) ∧
    ((op_div r s).num = (make Z (r.num * s.denom) (r.denom * s.num)).num ∧
      (op_div r s).denom = (make Z (r.num * s.denom) (r.denom * s.num)).denom) := by
  have hC := IntType.common_valid T T
  have c := fun {x : Int} (h : T.inRange x) => IntType.inRange_common_self hT h
  constructor
  · have hm := make_eq_exact hT hN hD hD0 hNm hDm
    have hn1 : T.wrap ((T.common T).mul r.num s.denom) = r.num * s.denom := by
      rw [IntType.mul_exact hC (c hrn) (c hsd) (c hN), IntType.wrap_of_inRange hT hN]
    have hd2 : T.wrap ((T.common T).mul r.denom s.num) = r.denom * s.num := by
      rw [IntType.mul_exact hC (c hrd) (c hsn) (c hD), IntType.wrap_of_inRange hT hD]
    have hself : (op_div_assign { self := r, other := s }).self = make T (r.num * s.denom) (r.denom * s.num) := by
      simp only [op_div_assign, hn1, hd2]
      rfl
    rw [hself]
    exact ⟨hm.1, hm.2, rfl⟩
  · exact op_div_exact r s (c hrn) (c hrd) (c hsn) (c hsd) (c hN)
      (IntType.not_isMin_common_self hN hNm) (c hD) (IntType.not_isMin_common_self hD hDm) hD0

/-! ## The invariant and compound assignment -/

/-- The invariant is preserved by every operation over the integers. -/
theorem inv_preserved_Z :
    (∀ r s : rational Z, Inv r → Inv s →
      Inv (op_add_assign { self := r, other := s }).self ∧
      Inv (op_sub_assign { self := r, other := s }).self ∧
      Inv (op_mul_assign { self := r, other := s }).self ∧
      (s.num ≠ 0 → Inv (op_div_assign { self := r, other := s }).self) ∧
      Inv (op_add r s) ∧ Inv (op_sub r s) ∧ Inv (op_mul r s) ∧
      (s.num ≠ 0 → Inv (op_div r s)) ∧
      Inv (op_neg r) ∧ Inv (op_pos r)) ∧
    Inv (rational.default Z) ∧
    (∀ v : Int, Inv (from_value Z v)) := by
  refine ⟨?_, by decide, ?_⟩
  · intro r s hr hs
    have hrd := hr.denom_ne_zero
    have hsd := hs.denom_ne_zero
    have hdd : r.denom * s.denom ≠ 0 := mul_ne_zero hrd hsd
    refine ⟨?_, ?_, ?_, ?_, ?_, ?_, ?_, ?_, ?_, hr⟩
    · rw [op_add_assign_Z]; exact make_Z_inv _ hdd
    · rw [op_sub_assign_Z]; exact make_Z_inv _ hdd
    · rw [op_mul_assign_Z]; exact make_Z_inv _ hdd
    · intro hn; rw [op_div_assign_Z]; exact make_Z_inv _ (mul_ne_zero hrd hn)
    · rw [op_add_Z]; exact make_Z_inv _ hdd
    · rw [op_sub_Z]; exact make_Z_inv _ hdd
    · rw [op_mul_Z]; exact make_Z_inv _ hdd
    · intro hn; rw [op_div_Z]; exact make_Z_inv _ (mul_ne_zero hrd hn)
    · rw [op_neg_Z]; exact make_Z_inv _ hrd
  · intro v
    exact ⟨Int.one_pos, Nat.gcd_one_right _⟩

/-- C9. Without overflow the invariant `Inv(r) := r.denom > 0 ∧ gcd(|r.num|, r.denom) = 1`
is preserved by every operation: for all `r`, `s` satisfying it, the receiver after
`r += s`, `r -= s`, `r *= s` and (for `s.num ≠ 0`) `r /= s`, the results of `r + s`, `r - s`,
`r * s` and (for `s.num ≠ 0`) `r / s`, and of `-r` and `+r` satisfy it; so do the
default-constructed value and the value constructed from a single integer.
At the fixed-width element types the same holds whenever no overflow occurs: for a
compound operator, when the values it stores are values of the receiver's type, the final
numerator and denominator not its least value; for a binary operator, when the products and
the numerator and denominator it passes to the constructor are values of the common type in
which it evaluates, the last two not its least value. -/
theorem invariant_preserved :
    ((∀ r s : rational Z, Inv r → Inv s →
      Inv (op_add_assign { self := r, other := s }).self ∧
      Inv (op_sub_assign { self := r, other := s }).self ∧
      Inv (op_mul_assign { self := r, other := s }).self ∧
      (s.num ≠ 0 → Inv (op_div_assign { self := r, other := s }).self) ∧
      Inv (op_add r s) ∧ Inv (op_sub r s) ∧ Inv (op_mul r s) ∧
      (s.num ≠ 0 → Inv (op_div r s)) ∧
      Inv (op_neg r) ∧ Inv (op_pos r)) ∧
    Inv (rational.default Z) ∧
    (∀ v : Int, Inv (from_value Z v))) ∧
    (∀ (T : IntType), T.valid → ∀ r s : rational T,
      T.inRange r.num → T.inRange r.denom → T.inRange s.num → T.inRange s.denom →
      (T.inRange (r.num * s.denom) →
        (T.common T).inRange (r.denom * s.num) →
        T.inRange (r.num * s.denom + r.denom * s.num) →
        ¬ T.isMin (r.num * s.denom + r.denom * s.num) →
        T.inRange (r.denom * s.denom) →
        ¬ T.isMin (r.denom * s.denom) →
        r.denom * s.denom ≠ 0 →
        Inv (op_add_assign { self := r, other := s }).self) ∧
      (T.inRange (r.num * s.denom) →
        (T.common T).inRange (r.denom * s.num) →
        T.inRange (r.num * s.denom - r.denom * s.num) →
        ¬ T.isMin (r.num * s.denom - r.denom * s.num) →
        T.inRange (r.denom * s.denom) →
        ¬ T.isMin (r.denom * s.denom) →
        r.denom * s.denom ≠ 0 →
        Inv (op_sub_assign { self := r, other := s }).self) ∧
      (T.inRange (r.num * s.num) →
        ¬ T.isMin (r.num * s.num) →
        T.inRange (r.denom * s.denom) →
        ¬ T.isMin (r.denom * s.denom) →
        r.denom * s.denom ≠ 0 →
        Inv (op_mul_assign { self := r, other := s }).self) ∧
      (T.inRange (r.num * s.denom) →
        ¬ T.isMin (r.num * s.denom) →
        T.inRange (r.denom * s.num) →
        ¬ T.isMin (r.denom * s.num) →
        r.denom * s.num ≠ 0 →
        Inv (op_div_assign { self := r, other := s }).self) ∧
      (T.signed → Inv r → ¬ T.isMin r.num → Inv (op_neg r)) ∧
      (Inv r → Inv (op_pos r))) ∧
    (∀ (T U : IntType) (x : rational T) (y : rational U),
      (T.common U).inRange x.num → (T.common U).inRange x.denom →
      (T.common U).inRange y.num → (T.common U).inRange y.denom →
      ((T.common U).inRange (x.denom * y.num) →
        (T.common U).inRange (y.denom * x.num) →
        (T.common U).inRange (x.denom * y.num + y.denom * x.num) →
        ¬ (T.common U).isMin (x.denom * y.num + y.denom * x.num) →
        (T.common U).inRange (x.denom * y.denom) →
        ¬ (T.common U).isMin (x.denom * y.denom) →
        x.denom * y.denom ≠ 0 →
        Inv (op_add x y)) ∧
      ((T.common U).inRange (x.num * y.denom) →
        (T.common U).inRange (y.num * x.denom) →
        (T.common U).inRange (x.num * y.denom - y.num * x.denom) →
        ¬ (T.common U).isMin (x.num * y.denom - y.num * x.denom) →
        (T.common U).inRange (x.denom * y.denom) →
        ¬ (T.common U).isMin (x.denom * y.denom) →
        x.denom * y.denom ≠ 0 →
        Inv (op_sub x y)) ∧
      ((T.common U).inRange (x.num * y.num) →
        ¬ (T.common U).isMin (x.num * y.num) →
        (T.common U).inRange (x.denom * y.denom) →
        ¬ (T.common U).isMin (x.denom * y.denom) →
        x.denom * y.denom ≠ 0 →
        Inv (op_mul x y)) ∧
      ((T.common U).inRange (x.num * y.denom) →
        ¬ (T.common U).isMin (x.num * y.denom) →
        (T.common U).inRange (x.denom * y.num) →
        ¬ (T.common U).isMin (x.denom * y.num) →
        x.denom * y.num ≠ 0 →
        Inv (op_div x y))) ∧
    (∀ (T : IntType), Inv (rational.default T)) ∧
    (∀ (T : IntType) (v : Int), Inv (from_value T v)) := by
  refine ⟨inv_preserved_Z, ?_, ?_, fun _ => ⟨Int.one_pos, Nat.gcd_one_right _⟩,
    fun _ _ => ⟨Int.one_pos, Nat.gcd_one_right _⟩⟩
  · intro T hT r s hrn hrd hsn hsd
    refine ⟨?_, ?_, ?_, ?_, ?_, fun h => h⟩
    · intro h0 h1 h2 h3 h4 h5 h6
      have h := (op_add_both_exact hT r s hrn hrd hsn hsd h0 h1 h2 h3 h4 h5 h6).1
      exact (of_fields_eq h.1 h.2.1).1 (make_Z_inv _ h6)
    · intro h0 h1 h2 h3 h4 h5 h6
      have h := (op_sub_both_exact hT r s hrn hrd hsn hsd h0 h1 h2 h3 h4 h5 h6).1
      exact (of_fields_eq h.1 h.2.1).1 (make_Z_inv _ h6)
    · intro h0 h1 h2 h3 h4
      have h := (op_mul_both_exact hT r s hrn hrd hsn hsd h0 h1 h2 h3 h4).1
      exact (of_fields_eq h.1 h.2.1).1 (make_Z_inv _ h4)
    · intro h0 h1 h2 h3 h4
      have h := (op_div_both_exact hT r s hrn hrd hsn hsd h0 h1 h2 h3 h4).1
      exact (of_fields_eq h.1 h.2.1).1 (make_Z_inv _ h4)
    · intro hs hr hmin
      rw [op_neg_of_inv hT hs hrn hrd hr hmin]
      refine ⟨hr.1, ?_⟩
      show Nat.gcd (-r.num).natAbs r.denom.natAbs = 1
      rw [Int.natAbs_neg]
      exact hr.2
  · intro T U x y hxn hxd hyn hyd
    refine ⟨?_, ?_, ?_, ?_⟩
    · intro h0 h1 h2 h3 h4 h5 h6
      have h := op_add_exact x y hxn hxd hyn hyd h0 h1 h2 h3 h4 h5 h6
      exact (of_fields_eq h.1 h.2).1 (make_Z_inv _ h6)
    · intro h0 h1 h2 h3 h4 h5 h6
      have h := op_sub_exact x y hxn hxd hyn hyd h0 h1 h2 h3 h4 h5 h6
      exact (of_fields_eq h.1 h.2).1 (make_Z_inv _ h6)
    · intro h0 h1 h2 h3 h4
      have h := op_mul_exact x y hxn hxd hyn hyd h0 h1 h2 h3 h4
      exact (of_fields_eq h.1 h.2).1 (make_Z_inv _ h4)
    · intro h0 h1 h2 h3 h4
      have h := op_div_exact x y hxn hxd hyn hyd h0 h1 h2 h3 h4
      exact (of_fields_eq h.1 h.2).1 (make_Z_inv _ h4)

/-- C9 at `r = (1, 5)` and `s = (-1, 10)` over `int`. -/
theorem invariant_preserved_witness :
    Inv (op_add_assign
      { self := ({ num := 1, denom := 5 } : rational int32),
        other := ({ num := -1, denom := 10 } : rational int32) }).self ∧
    Inv (op_div_assign
      { self := ({ num := 1, denom := 5 } : rational int32),
        other := ({ num := -1, denom := 10 } : rational int32) }).self ∧
    Inv (op_add ({ num := 1, denom := 5 } : rational int32)
      ({ num := -1, denom := 10 } : rational int32)) ∧
    Inv (op_div ({ num := 1, denom := 5 } : rational int32)
      ({ num := -1, denom := 10 } : rational int32)) :=
  have h := invariant_preserved.2.1 int32 (by decide) { num := 1, denom := 5 }
    { num := -1, denom := 10 } (by decide) (by decide) (by decide) (by decide)
  have hb := invariant_preserved.2.2.1 int32 int32 { num := 1, denom := 5 }
    { num := -1, denom := 10 } (by decide) (by decide) (by decide) (by decide)
  ⟨h.1 (by decide) (by decide) (by decide) (by decide) (by decide) (by decide) (by decide), h.2.2.2.1 (by decide) (by decide) (by decide) (by decide) (by decide),
    hb.1 (by decide) (by decide) (by decide) (by decide) (by decide) (by decide) (by decide), hb.2.2.2 (by decide) (by decide) (by decide) (by decide) (by decide)⟩

/-- Compound assignment agrees with the binary operators over the integers. -/
theorem compound_binary_Z :
    (∀ r s : rational Z,
      ((op_add_assign { self := r, other := s }).self = op_add r s ∧
        (op_add_assign { self := r, other := s }).other = s) ∧
      ((op_sub_assign { self := r, other := s }).self = op_sub r s ∧
        (op_sub_assign { self := r, other := s }).other = s) ∧
      ((op_mul_assign { self := r, other := s }).self = op_mul r s ∧
        (op_mul_assign { self := r, other := s }).other = s) ∧
      ((op_div_assign { self := r, other := s }).self = op_div r s ∧
        (op_div_assign { self := r, other := s }).other = s)) ∧
    (∀ (r : rational Z) (v : integer Z),
      (op_add_assign_value r v = op_add r v ∧ op_add r v = op_add r (from_value Z v.val)) ∧
      (op_sub_assign_value r v = op_sub r v ∧ op_sub r v = op_sub r (from_value Z v.val)) ∧
      (op_mul_assign_value r v = op_mul r v ∧ op_mul r v = op_mul r (from_value Z v.val)) ∧
      (op_div_assign_value r v = op_div r v ∧ op_div r v = op_div r (from_value Z v.val))) ∧
    ((op_add_assign { self := make Z 1 5, other := make Z 1 10 }).self
        = { num := 3, denom := 10 } ∧
      op_add_assign_value ({ num := 3, denom := 10 } : rational Z) ({ val := 2 } : integer Z)
        = { num := 23, denom := 10 }) ∧
    ((op_mul_assign { self := make Z 1 5, other := make Z 1 10 }).self
        = { num := 1, denom := 50 } ∧
      op_mul_assign_value ({ num := 1, denom := 50 } : rational Z) ({ val := 2 } : integer Z)
        = { num := 1, denom := 25 }) ∧
    ((op_div_assign { self := make Z 1 5, other := make Z 1 10 }).self
        = { num := 2, denom := 1 } ∧
      op_div_assign_value ({ num := 2, denom := 1 } : rational Z) ({ val := 2 } : integer Z)
        = { num := 1, denom := 1 }) := by
  refine ⟨?_, ?_, by decide, by decide, by decide⟩
  · intro r s
    refine ⟨⟨?_, rfl⟩, ⟨?_, rfl⟩, ⟨?_, rfl⟩, ⟨?_, rfl⟩⟩
    · rw [op_add_assign_Z, op_add_Z]
      show make Z (r.num * s.denom + r.denom * s.num) _ = _
      rw [show r.num * s.denom + r.denom * s.num = r.denom * s.num + s.denom * r.num by ring]
    · rw [op_sub_assign_Z, op_sub_Z]
      show make Z (r.num * s.denom - r.denom * s.num) _ = _
      rw [show r.num * s.denom - r.denom * s.num = r.num * s.denom - s.num * r.denom by ring]
    · rw [op_mul_assign_Z, op_mul_Z]
    · rw [op_div_assign_Z, op_div_Z]
  · intro r v
    refine ⟨⟨?_, rfl⟩, ⟨?_, rfl⟩, ⟨?_, rfl⟩, ⟨?_, rfl⟩⟩
    · unfold op_add_assign_value
      rw [op_add_assign_Z, op_add_value_Z]
      show make Z (r.num * 1 + r.denom * v.val) _ = _
      rw [show r.num * 1 + r.denom * v.val = r.denom * v.val + 1 * r.num by ring]
      rfl
    · unfold op_sub_assign_value
      rw [op_sub_assign_Z, op_sub_value_Z]
      show make Z (r.num * 1 - r.denom * v.val) _ = _
      rw [show r.num * 1 - r.denom * v.val = r.num * 1 - v.val * r.denom by ring]
      rfl
    · unfold op_mul_assign_value
      rw [op_mul_assign_Z, op_mul_value_Z]
      rfl
    · unfold op_div_assign_value
      rw [op_div_assign_Z, op_div_value_Z]
      rfl

/-- C10. Without overflow, for `r` and `s` held in distinct objects, after `r += s`,
`r -= s`, `r *= s` or `r /= s` the receiver equals, field for field, the value the
corresponding binary operator returns on the old `r` and `s`, and `s` is unchanged.  The same
holds when the right operand is a plain integer `v`, which both forms treat as `v / 1`.
Moreover, starting from `make(1,5)`: `+= make(1,10)` gives `(3,10)` and then `+= 2` gives
`(23,10)`; `*= make(1,10)` gives `(1,50)` and then `*= 2` gives `(1,25)`; `/= make(1,10)`
gives `(2,1)` and then `/= 2` gives `(1,1)`.
At every fixed-width element type the same holds whenever no overflow occurs: when the
values the compound operator stores are values of the type, the final numerator and
denominator not its least value, the receiver has the fields of the binary operator's
result, which are those of the exact normalisation, and `s` is unchanged; an integer operand
`v` of the type is the operand `(v, 1)`. -/
theorem compound_eq_binary :
    ((∀ r s : rational Z,
      ((op_add_assign { self := r, other := s }).self = op_add r s ∧
        (op_add_assign { self := r, other := s }).other = s) ∧
      ((op_sub_assign { self := r, other := s }).self = op_sub r s ∧
        (op_sub_assign { self := r, other := s }).other = s) ∧
      ((op_mul_assign { self := r, other := s }).self = op_mul r s ∧
        (op_mul_assign { self := r, other := s }).other = s) ∧
      ((op_div_assign { self := r, other := s }).self = op_div r s ∧
        (op_div_assign { self := r, other := s }).other = s)) ∧
    (∀ (r : rational Z) (v : integer Z),
      (op_add_assign_value r v = op_add r v ∧ op_add r v = op_add r (from_value Z v.val)) ∧
      (op_sub_assign_value r v = op_sub r v ∧ op_sub r v = op_sub r (from_value Z v.val)) ∧
      (op_mul_assign_value r v = op_mul r v ∧ op_mul r v = op_mul r (from_value Z v.val)) ∧
      (op_div_assign_value r v = op_div r v ∧ op_div r v = op_div r (from_value Z v.val))) ∧
    ((op_add_assign { self := make Z 1 5, other := make Z 1 10 }).self
        = { num := 3, denom := 10 } ∧
      op_add_assign_value ({ num := 3, denom := 10 } : rational Z) ({ val := 2 } : integer Z)
        = { num := 23, denom := 10 }) ∧
    ((op_mul_assign { self := make Z 1 5, other := make Z 1 10 }).self
        = { num := 1, denom := 50 } ∧
      op_mul_assign_value ({ num := 1, denom := 50 } : rational Z) ({ val := 2 } : integer Z)
        = { num := 1, denom := 25 }) ∧
    ((op_div_assign { self := make Z 1 5, other := make Z 1 10 }).self
        = { num := 2, denom := 1 } ∧
      op_div_assign_value ({ num := 2, denom := 1 } : rational Z) ({ val := 2 } : integer Z)
        = { num := 1, denom := 1 })) ∧
    (∀ (T : IntType), T.valid → ∀ r s : rational T,
      T.inRange r.num → T.inRange r.denom → T.inRange s.num → T.inRange s.denom →
      (T.inRange (r.num * s.denom) →
        (T.common T).inRange (r.denom * s.num) →
        T.inRange (r.num * s.denom + r.denom * s.num) →
        ¬ T.isMin (r.num * s.denom + r.denom * s.num) →
        T.inRange (r.denom * s.denom) →
        ¬ T.isMin (r.denom * s.denom) →
        r.denom * s.denom ≠ 0 →
        (op_add_assign { self := r, other := s }).self.num = (op_add r s).num ∧
        (op_add_assign { self := r, other := s }).self.denom = (op_add r s).denom ∧
        (op_add_assign { self := r, other := s }).self.num = (make Z (r.num * s.denom + r.denom * s.num) (r.denom * s.denom)).num ∧
        (op_add_assign { self := r, other := s }).self.denom = (make Z (r.num * s.denom + r.denom * s.num) (r.denom * s.denom)).denom ∧
        (op_add_assign { self := r, other := s }).other = s) ∧
      (T.inRange (r.num * s.denom) →
        (T.common T).inRange (r.denom * s.num) →
        T.inRange (r.num * s.denom - r.denom * s.num) →
        ¬ T.isMin (r.num * s.denom - r.denom * s.num) →
        T.inRange (r.denom * s.denom) →
        ¬ T.isMin (r.denom * s.denom) →
        r.denom * s.denom ≠ 0 →
        (op_sub_assign { self := r, other := s }).self.num = (op_sub r s).num ∧
        (op_sub_assign { self := r, other := s }).self.denom = (op_sub r s).denom ∧
        (op_sub_assign { self := r, other := s }).self.num = (make Z (r.num * s.denom - r.denom * s.num) (r.denom * s.denom)).num ∧
        (op_sub_assign { self := r, other := s }).self.denom = (make Z (r.num * s.denom - r.denom * s.num) (r.denom * s.denom)).denom ∧
        (op_sub_assign { self := r, other := s }).other = s) ∧
      (T.inRange (r.num * s.num) →
        ¬ T.isMin (r.num * s.num) →
        T.inRange (r.denom * s.denom) →
        ¬ T.isMin (r.denom * s.denom) →
        r.denom * s.denom ≠ 0 →
        (op_mul_assign { self := r, other := s }).self.num = (op_mul r s).num ∧
        (op_mul_assign { self := r, other := s }).self.denom = (op_mul r s).denom ∧
        (op_mul_assign { self := r, other := s }).self.num = (make Z (r.num * s.num) (r.denom * s.denom)).num ∧
        (op_mul_assign { self := r, other := s }).self.denom = (make Z (r.num * s.num) (r.denom * s.denom)).denom ∧
        (op_mul_assign { self := r, other := s }).other = s) ∧
      (T.inRange (r.num * s.denom) →
        ¬ T.isMin (r.num * s.denom) →
        T.inRange (r.denom * s.num) →
        ¬ T.isMin (r.denom * s.num) →
        r.denom * s.num ≠ 0 →
        (op_div_assign { self := r, other := s }).self.num = (op_div r s).num ∧
        (op_div_assign { self := r, other := s }).self.denom = (op_div r s).denom ∧
        (op_div_assign { self := r, other := s }).self.num = (make Z (r.num * s.denom) (r.denom * s.num)).num ∧
        (op_div_assign { self := r, other := s }).self.denom = (make Z (r.num * s.denom) (r.denom * s.num)).denom ∧
        (op_div_assign { self := r, other := s }).other = s)) ∧
    (∀ (T : IntType), T.valid → ∀ (r : rational T) (v : Int), T.inRange v →
      (op_add_assign_value r ({ val := v } : integer T)
          = (op_add_assign { self := r, other := ({ num := v, denom := 1 } : rational T) }).self ∧
        op_add r ({ val := v } : integer T) = op_add r ({ num := v, denom := 1 } : rational T)) ∧
      (op_sub_assign_value r ({ val := v } : integer T)
          = (op_sub_assign { self := r, other := ({ num := v, denom := 1 } : rational T) }).self ∧
        op_sub r ({ val := v } : integer T) = op_sub r ({ num := v, denom := 1 } : rational T)) ∧
      (op_mul_assign_value r ({ val := v } : integer T)
          = (op_mul_assign { self := r, other := ({ num := v, denom := 1 } : rational T) }).self ∧
        op_mul r ({ val := v } : integer T) = op_mul r ({ num := v, denom := 1 } : rational T)) ∧
      (op_div_assign_value r ({ val := v } : integer T)
          = (op_div_assign { self := r, other := ({ num := v, denom := 1 } : rational T) }).self ∧
        op_div r ({ val := v } : integer T) = op_div r ({ num := v, denom := 1 } : rational T))) := by
  refine ⟨compound_binary_Z, ?_, ?_⟩
  · intro T hT r s hrn hrd hsn hsd
    refine ⟨?_, ?_, ?_, ?_⟩
    · intro h0 h1 h2 h3 h4 h5 h6
      have h := op_add_both_exact hT r s hrn hrd hsn hsd h0 h1 h2 h3 h4 h5 h6
      exact ⟨h.1.1.trans h.2.1.symm, h.1.2.1.trans h.2.2.symm, h.1.1, h.1.2.1, h.1.2.2⟩
    · intro h0 h1 h2 h3 h4 h5 h6
      have h := op_sub_both_exact hT r s hrn hrd hsn hsd h0 h1 h2 h3 h4 h5 h6
      exact ⟨h.1.1.trans h.2.1.symm, h.1.2.1.trans h.2.2.symm, h.1.1, h.1.2.1, h.1.2.2⟩
    · intro h0 h1 h2 h3 h4
      have h := op_mul_both_exact hT r s hrn hrd hsn hsd h0 h1 h2 h3 h4
      exact ⟨h.1.1.trans h.2.1.symm, h.1.2.1.trans h.2.2.symm, h.1.1, h.1.2.1, h.1.2.2⟩
    · intro h0 h1 h2 h3 h4
      have h := op_div_both_exact hT r s hrn hrd hsn hsd h0 h1 h2 h3 h4
      exact ⟨h.1.1.trans h.2.1.symm, h.1.2.1.trans h.2.2.symm, h.1.1, h.1.2.1, h.1.2.2⟩
  · intro T hT r v hv
    have hf : from_value T v = { num := v, denom := 1 } := by
      unfold from_value
      rw [IntType.wrap_of_inRange hT hv]
    refine ⟨⟨?_, rfl⟩, ⟨?_, rfl⟩, ⟨?_, rfl⟩, ⟨?_, rfl⟩⟩
    · unfold op_add_assign_value
      rw [hf]
    · unfold op_sub_assign_value
      rw [hf]
    · unfold op_mul_assign_value
      rw [hf]
    · unfold op_div_assign_value
      rw [hf]

/-- C10 at `r = (1, 5)` and `s = (1, 10)` over `int`. -/
theorem compound_eq_binary_witness :
    (op_add_assign
      { self := ({ num := 1, denom := 5 } : rational int32),
        other := ({ num := 1, denom := 10 } : rational int32) }).self.num
      = (op_add ({ num := 1, denom := 5 } : rational int32)
          ({ num := 1, denom := 10 } : rational int32)).num ∧
    (op_add_assign
      { self := ({ num := 1, denom := 5 } : rational int32),
        other := ({ num := 1, denom := 10 } : rational int32) }).self
      = { num := 3, denom := 10 } :=
  ⟨((compound_eq_binary.2.1 int32 (by decide) { num := 1, denom := 5 }
    { num := 1, denom := 10 } (by decide) (by decide) (by decide) (by decide)).1
      (by decide) (by decide) (by decide) (by decide) (by decide) (by decide) (by decide)).1, by decide⟩

/-- Additive inverses over the integers. -/
theorem add_inverse_Z :
    (∀ r : rational Z, Inv r →
      op_sub r r = { num := 0, denom := 1 } ∧
      (op_add r (op_neg r) : rational Z) = { num := 0, denom := 1 } ∧
      (op_add (op_neg r) r : rational Z) = { num := 0, denom := 1 } ∧
      op_neg r = { num := -r.num, denom := r.denom }) ∧
    (∀ a b : rational Z, Inv a → Inv b →
      (op_sub a b : rational Z) = op_add a (op_neg b)) ∧
    (op_sub (make int32 7 3) (make int32 7 3) : rational int32) = { num := 0, denom := 1 } ∧
    (op_add (make int32 7 3) (op_neg (make int32 7 3)) : rational int32)
      = { num := 0, denom := 1 } := by
  refine ⟨?_, ?_, by decide, by decide⟩
  · intro r hr
    have hd := hr.denom_ne_zero
    have hn := op_neg_Z_of_inv hr
    refine ⟨?_, ?_, ?_, hn⟩
    · rw [op_sub_Z, sub_self]
      exact make_Z_zero_num (mul_ne_zero hd hd)
    · rw [hn, op_add_Z]
      show make Z (r.denom * -r.num + r.denom * r.num) (r.denom * r.denom) = _
      rw [show r.denom * -r.num + r.denom * r.num = 0 by ring]
      exact make_Z_zero_num (mul_ne_zero hd hd)
    · rw [hn, op_add_Z]
      show make Z (r.denom * r.num + r.denom * -r.num) (r.denom * r.denom) = _
      rw [show r.denom * r.num + r.denom * -r.num = 0 by ring]
      exact make_Z_zero_num (mul_ne_zero hd hd)
  · intro a b _ hb
    rw [op_neg_Z_of_inv hb, op_sub_Z, op_add_Z]
    show make Z (a.num * b.denom - b.num * a.denom) (a.denom * b.denom) =
      make Z (a.denom * -b.num + b.denom * a.num) (a.denom * b.denom)
    rw [show a.num * b.denom - b.num * a.denom = a.denom * -b.num + b.denom * a.num by ring]

set_option maxRecDepth 8192 in
/-- Division inverts multiplication over the integers. -/
theorem div_mul_inverse_Z :
    (∀ a b : rational Z, Inv a → Inv b → b.num ≠ 0 →
      (op_mul (op_div a b) b : rational Z) = a ∧
      (op_div (op_mul a b) b : rational Z) = a ∧
      op_div b b = { num := 1, denom := 1 }) ∧
    (op_mul (op_div (make int32 3 4) (make int32 (-5) 6)) (make int32 (-5) 6) : rational int32)
      = { num := 3, denom := 4 } ∧
    (op_div (op_mul (make int32 3 4) (make int32 (-5) 6)) (make int32 (-5) 6) : rational int32)
      = { num := 3, denom := 4 } ∧
    (op_div (make int32 (-5) 6) (make int32 (-5) 6) : rational int32)
      = { num := 1, denom := 1 } := by
  refine ⟨?_, by decide, by decide, by decide⟩
  intro a b ha hb hn
  have had := ha.denom_ne_zero
  have hbd := hb.denom_ne_zero
  refine ⟨?_, ?_, ?_⟩
  · have hq0 : a.denom * b.num ≠ 0 := mul_ne_zero had hn
    have hq := make_Z_cross (a.num * b.denom) hq0
    have hqd := (make_Z_denom_pos (a.num * b.denom) hq0).ne'
    rw [op_div_Z, op_mul_Z]
    refine (make_Z_eq_of_cross (mul_ne_zero hqd hbd) had ?_).trans (make_Z_of_inv ha)
    linear_combination hq
  · have hp0 : a.denom * b.denom ≠ 0 := mul_ne_zero had hbd
    have hp := make_Z_cross (a.num * b.num) hp0
    have hpd := (make_Z_denom_pos (a.num * b.num) hp0).ne'
    rw [op_mul_Z, op_div_Z]
    refine (make_Z_eq_of_cross (mul_ne_zero hpd hn) had ?_).trans (make_Z_of_inv ha)
    linear_combination hp
  · rw [op_div_Z, mul_comm b.denom b.num]
    exact make_Z_same (mul_ne_zero hn hbd)

namespace IntType

theorem common_common_self (T : IntType) : (T.common T).common T = T.common T := by
  match T with
  | unbounded => rfl
  | fixed w s =>
    rw [common_self]
    rcases promote_cases w s with ⟨_, hP⟩ | ⟨hw, hP⟩
    · unfold common
      rw [hP]
      rfl
    · rw [hP]
      exact (common_self (fixed w s)).trans hP

theorem not_isMin_zero {T : IntType} (hT : T.valid) : ¬ T.isMin 0 := by
  match T, hT with
  | unbounded, _ => exact id
  | fixed w false, _ => exact id
  | fixed w true, _ =>
    intro h
    have hm : (0 : Int) = -(2 ^ (w - 1)) := h
    have hp := two_pow_pos (w - 1)
    omega

theorem not_isMin_of_pos {T : IntType} {x : Int} (hx : 0 < x) : ¬ T.isMin x := by
  match T with
  | unbounded => exact id
  | fixed w false => exact id
  | fixed w true =>
    intro h
    have hm : x = -(2 ^ (w - 1)) := h
    have hp := two_pow_pos (w - 1)
    omega

theorem signed_common_self {T : IntType} (hs : T.signed) : (T.common T).signed := by
  rw [common_self]
  match T, hs with
  | unbounded, _ => trivial
  | fixed w true, _ =>
    rcases promote_cases w true with ⟨_, hP⟩ | ⟨_, hP⟩
    · rw [hP]; rfl
    · rw [hP]; rfl

end IntType

/-- Additive inverses at a signed fixed-width element type, when no result overflows. -/
theorem add_inverse_exact {T : IntType} (hT : T.valid) (hs : T.signed) (r : rational T)
    (hrn : T.inRange r.num) (hrd : T.inRange r.denom) (hr : Inv r) (hmin : ¬ T.isMin r.num)
    (hp : (T.common T).inRange (r.num * r.denom))
    (hpm : ¬ (T.common T).isMin (r.num * r.denom))
    (hD : (T.common T).inRange (r.denom * r.denom)) :
    ((op_sub r r).num = 0 ∧ (op_sub r r).denom = 1) ∧
    ((op_add r (op_neg r)).num = 0 ∧ (op_add r (op_neg r)).denom = 1) ∧
    op_neg r = { num := -r.num, denom := r.denom } := by
  have hC := IntType.common_valid T T
  have hCs := IntType.signed_common_self hs
  have c := fun {x : Int} (h : T.inRange x) => IntType.inRange_common_self hT h
  have hd0 : r.denom ≠ 0 := hr.denom_ne_zero
  have hD0 : r.denom * r.denom ≠ 0 := mul_ne_zero hd0 hd0
  have hDm : ¬ (T.common T).isMin (r.denom * r.denom) :=
    IntType.not_isMin_of_pos (mul_pos hr.1 hr.1)
  have hz := rational.inRange_zero hC
  have hzm := IntType.not_isMin_zero hC
  have hneg := op_neg_of_inv hT hs hrn hrd hr hmin
  have hp2 : (T.common T).inRange (r.denom * r.num) := by rw [mul_comm]; exact hp
  refine ⟨?_, ?_, hneg⟩
  · have e : r.num * r.denom - r.num * r.denom = 0 := sub_self _
    have h := op_sub_exact r r (c hrn) (c hrd) (c hrn) (c hrd) hp hp (by rw [e]; exact hz)
      (by rw [e]; exact hzm) hD hDm hD0
    rw [e, make_Z_zero_num hD0] at h
    exact h
  · rw [hneg]
    have hnn := (IntType.inRange_neg hs hrn hmin).1
    have hnp := (IntType.inRange_neg hCs hp hpm).1
    have e : r.denom * -r.num + r.denom * r.num = 0 := by ring
    have h := op_add_exact r ({ num := -r.num, denom := r.denom } : rational T)
      (c hrn) (c hrd) (c hnn) (c hrd)
      (by show (T.common T).inRange (r.denom * -r.num)
          rw [show r.denom * -r.num = -(r.num * r.denom) by ring]; exact hnp)
      hp2
      (by show (T.common T).inRange (r.denom * -r.num + r.denom * r.num); rw [e]; exact hz)
      (by show ¬ (T.common T).isMin (r.denom * -r.num + r.denom * r.num); rw [e]; exact hzm)
      hD hDm hD0
    have h1 : (make Z (r.denom * -r.num + r.denom * r.num) (r.denom * r.denom))
        = { num := 0, denom := 1 } := by
      rw [e]
      exact make_Z_zero_num hD0
    exact ⟨h.1.trans (congrArg rational.num h1), h.2.trans (congrArg rational.denom h1)⟩

/-- Subtraction is addition of the negation, at a signed fixed-width element type when no
result overflows. -/
theorem sub_eq_add_neg_exact {T : IntType} (hT : T.valid) (hs : T.signed) (a b : rational T)
    (han : T.inRange a.num) (had : T.inRange a.denom) (hbn : T.inRange b.num)
    (hbd : T.inRange b.denom) (hb : Inv b) (hmin : ¬ T.isMin b.num)
    (h1 : (T.common T).inRange (a.num * b.denom)) (h2 : (T.common T).inRange (b.num * a.denom))
    (h2m : ¬ (T.common T).isMin (b.num * a.denom))
    (hN : (T.common T).inRange (a.num * b.denom - b.num * a.denom))
    (hNm : ¬ (T.common T).isMin (a.num * b.denom - b.num * a.denom))
    (hD : (T.common T).inRange (a.denom * b.denom))
    (hDm : ¬ (T.common T).isMin (a.denom * b.denom))
    (hD0 : a.denom * b.denom ≠ 0) :
    (op_sub a b).num = (op_add a (op_neg b)).num ∧
    (op_sub a b).denom = (op_add a (op_neg b)).denom ∧
    (op_sub a b).num = (make Z (a.num * b.denom - b.num * a.denom) (a.denom * b.denom)).num ∧
    (op_sub a b).denom
      = (make Z (a.num * b.denom - b.num * a.denom) (a.denom * b.denom)).denom := by
  have hCs := IntType.signed_common_self hs
  have c := fun {x : Int} (h : T.inRange x) => IntType.inRange_common_self hT h
  have hsub := op_sub_exact a b (c han) (c had) (c hbn) (c hbd) h1 h2 hN hNm hD hDm hD0
  have hneg := op_neg_of_inv hT hs hbn hbd hb hmin
  have hnn := (IntType.inRange_neg hs hbn hmin).1
  have hnp := (IntType.inRange_neg hCs h2 h2m).1
  have e : a.denom * -b.num + b.denom * a.num = a.num * b.denom - b.num * a.denom := by ring
  have hadd := op_add_exact a ({ num := -b.num, denom := b.denom } : rational T)
    (c han) (c had) (c hnn) (c hbd)
    (by show (T.common T).inRange (a.denom * -b.num)
        rw [show a.denom * -b.num = -(b.num * a.denom) by ring]; exact hnp)
    (by show (T.common T).inRange (b.denom * a.num); rw [mul_comm]; exact h1)
    (by show (T.common T).inRange (a.denom * -b.num + b.denom * a.num); rw [e]; exact hN)
    (by show ¬ (T.common T).isMin (a.denom * -b.num + b.denom * a.num); rw [e]; exact hNm)
    hD hDm hD0
  have h1' : (make Z (a.denom * -b.num + b.denom * a.num) (a.denom * b.denom))
      = make Z (a.num * b.denom - b.num * a.denom) (a.denom * b.denom) := by rw [e]
  rw [hneg]
  refine ⟨hsub.1.trans ?_, hsub.2.trans ?_, hsub.1, hsub.2⟩
  · exact ((hadd.1.trans (congrArg rational.num h1'))).symm
  · exact ((hadd.2.trans (congrArg rational.denom h1'))).symm

/-- Division then multiplication, at a fixed-width element type when no result overflows:
the quotient `a / b` is evaluated without overflow at the type, and its product with `b` in
the common type `C` of the quotient and `b`. -/
theorem div_mul_exact {T : IntType} (hT : T.valid) (a b : rational T)
    (han : T.inRange a.num) (had : T.inRange a.denom) (hbn : T.inRange b.num)
    (hbd : T.inRange b.denom) (ha : Inv a) (hb : Inv b) (hn : b.num ≠ 0)
    (hN : (T.common T).inRange (a.num * b.denom)) (hNm : ¬ (T.common T).isMin (a.num * b.denom))
    (hD : (T.common T).inRange (a.denom * b.num)) (hDm : ¬ (T.common T).isMin (a.denom * b.num))
    (hN2 : (T.common T).inRange ((op_div a b).num * b.num))
    (hN2m : ¬ (T.common T).isMin ((op_div a b).num * b.num))
    (hD2 : (T.common T).inRange ((op_div a b).denom * b.denom))
    (hD2m : ¬ (T.common T).isMin ((op_div a b).denom * b.denom)) :
    (op_mul (op_div a b) b).num = a.num ∧ (op_mul (op_div a b) b).denom = a.denom := by
  have hC := IntType.common_valid T T
  have hC2 := IntType.common_common_self T
  have c := fun {x : Int} (h : T.inRange x) => IntType.inRange_common_self hT h
  have k : ∀ {x : Int}, (T.common T).inRange x → ((T.common T).common T).inRange x := by
    intro x h
    rw [hC2]
    exact h
  have km : ∀ {x : Int}, ¬ (T.common T).isMin x → ¬ ((T.common T).common T).isMin x := by
    intro x h
    rw [hC2]
    exact h
  have hD0 : a.denom * b.num ≠ 0 := mul_ne_zero ha.denom_ne_zero hn
  have hq := op_div_exact a b (c han) (c had) (c hbn) (c hbd) hN hNm hD hDm hD0
  have hqn : (T.common T).inRange (op_div a b).num := IntType.wrap_inRange hC _
  have hqd : (T.common T).inRange (op_div a b).denom := IntType.wrap_inRange hC _
  have hqpos : 0 < (op_div a b).denom := by
    rw [hq.2]
    exact make_Z_denom_pos _ hD0
  have hD20 : (op_div a b).denom * b.denom ≠ 0 := mul_ne_zero hqpos.ne' hb.denom_ne_zero
  have hm := op_mul_exact (op_div a b) b (k hqn) (k hqd)
    (k (c hbn)) (k (c hbd)) (k hN2)
    (km hN2m) (k hD2) (km hD2m) hD20
  rw [hq.1, hq.2] at hm
  have hz := (div_mul_inverse_Z.1 { num := a.num, denom := a.denom }
    { num := b.num, denom := b.denom } ha hb hn).1
  have hz' : make Z ((make Z (a.num * b.denom) (a.denom * b.num)).num * b.num)
      ((make Z (a.num * b.denom) (a.denom * b.num)).denom * b.denom)
      = { num := a.num, denom := a.denom } := hz
  rw [hz'] at hm
  exact hm

/-- Multiplication then division, at a fixed-width element type when no result overflows. -/
theorem mul_div_exact {T : IntType} (hT : T.valid) (a b : rational T)
    (han : T.inRange a.num) (had : T.inRange a.denom) (hbn : T.inRange b.num)
    (hbd : T.inRange b.denom) (ha : Inv a) (hb : Inv b) (hn : b.num ≠ 0)
    (hN : (T.common T).inRange (a.num * b.num)) (hNm : ¬ (T.common T).isMin (a.num * b.num))
    (hD : (T.common T).inRange (a.denom * b.denom)) (hDm : ¬ (T.common T).isMin (a.denom * b.denom))
    (hN2 : (T.common T).inRange ((op_mul a b).num * b.denom))
    (hN2m : ¬ (T.common T).isMin ((op_mul a b).num * b.denom))
    (hD2 : (T.common T).inRange ((op_mul a b).denom * b.num))
    (hD2m : ¬ (T.common T).isMin ((op_mul a b).denom * b.num)) :
    (op_div (op_mul a b) b).num = a.num ∧ (op_div (op_mul a b) b).denom = a.denom := by
  have hC := IntType.common_valid T T
  have hC2 := IntType.common_common_self T
  have c := fun {x : Int} (h : T.inRange x) => IntType.inRange_common_self hT h
  have k : ∀ {x : Int}, (T.common T).inRange x → ((T.common T).common T).inRange x := by
    intro x h
    rw [hC2]
    exact h
  have km : ∀ {x : Int}, ¬ (T.common T).isMin x → ¬ ((T.common T).common T).isMin x := by
    intro x h
    rw [hC2]
    exact h
  have hD0 : a.denom * b.denom ≠ 0 := mul_ne_zero ha.denom_ne_zero hb.denom_ne_zero
  have hp := op_mul_exact a b (c han) (c had) (c hbn) (c hbd) hN hNm hD hDm hD0
  have hpn : (T.common T).inRange (op_mul a b).num := IntType.wrap_inRange hC _
  have hpd : (T.common T).inRange (op_mul a b).denom := IntType.wrap_inRange hC _
  have hppos : 0 < (op_mul a b).denom := by
    rw [hp.2]
    exact make_Z_denom_pos _ hD0
  have hD20 : (op_mul a b).denom * b.num ≠ 0 := mul_ne_zero hppos.ne' hn
  have hm := op_div_exact (op_mul a b) b (k hpn) (k hpd)
    (k (c hbn)) (k (c hbd)) (k hN2)
    (km hN2m) (k hD2) (km hD2m) hD20
  rw [hp.1, hp.2] at hm
  have hz := (div_mul_inverse_Z.1 { num := a.num, denom := a.denom }
    { num := b.num, denom := b.denom } ha hb hn).2.1
  have hz' : make Z ((make Z (a.num * b.num) (a.denom * b.denom)).num * b.denom)
      ((make Z (a.num * b.num) (a.denom * b.denom)).denom * b.num)
      = { num := a.num, denom := a.denom } := hz
  rw [hz'] at hm
  exact hm

/-- A value divided by itself, at a fixed-width element type when no result overflows. -/
theorem div_self_exact {T : IntType} (hT : T.valid) (b : rational T)
    (hbn : T.inRange b.num) (hbd : T.inRange b.denom) (hb : Inv b) (hn : b.num ≠ 0)
    (hN : (T.common T).inRange (b.num * b.denom)) (hNm : ¬ (T.common T).isMin (b.num * b.denom)) :
    (op_div b b).num = 1 ∧ (op_div b b).denom = 1 := by
  have hD0 : b.denom * b.num ≠ 0 := mul_ne_zero hb.denom_ne_zero hn
  have e : b.denom * b.num = b.num * b.denom := mul_comm _ _
  have c := fun {x : Int} (h : T.inRange x) => IntType.inRange_common_self hT h
  have h := op_div_exact b b (c hbn) (c hbd) (c hbn) (c hbd) hN hNm (by rw [e]; exact hN)
    (by rw [e]; exact hNm) hD0
  rw [e, make_Z_same (mul_ne_zero hn hb.denom_ne_zero)] at h
  exact h

/-- C32. Every rational has an additive inverse that cancels to the canonical zero: without
overflow, for every `r` satisfying the invariant the binary operators give `r - r = (0, 1)`
and `r + (-r) = (0, 1)` (also `(-r) + r = (0, 1)`), where `-r` is `(-r.num, r.denom)`, and
for all such `a`, `b`, `a - b` equals `a + (-b)` field for field.  For example, at the
element type `int`, `7/3 - 7/3` and `7/3 + (-(7/3))` are `(0, 1)`.
At every signed fixed-width element type the same holds whenever no overflow occurs: when
the products and the numerator and denominator the operators compute are values of the type
in which they evaluate, and those that are negated or passed to the constructor are not its
least value. -/
theorem additive_inverse :
    ((∀ r : rational Z, Inv r →
      op_sub r r = { num := 0, denom := 1 } ∧
      (op_add r (op_neg r) : rational Z) = { num := 0, denom := 1 } ∧
      (op_add (op_neg r) r : rational Z) = { num := 0, denom := 1 } ∧
      op_neg r = { num := -r.num, denom := r.denom }) ∧
    (∀ a b : rational Z, Inv a → Inv b →
      (op_sub a b : rational Z) = op_add a (op_neg b)) ∧
    (op_sub (make int32 7 3) (make int32 7 3) : rational int32) = { num := 0, denom := 1 } ∧
    (op_add (make int32 7 3) (op_neg (make int32 7 3)) : rational int32)
      = { num := 0, denom := 1 }) ∧
    (∀ (T : IntType), T.valid → T.signed → ∀ r : rational T,
      T.inRange r.num → T.inRange r.denom → Inv r → ¬ T.isMin r.num →
      (T.common T).inRange (r.num * r.denom) → ¬ (T.common T).isMin (r.num * r.denom) →
      (T.common T).inRange (r.denom * r.denom) →
      ((op_sub r r).num = 0 ∧ (op_sub r r).denom = 1) ∧
      ((op_add r (op_neg r)).num = 0 ∧ (op_add r (op_neg r)).denom = 1) ∧
      op_neg r = { num := -r.num, denom := r.denom }) ∧
    (∀ (T : IntType), T.valid → T.signed → ∀ a b : rational T,
      T.inRange a.num → T.inRange a.denom → T.inRange b.num → T.inRange b.denom →
      Inv b → ¬ T.isMin b.num →
      (T.common T).inRange (a.num * b.denom) → (T.common T).inRange (b.num * a.denom) →
      ¬ (T.common T).isMin (b.num * a.denom) →
      (T.common T).inRange (a.num * b.denom - b.num * a.denom) →
      ¬ (T.common T).isMin (a.num * b.denom - b.num * a.denom) →
      (T.common T).inRange (a.denom * b.denom) → ¬ (T.common T).isMin (a.denom * b.denom) →
      a.denom * b.denom ≠ 0 →
      (op_sub a b).num = (op_add a (op_neg b)).num ∧
      (op_sub a b).denom = (op_add a (op_neg b)).denom ∧
      (op_sub a b).num = (make Z (a.num * b.denom - b.num * a.denom) (a.denom * b.denom)).num ∧
      (op_sub a b).denom
        = (make Z (a.num * b.denom - b.num * a.denom) (a.denom * b.denom)).denom) :=
  ⟨add_inverse_Z,
    fun _ hT hs r h1 h2 h3 h4 h5 h6 h7 => add_inverse_exact hT hs r h1 h2 h3 h4 h5 h6 h7,
    fun _ hT hs a b h1 h2 h3 h4 h5 h6 h7 h8 h9 h10 h11 h12 h13 h14 =>
      sub_eq_add_neg_exact hT hs a b h1 h2 h3 h4 h5 h6 h7 h8 h9 h10 h11 h12 h13 h14⟩

/-- C32 at `r = (7, 3)` over `int`. -/
theorem additive_inverse_witness :
    IntType.valid int32 ∧ IntType.signed int32 ∧
    Inv ({ num := 7, denom := 3 } : rational int32) ∧
    ((op_sub ({ num := 7, denom := 3 } : rational int32)
        ({ num := 7, denom := 3 } : rational int32)).num = 0 ∧
      (op_sub ({ num := 7, denom := 3 } : rational int32)
        ({ num := 7, denom := 3 } : rational int32)).denom = 1) ∧
    ((op_add ({ num := 7, denom := 3 } : rational int32)
        (op_neg ({ num := 7, denom := 3 } : rational int32))).num = 0 ∧
      (op_add ({ num := 7, denom := 3 } : rational int32)
        (op_neg ({ num := 7, denom := 3 } : rational int32))).denom = 1) :=
  have h := additive_inverse.2.1 int32 (by decide) (by decide) { num := 7, denom := 3 }
    (by decide) (by decide) (by decide) (by decide) (by decide) (by decide) (by decide)
  ⟨by decide, by decide, by decide, h.1, h.2.1⟩

set_option maxRecDepth 8192 in
/-- C33. Division inverts multiplication: without overflow, for all `a`, `b` satisfying the
invariant with `b.num ≠ 0`, `(a / b) * b` equals `a` field for field, `(a * b) / b` equals
`a` field for field, and `b / b = (1, 1)`.  For example, at the element type `int`,
`((3/4) / (-5/6)) * (-5/6)` is `(3, 4)`.
At every fixed-width element type the same holds whenever no overflow occurs: when the
numerator and denominator each operator passes to the constructor are values of the type in
which it evaluates, and not its least value. -/
theorem div_inverts_mul :
    ((∀ a b : rational Z, Inv a → Inv b → b.num ≠ 0 →
      (op_mul (op_div a b) b : rational Z) = a ∧
      (op_div (op_mul a b) b : rational Z) = a ∧
      op_div b b = { num := 1, denom := 1 }) ∧
    (op_mul (op_div (make int32 3 4) (make int32 (-5) 6)) (make int32 (-5) 6) : rational int32)
      = { num := 3, denom := 4 } ∧
    (op_div (op_mul (make int32 3 4) (make int32 (-5) 6)) (make int32 (-5) 6) : rational int32)
      = { num := 3, denom := 4 } ∧
    (op_div (make int32 (-5) 6) (make int32 (-5) 6) : rational int32)
      = { num := 1, denom := 1 }) ∧
    (∀ (T : IntType), T.valid → ∀ a b : rational T,
      T.inRange a.num → T.inRange a.denom → T.inRange b.num → T.inRange b.denom →
      Inv a → Inv b → b.num ≠ 0 →
      ((T.common T).inRange (a.num * b.denom) → ¬ (T.common T).isMin (a.num * b.denom) →
        (T.common T).inRange (a.denom * b.num) → ¬ (T.common T).isMin (a.denom * b.num) →
        (T.common T).inRange ((op_div a b).num * b.num) →
        ¬ (T.common T).isMin ((op_div a b).num * b.num) →
        (T.common T).inRange ((op_div a b).denom * b.denom) →
        ¬ (T.common T).isMin ((op_div a b).denom * b.denom) →
        (op_mul (op_div a b) b).num = a.num ∧ (op_mul (op_div a b) b).denom = a.denom) ∧
      ((T.common T).inRange (a.num * b.num) → ¬ (T.common T).isMin (a.num * b.num) →
        (T.common T).inRange (a.denom * b.denom) → ¬ (T.common T).isMin (a.denom * b.denom) →
        (T.common T).inRange ((op_mul a b).num * b.denom) →
        ¬ (T.common T).isMin ((op_mul a b).num * b.denom) →
        (T.common T).inRange ((op_mul a b).denom * b.num) →
        ¬ (T.common T).isMin ((op_mul a b).denom * b.num) →
        (op_div (op_mul a b) b).num = a.num ∧ (op_div (op_mul a b) b).denom = a.denom) ∧
      ((T.common T).inRange (b.num * b.denom) → ¬ (T.common T).isMin (b.num * b.denom) →
        (op_div b b).num = 1 ∧ (op_div b b).denom = 1)) :=
  ⟨div_mul_inverse_Z,
    fun _ hT a b h1 h2 h3 h4 ha hb hn =>
      ⟨fun k1 k2 k3 k4 k5 k6 k7 k8 =>
          div_mul_exact hT a b h1 h2 h3 h4 ha hb hn k1 k2 k3 k4 k5 k6 k7 k8,
        fun k1 k2 k3 k4 k5 k6 k7 k8 =>
          mul_div_exact hT a b h1 h2 h3 h4 ha hb hn k1 k2 k3 k4 k5 k6 k7 k8,
        fun k1 k2 => div_self_exact hT b h3 h4 hb hn k1 k2⟩⟩

set_option maxRecDepth 8192 in
/-- C33 at `a = (3, 4)` and `b = (-5, 6)` over `int`. -/
theorem div_inverts_mul_witness :
    Inv ({ num := 3, denom := 4 } : rational int32) ∧
    Inv ({ num := -5, denom := 6 } : rational int32) ∧ (-5 : Int) ≠ 0 ∧
    ((op_mul (op_div ({ num := 3, denom := 4 } : rational int32)
        ({ num := -5, denom := 6 } : rational int32))
        ({ num := -5, denom := 6 } : rational int32)).num = 3 ∧
      (op_mul (op_div ({ num := 3, denom := 4 } : rational int32)
        ({ num := -5, denom := 6 } : rational int32))
        ({ num := -5, denom := 6 } : rational int32)).denom = 4) ∧
    ((op_div ({ num := -5, denom := 6 } : rational int32)
        ({ num := -5, denom := 6 } : rational int32)).num = 1 ∧
      (op_div ({ num := -5, denom := 6 } : rational int32)
        ({ num := -5, denom := 6 } : rational int32)).denom = 1) :=
  have h := div_inverts_mul.2 int32 (by decide) { num := 3, denom := 4 }
    { num := -5, denom := 6 } (by decide) (by decide) (by decide) (by decide) (by decide)
    (by decide) (by decide)
  ⟨by decide, by decide, by decide,
    h.1 (by decide) (by decide) (by decide) (by decide) (by decide) (by decide) (by decide)
      (by decide),
    h.2.2 (by decide) (by decide)⟩


/-! ## Compound subtraction at an unsigned element type -/

/-- The pair that `operator-=` stores before `simplify()` at an unsigned type: the exact
numerator and denominator reduced modulo `2 ^ w`. -/
theorem op_sub_assign_unsigned (w : Nat) (hw : 0 < w) (r s : rational (IntType.fixed w false)) :
    (op_sub_assign { self := r, other := s }).self
      = make (IntType.fixed w false) ((r.num * s.denom - r.denom * s.num) % 2 ^ w) ((r.denom * s.denom) % 2 ^ w) ∧
    op_sub_assign_checked { self := r, other := s }
      = (make_checked (IntType.fixed w false) ((r.num * s.denom - r.denom * s.num) % 2 ^ w) ((r.denom * s.denom) % 2 ^ w)).map
          (fun x => { self := x, other := s }) ∧
    IntType.inRange (IntType.fixed w false) ((r.num * s.denom - r.denom * s.num) % 2 ^ w) ∧ IntType.inRange (IntType.fixed w false) ((r.denom * s.denom) % 2 ^ w) ∧
    make (IntType.fixed w false) ((r.num * s.denom - r.denom * s.num) % 2 ^ w) ((r.denom * s.denom) % 2 ^ w)
      = { num := ((r.num * s.denom - r.denom * s.num) % 2 ^ w) / (Int.gcd ((r.num * s.denom - r.denom * s.num) % 2 ^ w) ((r.denom * s.denom) % 2 ^ w) : Int), denom := ((r.denom * s.denom) % 2 ^ w) / (Int.gcd ((r.num * s.denom - r.denom * s.num) % 2 ^ w) ((r.denom * s.denom) % 2 ^ w) : Int) } := by
  have hm := IntType.common_self_unsigned_modEq w
  have hp := IntType.two_pow_pos w
  have hnum : IntType.wrap (IntType.fixed w false)
      ((IntType.common (IntType.fixed w false) (IntType.fixed w false)).sub
        (IntType.wrap (IntType.fixed w false)
          ((IntType.common (IntType.fixed w false) (IntType.fixed w false)).mul r.num s.denom))
        ((IntType.common (IntType.fixed w false) (IntType.fixed w false)).mul r.denom s.num))
      = (r.num * s.denom - r.denom * s.num) % 2 ^ w := by
    have e1 : (IntType.common (IntType.fixed w false) (IntType.fixed w false)).mul r.num s.denom
        ≡ r.num * s.denom [ZMOD 2 ^ w] :=
      (hm _).trans ((hm _).mul (hm _))
    have e2 : (IntType.common (IntType.fixed w false) (IntType.fixed w false)).mul r.denom s.num
        ≡ r.denom * s.num [ZMOD 2 ^ w] :=
      (hm _).trans ((hm _).mul (hm _))
    have e3 : IntType.wrap (IntType.fixed w false)
        ((IntType.common (IntType.fixed w false) (IntType.fixed w false)).mul r.num s.denom)
        ≡ r.num * s.denom [ZMOD 2 ^ w] :=
      (Int.mod_modEq _ _).trans e1
    exact (hm _).trans (((hm _).trans e3).sub ((hm _).trans e2))
  have hden : IntType.wrap (IntType.fixed w false)
      ((IntType.common (IntType.fixed w false) (IntType.fixed w false)).mul r.denom s.denom)
      = (r.denom * s.denom) % 2 ^ w :=
    (hm _).trans ((hm _).mul (hm _))
  have hr1 : IntType.inRange (IntType.fixed w false)
      ((r.num * s.denom - r.denom * s.num) % 2 ^ w) :=
    ⟨Int.emod_nonneg _ (by omega), Int.emod_lt_of_pos _ hp⟩
  have hr2 : IntType.inRange (IntType.fixed w false) ((r.denom * s.denom) % 2 ^ w) :=
    ⟨Int.emod_nonneg _ (by omega), Int.emod_lt_of_pos _ hp⟩
  have hmk := make_unsigned hw hr1 hr2
  refine ⟨?_, ?_, hr1, hr2, hmk⟩
  · show simplify _ = make _ _ _
    unfold make
    congr 1
    show ({ num := _, denom := _ } : rational (IntType.fixed w false)) = _
    rw [hnum, hden]
  · have hc : op_sub_assign_checked { self := r, other := s }
        = (make_checked (IntType.fixed w false)
            (IntType.wrap (IntType.fixed w false)
              ((IntType.common (IntType.fixed w false) (IntType.fixed w false)).sub
                (IntType.wrap (IntType.fixed w false)
                  ((IntType.common (IntType.fixed w false) (IntType.fixed w false)).mul
                    r.num s.denom))
                ((IntType.common (IntType.fixed w false) (IntType.fixed w false)).mul
                  r.denom s.num)))
            (IntType.wrap (IntType.fixed w false)
              ((IntType.common (IntType.fixed w false) (IntType.fixed w false)).mul
                r.denom s.denom))).map (fun x => { self := x, other := s }) := rfl
    rw [hc, hnum, hden]

/-- C26 (amended). At an unsigned element type of width `w` (in particular 8, 16, 32, 64)
compound subtraction wraps modulo `2 ^ w`: unless both wrapped values are 0, `r -= s`
returns and leaves numerator `((n * d2 - d * n2) mod 2 ^ w) / g` and denominator
`((d * d2) mod 2 ^ w) / g`, where `g` is the greatest common divisor of those two wrapped
values, and `s` is unchanged.  When both wrapped values are 0, `simplify()` divides by
`g = 0` and `r -= s` does not return.  Moreover at each of the four widths, starting from
`make(1,5)`, `-= make(1,10)` gives `(1, 10)` and then `-= 2` gives numerator `2 ^ w - 19`
and denominator 10. -/
theorem unsigned_sub_assign_wraps :
    (∀ (w : Nat), 0 < w → ∀ r s : rational (IntType.fixed w false),
      (¬ (((r.num * s.denom - r.denom * s.num) % 2 ^ w) = 0 ∧ ((r.denom * s.denom) % 2 ^ w) = 0) →
        op_sub_assign_checked { self := r, other := s }
          = some (op_sub_assign { self := r, other := s }) ∧
        (op_sub_assign { self := r, other := s }).self =
          { num := ((r.num * s.denom - r.denom * s.num) % 2 ^ w) / (Int.gcd ((r.num * s.denom - r.denom * s.num) % 2 ^ w) ((r.denom * s.denom) % 2 ^ w) : Int),
            denom := ((r.denom * s.denom) % 2 ^ w) / (Int.gcd ((r.num * s.denom - r.denom * s.num) % 2 ^ w) ((r.denom * s.denom) % 2 ^ w) : Int) } ∧
        (op_sub_assign { self := r, other := s }).other = s) ∧
      ((((r.num * s.denom - r.denom * s.num) % 2 ^ w) = 0 ∧ ((r.denom * s.denom) % 2 ^ w) = 0) →
        op_sub_assign_checked { self := r, other := s } = none)) ∧
    ((op_sub_assign { self := make uint8 1 5, other := make uint8 1 10 }).self
        = { num := 1, denom := 10 } ∧
      op_sub_assign_value ({ num := 1, denom := 10 } : rational uint8)
        ({ val := 2 } : integer uint8) = { num := 2 ^ 8 - 19, denom := 10 }) ∧
    ((op_sub_assign { self := make uint16 1 5, other := make uint16 1 10 }).self
        = { num := 1, denom := 10 } ∧
      op_sub_assign_value ({ num := 1, denom := 10 } : rational uint16)
        ({ val := 2 } : integer uint16) = { num := 2 ^ 16 - 19, denom := 10 }) ∧
    ((op_sub_assign { self := make uint32 1 5, other := make uint32 1 10 }).self
        = { num := 1, denom := 10 } ∧
      op_sub_assign_value ({ num := 1, denom := 10 } : rational uint32)
        ({ val := 2 } : integer uint32) = { num := 2 ^ 32 - 19, denom := 10 }) ∧
    ((op_sub_assign { self := make uint64 1 5, other := make uint64 1 10 }).self
        = { num := 1, denom := 10 } ∧
      op_sub_assign_value ({ num := 1, denom := 10 } : rational uint64)
        ({ val := 2 } : integer uint64) = { num := 2 ^ 64 - 19, denom := 10 }) ∧
    op_sub_assign_checked
        { self := ({ num := 1, denom := 10 } : rational uint8),
          other := ({ num := 2, denom := 1 } : rational uint8) }
      = some { self := { num := 2 ^ 8 - 19, denom := 10 }, other := { num := 2, denom := 1 } } := by
  refine ⟨?_, by decide, by decide, by decide, by decide, by decide⟩
  intro w hw r s
  obtain ⟨hself, hchk, hN, hD, hmk⟩ := op_sub_assign_unsigned w hw r s
  have hT : IntType.valid (IntType.fixed w false) := hw
  constructor
  · intro h0
    refine ⟨?_, hself.trans hmk, rfl⟩
    have ho : op_sub_assign { self := r, other := s }
        = { self := (op_sub_assign { self := r, other := s }).self, other := s } := rfl
    rw [hchk, ho, hself, make_checked_eq_some hT hN hD h0
      (fun h => by have := hD.1; omega) (fun h => by have := hN.1; omega)]
    rfl
  · intro hz
    rw [hchk, hz.1, hz.2, make_checked_zero_zero hT]
    rfl

/-- C26 (amended) at `unsigned char` with `r = (1, 10)` and `s = (2, 1)`. -/
theorem unsigned_sub_assign_wraps_witness :
    0 < 8 ∧
    ¬ ((((1 : Int) * 1 - 10 * 2) % 2 ^ 8) = 0 ∧ (((10 : Int) * 1) % 2 ^ 8) = 0) ∧
    op_sub_assign_checked
        { self := ({ num := 1, denom := 10 } : rational (IntType.fixed 8 false)),
          other := ({ num := 2, denom := 1 } : rational (IntType.fixed 8 false)) }
      = some (op_sub_assign
        { self := ({ num := 1, denom := 10 } : rational (IntType.fixed 8 false)),
          other := ({ num := 2, denom := 1 } : rational (IntType.fixed 8 false)) }) ∧
    (op_sub_assign
        { self := ({ num := 1, denom := 10 } : rational (IntType.fixed 8 false)),
          other := ({ num := 2, denom := 1 } : rational (IntType.fixed 8 false)) }).self =
      { num := 237, denom := 10 } :=
  ⟨by decide, by decide,
    ((unsigned_sub_assign_wraps.1 8 (by decide) { num := 1, denom := 10 }
      { num := 2, denom := 1 }).1 (by decide)).1, by decide⟩

/-- C26 as stated fails. At `unsigned char`, `r = (1, 16)` and `s = (17, 16)` satisfy the
invariant and the true difference is `-1`; both wrapped values, `-256` and `256` modulo
`2 ^ 8`, are 0, and `r -= s` has no result: `simplify()` divides by `g = 0`. -/
theorem unsigned_sub_assign_zero_zero :
    Inv ({ num := 1, denom := 16 } : rational uint8) ∧
    Inv ({ num := 17, denom := 16 } : rational uint8) ∧
    IntType.inRange uint8 1 ∧ IntType.inRange uint8 16 ∧ IntType.inRange uint8 17 ∧
    ((1 : Int) * 16 - 16 * 17) % 2 ^ 8 = 0 ∧ ((16 : Int) * 16) % 2 ^ 8 = 0 ∧
    op_sub_assign_checked
        { self := ({ num := 1, denom := 16 } : rational uint8),
          other := ({ num := 17, denom := 16 } : rational uint8) } = none := by
  decide

end tcb
